import Mathlib

/-!
Verification of the grid shortest-path visualizer: a shallow embedding of
`node.py`, `grid.py`, `pathfinder.py` and `wall_generator.py`, together with
proofs about the embedded operations.

Modelling conventions:
* A `Node` object's identity is its `(row, col)` position (`Pos`); the grid
  owns exactly one node per cell, and Python's default object equality on
  nodes therefore coincides with position equality.  Object references held
  in `neighbors`, `previous`, `start_node`, `end_node` are modelled as
  positions.
* The cell array is a total function `Pos → NodeData`; only in-bounds
  positions are ever read or written by the embedded operations, mirroring
  the source where out-of-bounds nodes simply do not exist.
* `float('inf')` distances are `(⊤ : WithTop Nat)`; all finite distances the
  algorithm produces are naturals.
* The pixel fields `x`, `y` are the fixed projection `col * CELL_SIZE`,
  `row * CELL_SIZE` of the identity and are not stored.
* `time.sleep` calls and the `nodes_processed` / `sleep_frequency` pacing
  bookkeeping have no observable effect on the algorithm's state or result
  and are dropped.
-/

/-- Grid positions `(row, col)`. -/
abbrev Pos := Nat × Nat

/-- RGB color triples, from `constants.py`. -/
abbrev Color := Nat × Nat × Nat

/-- constants.py `WALL`. -/
def WALL : Color := (18, 18, 24)

/-- constants.py `NODE_START`. -/
def NODE_START : Color := (255, 85, 114)

/-- constants.py `NODE_END`. -/
def NODE_END : Color := (46, 213, 115)

/-- constants.py `NODE_VISITED`. -/
def NODE_VISITED : Color := (33, 150, 243)

/-- constants.py `NODE_PATH`. -/
def NODE_PATH : Color := (255, 193, 7)

/-- constants.py `NODE_NEIGHBOR`. -/
def NODE_NEIGHBOR : Color := (77, 208, 225)

/-- constants.py `NODE_DEFAULT`. -/
def NODE_DEFAULT : Color := (30, 32, 40)

/-- constants.py `GRID_ROWS = WINDOW_HEIGHT // CELL_SIZE = 720 // 12`. -/
def GRID_ROWS : Nat := 60

/-- constants.py `GRID_COLS = (WINDOW_WIDTH - 250) // CELL_SIZE = 1190 // 12`. -/
def GRID_COLS : Nat := 99

/-- The mutable fields of node.py `Node`.  The `row`/`col` identity is the
`Pos` under which the grid stores the node. -/
structure NodeData where
  color : Color := NODE_DEFAULT
  neighbors : List Pos := []
  is_wall : Bool := false
  distance : WithTop Nat := ⊤
  previous : Option Pos := none
  visited : Bool := false
deriving Repr, DecidableEq

/-- node.py `Node.reset`: default color, wall flag cleared, search bookkeeping
cleared; the `neighbors` list is left as it is. -/
def NodeData.reset (n : NodeData) : NodeData :=
  { n with color := NODE_DEFAULT, is_wall := false, distance := ⊤,
           previous := none, visited := false }

/-- node.py `Node.make_wall`. -/
def NodeData.make_wall (n : NodeData) : NodeData :=
  { n with is_wall := true, color := WALL }

/-- node.py `Node.make_path`. -/
def NodeData.make_path (n : NodeData) : NodeData :=
  { n with color := NODE_PATH }

/-- node.py `Node.make_start`. -/
def NodeData.make_start (n : NodeData) : NodeData :=
  { n with color := NODE_START }

/-- node.py `Node.make_end`. -/
def NodeData.make_end (n : NodeData) : NodeData :=
  { n with color := NODE_END }

/-- node.py `Node.make_visited`. -/
def NodeData.make_visited (n : NodeData) : NodeData :=
  { n with color := NODE_VISITED }

/-- node.py `Node.make_unvisited_neighbor`. -/
def NodeData.make_unvisited_neighbor (n : NodeData) : NodeData :=
  { n with color := NODE_NEIGHBOR }

/-- grid.py `Grid`.  In the application `rows`/`cols` are always
`GRID_ROWS`/`GRID_COLS`; they are kept as fields so that the specification's
test grids (10×10, tiny grids) are expressible with the same definitions. -/
structure Grid where
  rows : Nat
  cols : Nat
  cells : Pos → NodeData
  start_node : Option Pos := none
  end_node : Option Pos := none

/-- Positions the grid actually owns a node for. -/
def Grid.inBounds (g : Grid) (p : Pos) : Prop :=
  p.1 < g.rows ∧ p.2 < g.cols

instance (g : Grid) (p : Pos) : Decidable (g.inBounds p) := by
  unfold Grid.inBounds
  infer_instance

/-- grid.py `Grid.get_node`: bounds-checked lookup.  The returned node object
is identified by its position.  Coordinates are `Int` because callers probe
with offsets that can go negative. -/
def Grid.get_node (g : Grid) (row col : Int) : Option Pos :=
  if 0 ≤ row ∧ row < (g.rows : Int) ∧ 0 ≤ col ∧ col < (g.cols : Int) then
    some (row.toNat, col.toNat)
  else none

/-- Pointwise update of one cell, modelling in-place mutation of one node. -/
def Grid.updateCell (g : Grid) (p : Pos) (f : NodeData → NodeData) : Grid :=
  { g with cells := fun q => if q = p then f (g.cells q) else g.cells q }

/-- The cardinal direction offsets of `Grid.set_neighbors`, in source order:
right, left, down, up (`(dx, dy)` is added to `(row, col)`). -/
def directions : List (Int × Int) := [(0, 1), (0, -1), (1, 0), (-1, 0)]

/-- The neighbor list `Grid.set_neighbors` computes for the node at `p`:
its in-bounds, non-wall cardinal neighbors. -/
def Grid.neighborList (g : Grid) (p : Pos) : List Pos :=
  directions.filterMap fun d =>
    match g.get_node ((p.1 : Int) + d.1) ((p.2 : Int) + d.2) with
    | some q => if (g.cells q).is_wall then none else some q
    | none => none

/-- grid.py `Grid.set_neighbors`: rebuilds every node's neighbor list.  The
loop reads only `is_wall` flags, which it never writes, so the sequential
source loop and this simultaneous update agree. -/
def Grid.set_neighbors (g : Grid) : Grid :=
  { g with cells := fun p =>
      if g.inBounds p then { g.cells p with neighbors := g.neighborList p }
      else g.cells p }

/-- grid.py `Grid.clear_path`: resets every node that is not a wall and is
not the (identity-compared) start or end node. -/
def Grid.clear_path (g : Grid) : Grid :=
  { g with cells := fun p =>
      if g.inBounds p ∧ (g.cells p).is_wall = false ∧
          some p ≠ g.start_node ∧ some p ≠ g.end_node then
        (g.cells p).reset
      else g.cells p }

/-- One traversal move of the search graph: `q` is a cardinal neighbor of
`p` that is in bounds and not a wall (the cell being left is not
re-examined, matching the search). -/
def Grid.step (g : Grid) (p q : Pos) : Prop :=
  g.inBounds q ∧ (g.cells q).is_wall = false ∧
    ((q.1 = p.1 ∧ (q.2 = p.2 + 1 ∨ p.2 = q.2 + 1)) ∨
     (q.2 = p.2 ∧ (q.1 = p.1 + 1 ∨ p.1 = q.1 + 1)))

instance (g : Grid) (p q : Pos) : Decidable (g.step p q) := by
  unfold Grid.step
  infer_instance

/-- A walk of exactly `n` cardinal moves from `s` to `t`, each move entering
an in-bounds non-wall cell. -/
def Grid.pathLen (g : Grid) (s t : Pos) : Nat → Prop
  | 0 => s = t
  | n + 1 => ∃ q, g.step s q ∧ g.pathLen q t n

/-- `t` is reachable from `s` by cardinal moves through non-wall cells. -/
def Grid.reach (g : Grid) (s t : Pos) : Prop :=
  ∃ n, g.pathLen s t n

/-- A heap entry `(distance, unique_id, node)` as pushed by the search.  All
entries of one run have pairwise distinct `(distance, id)` key pairs (each
node is pushed at most once, `dijkstra_stats_clean`, and `id` is injective on
live objects), so `heapq`'s pop order is the unique ascending key order; the
heap is therefore modelled as a list kept key-sorted, popped at the head. -/
abbrev PQEntry := WithTop Nat × Nat × Pos

/-- Key order of heap entries: lexicographic on `(distance, unique_id)`,
exactly the tuple comparison `heapq` performs (the third component is never
compared because key pairs are distinct). -/
def pqLe (a b : PQEntry) : Prop :=
  a.1 < b.1 ∨ (a.1 = b.1 ∧ a.2.1 ≤ b.2.1)

instance : DecidableRel pqLe := by
  unfold pqLe
  infer_instance

instance : IsTotal PQEntry pqLe := by
  constructor
  intro a b
  unfold pqLe
  rcases lt_trichotomy a.1 b.1 with h | h | h
  · exact Or.inl (Or.inl h)
  · rcases le_total a.2.1 b.2.1 with h2 | h2
    · exact Or.inl (Or.inr ⟨h, h2⟩)
    · exact Or.inr (Or.inr ⟨h.symm, h2⟩)
  · exact Or.inr (Or.inl h)

instance : IsTrans PQEntry pqLe := by
  constructor
  intro a b c hab hbc
  unfold pqLe at *
  rcases hab with h1 | ⟨h1, h1'⟩ <;> rcases hbc with h2 | ⟨h2, h2'⟩
  · exact Or.inl (h1.trans h2)
  · exact Or.inl (h2 ▸ h1)
  · exact Or.inl (h1 ▸ h2)
  · exact Or.inr ⟨h1.trans h2, h1'.trans h2'⟩

/-- `heapq.heappush` on the sorted-list heap model. -/
def pqPush (e : PQEntry) (pq : List PQEntry) : List PQEntry :=
  List.orderedInsert pqLe e pq

/-- Ghost observations of one `dijkstra` run.  They record which branches
executed and in which order nodes moved through the heap; they never feed
back into the algorithm.  `pops` lists every position popped from the heap
in order; `pushes` lists every position ever placed on the heap (the seeded
start node included); `stale` counts executions of the discard branch for a
popped node that is no longer in `unvisited_set`; `requeued` counts
relaxations that improved the recorded distance of a node currently in
`unvisited_set` (which do not re-push the node). -/
structure RunStats where
  pops : List Pos := []
  pushes : List Pos := []
  stale : Nat := 0
  requeued : Nat := 0
deriving Repr, DecidableEq

/-- The mutable state of one `dijkstra` main loop: the grid, the heap `pq`,
`unvisited_set`, the next poll index `c` of the control callbacks, and the
ghost observations. -/
structure LoopState where
  g : Grid
  pq : List PQEntry
  uv : Finset Pos
  c : Nat
  stats : RunStats

/-- The busy-wait `while should_pause() and not should_stop(): time.sleep(0.1)`.
The callbacks are streams read at successive poll indices; the result is the
poll index at which the re-check `if should_stop()` that follows the loop
will read.  `none` models a wait that does not exit within `fuel` rounds. -/
def pauseWait (pauses stops : Nat → Bool) : Nat → Nat → Option Nat
  | 0, _ => none
  | fuel + 1, c =>
    if pauses c = false then some (c + 1)
    else if stops (c + 1) = true then some (c + 2)
    else pauseWait pauses stops fuel (c + 2)

/-- The body of `for neighbor in current_node.neighbors` in `dijkstra`:
relax one neighbor `nb` of the node `cur` being processed (`e` is the goal
node, whose frontier recoloring is skipped). -/
def relaxOne (nid : Pos → Nat) (e cur : Pos) (st : LoopState) (nb : Pos) :
    LoopState :=
  if (st.g.cells nb).visited then st
  else
    let newDist := (st.g.cells cur).distance + 1
    if newDist < (st.g.cells nb).distance then
      let g1 := st.g.updateCell nb fun n =>
        { n with distance := newDist, previous := some cur }
      if nb ∈ st.uv then
        { st with
            g := g1
            stats := { st.stats with requeued := st.stats.requeued + 1 } }
      else
        let g2 := if nb = e then g1 else g1.updateCell nb NodeData.make_unvisited_neighbor
        { st with
            g := g2
            uv := insert nb st.uv
            pq := pqPush (newDist, nid nb, nb) st.pq
            stats := { st.stats with pushes := st.stats.pushes ++ [nb] } }
    else st

/-- The `while pq:` main loop of `Pathfinder.dijkstra`.  One fuel unit is
consumed per iteration; `none` models a run that neither terminates nor
exits within `fuel` iterations (only possible through unbounded pausing,
see `loopGo_master`). -/
def loopGo (nid : Pos → Nat) (pauses stops : Nat → Bool) (s e : Pos) :
    Nat → LoopState → Option (Bool × Grid × RunStats)
  | 0, _ => none
  | fuel + 1, st =>
    match st.pq with
    | [] => some (false, st.g, st.stats)
    | (_, _, cur) :: rest =>
      if stops st.c = true then some (false, st.g, st.stats)
      else
        match pauseWait pauses stops (fuel + 1) (st.c + 1) with
        | none => none
        | some c1 =>
          if stops c1 = true then some (false, st.g, st.stats)
          else
            let st1 : LoopState :=
              { st with
                  pq := rest
                  c := c1 + 1
                  stats := { st.stats with pops := st.stats.pops ++ [cur] } }
            if cur ∈ st.uv then
              let st2 : LoopState :=
                { st1 with
                    uv := st1.uv.erase cur
                    g := st1.g.updateCell cur fun n => { n with visited := true } }
              if cur = e then some (true, st2.g, st2.stats)
              else
                let st3 : LoopState :=
                  if cur = s then st2
                  else { st2 with g := st2.g.updateCell cur NodeData.make_visited }
                loopGo nid pauses stops s e fuel
                  ((st3.g.cells cur).neighbors.foldl (relaxOne nid e cur) st3)
            else
              loopGo nid pauses stops s e fuel
                { st1 with stats := { st1.stats with stale := st1.stats.stale + 1 } }

/-- The per-run reset loop at the top of `Pathfinder.dijkstra`: every node's
search bookkeeping is cleared, and non-wall nodes other than the start and
end arguments are additionally fully `reset` (clearing their color). -/
def dijkstraReset (g : Grid) (s e : Pos) : Grid :=
  { g with cells := fun p =>
      if g.inBounds p then
        let n1 := { g.cells p with
                      distance := (⊤ : WithTop Nat)
                      previous := none
                      visited := false }
        if n1.is_wall = false ∧ p ≠ s ∧ p ≠ e then n1.reset else n1
      else g.cells p }

/-- pathfinder.py `Pathfinder.dijkstra`.  `nid` models CPython `id`: a key
fixed for the lifetime of the node objects, used only as the heap tie-break.
`pauses`/`stops` model the `should_pause`/`should_stop` callbacks as streams
read at successive poll indices.  The `speed` pacing argument only inserts
sleeps and is dropped.  The fuel `g.rows * g.cols + 1` is sufficient for any
run in which the callbacks never fire (`dijkstra_eq_some`); `none` models a
run stuck in the pause wait. -/
def dijkstra (g : Grid) (start goal : Option Pos) (nid : Pos → Nat)
    (pauses stops : Nat → Bool) : Option (Bool × Grid × RunStats) :=
  match start, goal with
  | some s, some e =>
    let g3 := ((dijkstraReset g s e).set_neighbors).updateCell s
      fun n => { n with distance := (0 : WithTop Nat) }
    loopGo nid pauses stops s e (g.rows * g.cols + 1)
      { g := g3, pq := [((0 : WithTop Nat), nid s, s)], uv := {s}, c := 0,
        stats := { pushes := [s] } }
  | _, _ => some (false, g, {})

/-- The backward counting walk of `Pathfinder.reconstruct_path`: follow
`previous` pointers from the node after `cur`, appending every traversed
node whose color is not `NODE_START` and counting it.  `acc` carries
`(path_nodes, path_length)`.  `none` models the walk a cyclic predecessor
chain would never finish. -/
def walkChain (g : Grid) : Nat → Pos → List Pos × Nat → Option (List Pos × Nat)
  | 0, _, _ => none
  | fuel + 1, cur, acc =>
    match (g.cells cur).previous with
    | none => some acc
    | some pv =>
      if (g.cells pv).color ≠ NODE_START then
        walkChain g fuel pv (acc.1 ++ [pv], acc.2 + 1)
      else
        walkChain g fuel pv acc

/-- The animation loop of `Pathfinder.reconstruct_path` over
`reversed(path_nodes)`: polls the callbacks, then recolors the node with
`make_path`.  The already computed `path_length` is returned on every exit. -/
def pathAnim (pauses stops : Nat → Bool) (len : Nat) :
    Nat → Grid → Nat → List Pos → Option (Nat × Grid)
  | 0, _, _, _ => none
  | _ + 1, g, _, [] => some (len, g)
  | fuel + 1, g, c, nd :: rest =>
    if stops c = true then some (len, g)
    else
      match pauseWait pauses stops (fuel + 1) (c + 1) with
      | none => none
      | some c1 =>
        if stops c1 = true then some (len, g)
        else pathAnim pauses stops len fuel (g.updateCell nd NodeData.make_path)
          (c1 + 1) rest

/-- pathfinder.py `Pathfinder.reconstruct_path` run against grid `g` from the
`end` node `goal`; returns the reported path length and the recolored grid.
The fuel `g.rows * g.cols + 1` covers every acyclic predecessor chain. -/
def reconstruct_path (g : Grid) (goal : Pos) (pauses stops : Nat → Bool) :
    Option (Nat × Grid) :=
  match walkChain g (g.rows * g.cols + 1) goal ([], 0) with
  | none => none
  | some (path_nodes, len) =>
    pathAnim pauses stops len (g.rows * g.cols + 1) g 0 path_nodes.reverse

/-- The number of edges of the predecessor chain hanging off `p` (every
traversed `previous` link counted, no color filtering); `none` if the chain
does not end within `fuel` links. -/
def chainEdges (g : Grid) : Nat → Pos → Option Nat
  | 0, _ => none
  | fuel + 1, p =>
    match (g.cells p).previous with
    | none => some 0
    | some u => (chainEdges g fuel u).map (· + 1)

/-- The always-`False` callback used when running without pause or stop. -/
def constFalse : Nat → Bool := fun _ => false

/-- wall_generator.py `generate_wall`, first phase: reset every node and turn
it into a wall. -/
def fillWalls (g : Grid) : Grid :=
  { g with cells := fun p =>
      if g.inBounds p then ((g.cells p).reset).make_wall else g.cells p }

/-- The two-cell step directions of `_recursive_backtracker`. -/
def directions2 : List (Int × Int) := [(0, 2), (2, 0), (0, -2), (-2, 0)]

/-- The unvisited-candidate scan of `_recursive_backtracker`: cells two away
in a cardinal direction, inside the 1-cell border, not yet visited; each
candidate is returned as `(new_row, new_col, dx, dy)`. -/
def rbNeighbors (g : Grid) (visited : Finset (Int × Int)) (cr cc : Int) :
    List (Int × Int × Int × Int) :=
  directions2.filterMap fun d =>
    if 1 ≤ cr + d.1 ∧ cr + d.1 < (g.rows : Int) - 1 ∧
        1 ≤ cc + d.2 ∧ cc + d.2 < (g.cols : Int) - 1 ∧
        (cr + d.1, cc + d.2) ∉ visited then
      some (cr + d.1, cc + d.2, d.1, d.2)
    else none

/-- The `while stack:` loop of `_recursive_backtracker`.  The stack is a list
with its top at the head.  `oracle` supplies `random.choice`: at choice step
`t` over the nonempty candidate list `l`, element `l[oracle t % l.length]`
is picked, so quantifying over `oracle` covers every random choice sequence.
`none` models running out of `fuel` (a sufficient canonical fuel is proved
in `rbLoop_master`). -/
def rbLoop (oracle : Nat → Nat) :
    Nat → Grid → Finset (Int × Int) → List (Int × Int) → Nat →
    Option (Grid × Finset (Int × Int))
  | 0, _, _, _, _ => none
  | _ + 1, g, visited, [], _ => some (g, visited)
  | fuel + 1, g, visited, cur :: rest, t =>
    let vg : Finset (Int × Int) × Grid :=
      if cur ∉ visited then
        (insert cur visited,
          match g.get_node cur.1 cur.2 with
          | some p => g.updateCell p NodeData.reset
          | none => g)
      else (visited, g)
    let nbrs := rbNeighbors vg.2 vg.1 cur.1 cur.2
    if h : nbrs = [] then
      rbLoop oracle fuel vg.2 vg.1 rest t
    else
      let pick := nbrs.get ⟨oracle t % nbrs.length,
        Nat.mod_lt _ (List.length_pos.mpr h)⟩
      let g2 := match vg.2.get_node (cur.1 + pick.2.2.1 / 2) (cur.2 + pick.2.2.2 / 2) with
        | some p => vg.2.updateCell p NodeData.reset
        | none => vg.2
      rbLoop oracle fuel g2 vg.1 ((pick.1, pick.2.1) :: cur :: rest) (t + 1)

/-- wall_generator.py `_recursive_backtracker`: the parity-adjusted center
start cell, then the carving loop, with canonical fuel `3 * rows * cols + 6`
(sufficient for every grid and every oracle, `rbLoop_master`).  Returns the
carved grid and the visited set. -/
def recursiveBacktracker (g : Grid) (oracle : Nat → Nat) :
    Option (Grid × Finset (Int × Int)) :=
  let sr0 : Int := (g.rows : Int) / 2
  let sc0 : Int := (g.cols : Int) / 2
  let sr := if sr0 % 2 = 0 then sr0 - 1 else sr0
  let sc := if sc0 % 2 = 0 then sc0 - 1 else sc0
  rbLoop oracle (3 * g.rows * g.cols + 6) g ∅ [(sr, sc)] 0

/-- The state `generate_wall(grid, 'maze')` reaches after filling the grid
with walls and finishing `_recursive_backtracker`, before `_add_openings`
runs (the intermediate state claim C7 quantifies over). -/
def generateWallMazePhase1 (g : Grid) (oracle : Nat → Nat) :
    Option (Grid × Finset (Int × Int)) :=
  recursiveBacktracker (fillWalls g) oracle

/-- Manhattan distance on grid positions (specification-side notion used to
pin down the exact graph distance on an empty grid). -/
def manh (p q : Pos) : Nat :=
  (max p.1 q.1 - min p.1 q.1) + (max p.2 q.2 - min p.2 q.2)

/-- Remaining iterations of the main loop are bounded by the heap size plus
the number of in-bounds cells not yet discovered (distance still `⊤`): each
iteration pops one entry and pushes one entry per newly discovered cell. -/
def dMeasure (gr : Grid) (st : LoopState) : Nat :=
  st.pq.length +
    ((Finset.range gr.rows ×ˢ Finset.range gr.cols).filter
      fun p => (st.g.cells p).distance = ⊤).card

/-- The invariant of the `dijkstra` main loop, relative to the reference
grid `gr` (the grid as passed in: the loop preserves its geometry and wall
layout, and the neighbor lists it reads are `gr.neighborList`).  `s`, `e`
are the start and goal nodes, `nid` the heap tie-break key. -/
structure DInv (gr : Grid) (nid : Pos → Nat) (s e : Pos) (st : LoopState) :
    Prop where
  hrows : st.g.rows = gr.rows
  hcols : st.g.cols = gr.cols
  hwall : ∀ p, (st.g.cells p).is_wall = (gr.cells p).is_wall
  hnbr : ∀ p, gr.inBounds p → (st.g.cells p).neighbors = gr.neighborList p
  hsort : st.pq.Sorted pqLe
  hid : ∀ x ∈ st.pq, x.2.1 = nid x.2.2
  hkey : ∀ x ∈ st.pq, (st.g.cells x.2.2).distance = x.1
  huv1 : ∀ x ∈ st.pq, x.2.2 ∈ st.uv
  huv2 : ∀ p ∈ st.uv, ∃ x ∈ st.pq, x.2.2 = p
  hnodup : (st.pq.map fun x => x.2.2).Nodup
  huvnv : ∀ p ∈ st.uv, (st.g.cells p).visited = false
  huvb : ∀ p ∈ st.uv, gr.inBounds p
  hvfin : ∀ p, gr.inBounds p → (st.g.cells p).visited = true →
    (st.g.cells p).distance ≠ ⊤
  hdisc : ∀ p, gr.inBounds p → (st.g.cells p).distance ≠ ⊤ →
    (st.g.cells p).visited = true ∨ p ∈ st.uv
  hrelax : ∀ p, gr.inBounds p → (st.g.cells p).visited = true →
    ∀ q ∈ gr.neighborList p,
      (st.g.cells q).distance ≤ (st.g.cells p).distance + 1
  hmin : ∀ p, gr.inBounds p → (st.g.cells p).visited = true →
    ∀ m : Nat, gr.pathLen s p m → (st.g.cells p).distance ≤ (m : WithTop Nat)
  hchain : ∀ p, gr.inBounds p → ∀ d : Nat,
    (st.g.cells p).distance = (d : WithTop Nat) →
    ((st.g.cells p).previous = none → p = s ∧ d = 0) ∧
    (∀ u, (st.g.cells p).previous = some u → 1 ≤ d ∧ gr.inBounds u ∧
      (st.g.cells u).visited = true ∧
      (st.g.cells u).distance = ((d - 1 : Nat) : WithTop Nat) ∧
      p ∈ gr.neighborList u)
  hsd : (st.g.cells s).distance = ((0 : Nat) : WithTop Nat)
  hsp : (st.g.cells s).previous = none
  hkb : ∀ x ∈ st.pq, (x.1 = (0 : WithTop Nat) ∧ x.2.2 = s) ∨
    ∃ w, gr.inBounds w ∧ (st.g.cells w).visited = true ∧
      (st.g.cells w).distance + 1 = x.1
  hvk : ∀ p, gr.inBounds p → (st.g.cells p).visited = true →
    ∀ x ∈ st.pq, (st.g.cells p).distance ≤ x.1
  hne : (st.g.cells e).visited = false
  hcv : ∀ p, gr.inBounds p → (st.g.cells p).visited = true → p ≠ s →
    (st.g.cells p).color = NODE_VISITED
  hcs : (st.g.cells s).color = (gr.cells s).color
  hstale : st.stats.stale = 0
  hrq : st.stats.requeued = 0
  hpnd : st.stats.pushes.Nodup
  hpd : ∀ p, p ∈ st.stats.pushes ↔
    ((st.g.cells p).distance ≠ ⊤ ∧ gr.inBounds p)
  hdb : ∀ p, gr.inBounds p → ∀ dp : Nat,
    (st.g.cells p).distance = ((dp : Nat) : WithTop Nat) →
    dp + 1 ≤ st.stats.pushes.length

/-- What holds of the grid a successful `dijkstra` run returns: the frame
relative to the input grid `gr`, the predecessor-chain structure, the colors
the reconstruction walk reads, and that the goal's recorded distance is the
exact graph distance. -/
structure FinalOk (gr : Grid) (s e : Pos) (gf : Grid) : Prop where
  hrows : gf.rows = gr.rows
  hcols : gf.cols = gr.cols
  hwall : ∀ p, (gf.cells p).is_wall = (gr.cells p).is_wall
  hsd : (gf.cells s).distance = ((0 : Nat) : WithTop Nat)
  hsp : (gf.cells s).previous = none
  hchain : ∀ p, gr.inBounds p → ∀ d : Nat,
    (gf.cells p).distance = (d : WithTop Nat) →
    ((gf.cells p).previous = none → p = s ∧ d = 0) ∧
    (∀ u, (gf.cells p).previous = some u → 1 ≤ d ∧ gr.inBounds u ∧
      (gf.cells u).visited = true ∧
      (gf.cells u).distance = ((d - 1 : Nat) : WithTop Nat) ∧
      p ∈ gr.neighborList u)
  hcv : ∀ p, gr.inBounds p → (gf.cells p).visited = true → p ≠ s → p ≠ e →
    (gf.cells p).color = NODE_VISITED
  hcs : (gf.cells s).color = (gr.cells s).color
  hve : (gf.cells e).visited = true
  hde : ∃ d : Nat, (gf.cells e).distance = (d : WithTop Nat) ∧
    gr.pathLen s e d ∧ (∀ m : Nat, gr.pathLen s e m → d ≤ m) ∧
    d < gr.rows * gr.cols

/-- An all-default passage node. -/
def exNode : NodeData := {}

/-- A passage node carrying the start marker. -/
def exStartNode : NodeData := { color := NODE_START }

/-- A passage node carrying the end marker. -/
def exEndNode : NodeData := { color := NODE_END }

/-- A wall node. -/
def exWallNode : NodeData := { is_wall := true, color := WALL }

/-- The specification's concrete scenario: a 10×10 all-passage grid, start
marked at `(0,0)`, end marked at `(9,9)`. -/
def g10 : Grid :=
  { rows := 10, cols := 10,
    cells := fun p =>
      if p = ((0, 0) : Pos) then exStartNode
      else if p = ((9, 9) : Pos) then exEndNode
      else exNode,
    start_node := some (0, 0), end_node := some (9, 9) }

/-- A 1×2 all-passage grid, start marked at `(0,0)`, end marked at `(0,1)`. -/
def g12 : Grid :=
  { rows := 1, cols := 2,
    cells := fun p => if p = ((0, 0) : Pos) then exStartNode else exEndNode,
    start_node := some (0, 0), end_node := some (0, 1) }

/-- A 2×2 grid with one wall at `(1,0)`, used to exercise the grid
operations on a concrete input. -/
def gEx : Grid :=
  { rows := 2, cols := 2,
    cells := fun p => if p = ((1, 0) : Pos) then exWallNode else exNode,
    start_node := some (0, 0), end_node := some (1, 1) }

/-- A row-major stand-in for CPython `id` on nodes. -/
def nidA : Pos → Nat := fun p => 10000 * p.1 + p.2

/-- A second key assignment inducing the same order as `nidA`. -/
def nidB : Pos → Nat := fun p => 3 * (10000 * p.1 + p.2) + 7

/-- The invariant holding while the `for neighbor in current_node.neighbors`
loop relaxes the neighbors of the node `cur` just popped and marked visited,
whose (final) distance is `du`.  Relative to `DInv`: `cur`'s relaxation
obligations are still being established, every visited distance is bounded
by `du`, and every heap key is at least `du`. -/
structure MInv (gr : Grid) (nid : Pos → Nat) (s e cur : Pos) (du : Nat)
    (st : LoopState) : Prop where
  hrows : st.g.rows = gr.rows
  hcols : st.g.cols = gr.cols
  hwall : ∀ p, (st.g.cells p).is_wall = (gr.cells p).is_wall
  hnbr : ∀ p, gr.inBounds p → (st.g.cells p).neighbors = gr.neighborList p
  hsort : st.pq.Sorted pqLe
  hid : ∀ x ∈ st.pq, x.2.1 = nid x.2.2
  hkey : ∀ x ∈ st.pq, (st.g.cells x.2.2).distance = x.1
  huv1 : ∀ x ∈ st.pq, x.2.2 ∈ st.uv
  huv2 : ∀ p ∈ st.uv, ∃ x ∈ st.pq, x.2.2 = p
  hnodup : (st.pq.map fun x => x.2.2).Nodup
  huvnv : ∀ p ∈ st.uv, (st.g.cells p).visited = false
  huvb : ∀ p ∈ st.uv, gr.inBounds p
  hvfin : ∀ p, gr.inBounds p → (st.g.cells p).visited = true →
    (st.g.cells p).distance ≠ ⊤
  hdisc : ∀ p, gr.inBounds p → (st.g.cells p).distance ≠ ⊤ →
    (st.g.cells p).visited = true ∨ p ∈ st.uv
  hrelaxO : ∀ p, gr.inBounds p → (st.g.cells p).visited = true → p ≠ cur →
    ∀ q ∈ gr.neighborList p,
      (st.g.cells q).distance ≤ (st.g.cells p).distance + 1
  hmin : ∀ p, gr.inBounds p → (st.g.cells p).visited = true →
    ∀ m : Nat, gr.pathLen s p m → (st.g.cells p).distance ≤ (m : WithTop Nat)
  hchain : ∀ p, gr.inBounds p → ∀ d : Nat,
    (st.g.cells p).distance = (d : WithTop Nat) →
    ((st.g.cells p).previous = none → p = s ∧ d = 0) ∧
    (∀ u, (st.g.cells p).previous = some u → 1 ≤ d ∧ gr.inBounds u ∧
      (st.g.cells u).visited = true ∧
      (st.g.cells u).distance = ((d - 1 : Nat) : WithTop Nat) ∧
      p ∈ gr.neighborList u)
  hsd : (st.g.cells s).distance = ((0 : Nat) : WithTop Nat)
  hsp : (st.g.cells s).previous = none
  hkb : ∀ x ∈ st.pq, (x.1 = (0 : WithTop Nat) ∧ x.2.2 = s) ∨
    ∃ w, gr.inBounds w ∧ (st.g.cells w).visited = true ∧
      (st.g.cells w).distance + 1 = x.1
  hvdu : ∀ p, gr.inBounds p → (st.g.cells p).visited = true →
    (st.g.cells p).distance ≤ (du : WithTop Nat)
  hkdu : ∀ x ∈ st.pq, (du : WithTop Nat) ≤ x.1
  hcurb : gr.inBounds cur
  hcurd : (st.g.cells cur).distance = (du : WithTop Nat)
  hcurv : (st.g.cells cur).visited = true
  hne : (st.g.cells e).visited = false
  hcv : ∀ p, gr.inBounds p → (st.g.cells p).visited = true → p ≠ s →
    (st.g.cells p).color = NODE_VISITED
  hcs : (st.g.cells s).color = (gr.cells s).color
  hstale : st.stats.stale = 0
  hrq : st.stats.requeued = 0
  hpnd : st.stats.pushes.Nodup
  hpd : ∀ p, p ∈ st.stats.pushes ↔
    ((st.g.cells p).distance ≠ ⊤ ∧ gr.inBounds p)
  hdb : ∀ p, gr.inBounds p → ∀ dp : Nat,
    (st.g.cells p).distance = ((dp : Nat) : WithTop Nat) →
    dp + 1 ≤ st.stats.pushes.length

/-- Strictly interior integer coordinates: the cells `_recursive_backtracker`
accepts as two-step neighbors (`1 <= r < rows-1`, `1 <= c < cols-1`). -/
def inBorderZ (g : Grid) (x : Int × Int) : Prop :=
  1 ≤ x.1 ∧ x.1 < (g.rows : Int) - 1 ∧ 1 ≤ x.2 ∧ x.2 < (g.cols : Int) - 1

instance (g : Grid) (x : Int × Int) : Decidable (inBorderZ g x) := by
  unfold inBorderZ
  infer_instance

/-- Every coordinate pair `_recursive_backtracker` can ever mark visited: the
initial cell plus the strictly interior lattice (ghost bound used by the
termination measure). -/
def visCand (g : Grid) (X0 : Int × Int) : Finset (Int × Int) :=
  insert X0 ((Finset.Icc (1 : Int) ((g.rows : Int) - 2)) ×ˢ
    (Finset.Icc (1 : Int) ((g.cols : Int) - 2)))

/-- Extra termination credit while the stack head is already visited (a
backtracked-to cell may push once more before shrinking the potential). -/
def rbHeadPen (vis : Finset (Int × Int)) : List (Int × Int) → Nat
  | [] => 0
  | x :: _ => if x ∈ vis then 2 else 0

/-- Termination measure of the `_recursive_backtracker` loop: three units
per not-yet-visited candidate cell, one per stack entry, plus the head
credit.  Every iteration strictly decreases it. -/
def rbMeasure (g : Grid) (X0 : Int × Int) (vis : Finset (Int × Int))
    (stk : List (Int × Int)) : Nat :=
  3 * ((visCand g X0) \ vis).card + stk.length + rbHeadPen vis stk

/-- Invariant of the `_recursive_backtracker` loop, relative to the original
grid `g` and the initial stack cell `X0`: the working grid keeps `g`'s
dimensions; stack cells are `X0` or strictly interior; visited cells lie in
the candidate set; all stack cells below the head are visited; every visited
in-bounds cell has been carved to a passage; an unvisited stack cell is `X0`
or cardinally adjacent to an existing passage; either `X0` is visited or
nothing has been carved yet; and the carved passages are pairwise connected
through passages. -/
structure RBInv (g : Grid) (X0 : Int × Int) (gw : Grid)
    (vis : Finset (Int × Int)) (stk : List (Int × Int)) : Prop where
  hrows : gw.rows = g.rows
  hcols : gw.cols = g.cols
  hstk : ∀ x ∈ stk, x = X0 ∨ inBorderZ g x
  hvsub : vis ⊆ visCand g X0
  hstkv : ∀ x ∈ stk.drop 1, x ∈ vis
  hvisw : ∀ v ∈ vis, ∀ p : Pos, ((p.1 : Int), (p.2 : Int)) = v →
    gw.inBounds p → (gw.cells p).is_wall = false
  hhead : ∀ x ∈ stk, x ∉ vis → x = X0 ∨
    ∃ mp : Pos, gw.inBounds mp ∧ (gw.cells mp).is_wall = false ∧
      ((mp.1 : Int) - x.1).natAbs + ((mp.2 : Int) - x.2).natAbs = 1
  hX0f : X0 ∈ vis ∨ ∀ p : Pos, gw.inBounds p → (gw.cells p).is_wall = true
  hcon : ∀ p q : Pos, gw.inBounds p → gw.inBounds q →
    (gw.cells p).is_wall = false → (gw.cells q).is_wall = false →
    gw.reach p q

/-- Marker: everything below this point is theorems about the definitions
above (auxiliary definitions for claim C7 are inserted above this line). -/
def defsEnd : Unit := ()

lemma updateCell_rows (g : Grid) (p : Pos) (f : NodeData → NodeData) :
    (g.updateCell p f).rows = g.rows := rfl

lemma updateCell_cols (g : Grid) (p : Pos) (f : NodeData → NodeData) :
    (g.updateCell p f).cols = g.cols := rfl

lemma updateCell_cells (g : Grid) (p : Pos) (f : NodeData → NodeData) (q : Pos) :
    ((g.updateCell p f).cells q) = if q = p then f (g.cells q) else g.cells q := rfl

lemma updateCell_cells_self (g : Grid) (p : Pos) (f : NodeData → NodeData) :
    ((g.updateCell p f).cells p) = f (g.cells p) := by
  simp [updateCell_cells]

lemma updateCell_cells_of_ne (g : Grid) (p : Pos) (f : NodeData → NodeData)
    {q : Pos} (h : q ≠ p) : ((g.updateCell p f).cells q) = g.cells q := by
  simp [updateCell_cells, h]

lemma get_node_eq_some {g : Grid} {r c : Int} {q : Pos} :
    g.get_node r c = some q ↔
      0 ≤ r ∧ r < (g.rows : Int) ∧ 0 ≤ c ∧ c < (g.cols : Int) ∧
        q = (r.toNat, c.toNat) := by
  unfold Grid.get_node
  split_ifs with h
  · constructor
    · intro hq
      cases hq
      exact ⟨h.1, h.2.1, h.2.2.1, h.2.2.2, rfl⟩
    · rintro ⟨-, -, -, -, rfl⟩
      rfl
  · constructor
    · intro hq
      cases hq
    · rintro ⟨h1, h2, h3, h4, -⟩
      exact absurd ⟨h1, h2, h3, h4⟩ h

lemma nbrFun_eq_some {g : Grid} {r c : Int} {q : Pos} :
    (match g.get_node r c with
      | some q1 => if (g.cells q1).is_wall then none else some q1
      | none => none) = some q ↔
      (g.get_node r c = some q ∧ (g.cells q).is_wall = false) := by
  rcases hget : g.get_node r c with _ | q1
  · constructor
    · intro h
      exact Option.noConfusion h
    · rintro ⟨h, -⟩
      exact Option.noConfusion h
  · show (if (g.cells q1).is_wall then none else some q1) = some q ↔ _
    by_cases hw : (g.cells q1).is_wall
    · rw [if_pos hw]
      constructor
      · intro h
        cases h
      · rintro ⟨hq, hwf⟩
        cases hq
        rw [hw] at hwf
        cases hwf
    · rw [if_neg hw]
      constructor
      · intro h
        cases h
        simp only [Bool.not_eq_true] at hw
        exact ⟨rfl, hw⟩
      · rintro ⟨hq, -⟩
        cases hq
        rfl

lemma mem_neighborList {g : Grid} {p q : Pos} :
    q ∈ g.neighborList p ↔ g.step p q := by
  unfold Grid.neighborList
  rw [List.mem_filterMap]
  constructor
  · rintro ⟨d, hd, hfd⟩
    rw [nbrFun_eq_some] at hfd
    obtain ⟨hget, hw⟩ := hfd
    rw [get_node_eq_some] at hget
    obtain ⟨h1, h2, h3, h4, rfl⟩ := hget
    have hd9 : d = ((0 : Int), (1 : Int)) ∨ d = (0, -1) ∨ d = (1, 0) ∨
        d = (-1, 0) := by
      simpa [directions] using hd
    unfold Grid.step Grid.inBounds
    rcases hd9 with rfl | rfl | rfl | rfl <;>
      exact ⟨⟨by omega, by omega⟩, hw, by omega⟩
  · intro hstep
    obtain ⟨hin, hw, hadj⟩ := hstep
    obtain ⟨hr, hc⟩ := hin
    have hpair : ∀ a b : Int, 0 ≤ a → 0 ≤ b → a.toNat = q.1 → b.toNat = q.2 →
        q = (a.toNat, b.toNat) := by
      intro a b _ _ ha hb
      cases q
      simp only [Prod.mk.injEq]
      exact ⟨ha.symm, hb.symm⟩
    rcases hadj with ⟨h1, h2 | h2⟩ | ⟨h1, h2 | h2⟩
    · refine ⟨(0, 1), by simp [directions], ?_⟩
      rw [nbrFun_eq_some]
      refine ⟨?_, hw⟩
      rw [get_node_eq_some]
      exact ⟨by omega, by omega, by omega, by omega,
        hpair _ _ (by omega) (by omega) (by omega) (by omega)⟩
    · refine ⟨(0, -1), by simp [directions], ?_⟩
      rw [nbrFun_eq_some]
      refine ⟨?_, hw⟩
      rw [get_node_eq_some]
      exact ⟨by omega, by omega, by omega, by omega,
        hpair _ _ (by omega) (by omega) (by omega) (by omega)⟩
    · refine ⟨(1, 0), by simp [directions], ?_⟩
      rw [nbrFun_eq_some]
      refine ⟨?_, hw⟩
      rw [get_node_eq_some]
      exact ⟨by omega, by omega, by omega, by omega,
        hpair _ _ (by omega) (by omega) (by omega) (by omega)⟩
    · refine ⟨(-1, 0), by simp [directions], ?_⟩
      rw [nbrFun_eq_some]
      refine ⟨?_, hw⟩
      rw [get_node_eq_some]
      exact ⟨by omega, by omega, by omega, by omega,
        hpair _ _ (by omega) (by omega) (by omega) (by omega)⟩

lemma step_of_mem_neighborList {g : Grid} {p q : Pos}
    (h : q ∈ g.neighborList p) : g.step p q :=
  mem_neighborList.mp h

lemma step_inb {g : Grid} {p q : Pos} (h : g.step p q) : g.inBounds q := h.1

lemma step_not_wall {g : Grid} {p q : Pos} (h : g.step p q) :
    (g.cells q).is_wall = false := h.2.1

lemma pathLen_zero {g : Grid} {s t : Pos} : g.pathLen s t 0 ↔ s = t :=
  Iff.rfl

lemma pathLen_succ {g : Grid} {s t : Pos} {n : Nat} :
    g.pathLen s t (n + 1) ↔ ∃ q, g.step s q ∧ g.pathLen q t n :=
  Iff.rfl

lemma pathLen_refl (g : Grid) (s : Pos) : g.pathLen s s 0 := rfl

lemma pathLen_snoc {g : Grid} {s q t : Pos} :
    ∀ {n : Nat}, g.pathLen s q n → g.step q t → g.pathLen s t (n + 1) := by
  intro n
  induction n generalizing s with
  | zero =>
    intro hp hs
    cases hp
    exact ⟨t, hs, rfl⟩
  | succ n ih =>
    rintro ⟨q1, hq1, hp⟩ hs
    exact ⟨q1, hq1, ih hp hs⟩

lemma pathLen_succ_back {g : Grid} {s t : Pos} :
    ∀ {n : Nat}, g.pathLen s t (n + 1) → ∃ q, g.pathLen s q n ∧ g.step q t := by
  intro n
  induction n generalizing s with
  | zero =>
    rintro ⟨q, hsq, hq⟩
    cases hq
    exact ⟨s, rfl, hsq⟩
  | succ n ih =>
    rintro ⟨q, hsq, hq⟩
    obtain ⟨q1, hp, hs⟩ := ih hq
    exact ⟨q1, ⟨q, hsq, hp⟩, hs⟩

lemma pathLen_trans {g : Grid} {s m t : Pos} :
    ∀ {a b : Nat}, g.pathLen s m a → g.pathLen m t b → g.pathLen s t (a + b) := by
  intro a b
  induction b generalizing t with
  | zero =>
    intro h1 h2
    cases h2
    exact h1
  | succ b ih =>
    intro h1 h2
    obtain ⟨q, hq, hs⟩ := pathLen_succ_back h2
    exact pathLen_snoc (ih h1 hq) hs

lemma pathLen_target_props {g : Grid} {s t : Pos} {n : Nat}
    (h : g.pathLen s t n) :
    t = s ∨ (g.inBounds t ∧ (g.cells t).is_wall = false) := by
  cases n with
  | zero =>
    cases h
    exact Or.inl rfl
  | succ n =>
    obtain ⟨q, -, hs⟩ := pathLen_succ_back h
    exact Or.inr ⟨hs.1, hs.2.1⟩

lemma step_symm {g : Grid} {p q : Pos} (h : g.step p q)
    (hb : g.inBounds p) (hw : (g.cells p).is_wall = false) : g.step q p := by
  obtain ⟨-, -, hadj⟩ := h
  refine ⟨hb, hw, ?_⟩
  rcases hadj with ⟨h1, h2⟩ | ⟨h1, h2⟩
  · exact Or.inl ⟨h1.symm, h2.symm⟩
  · exact Or.inr ⟨h1.symm, h2.symm⟩

lemma pathLen_rev {g : Grid} {s t : Pos} :
    ∀ {n : Nat}, g.pathLen s t n → g.inBounds s →
      (g.cells s).is_wall = false → g.pathLen t s n := by
  intro n
  induction n generalizing s with
  | zero =>
    intro h _ _
    cases h
    rfl
  | succ n ih =>
    rintro ⟨q, hsq, hp⟩ hb hw
    exact pathLen_snoc (ih hp hsq.1 hsq.2.1) (step_symm hsq hb hw)

lemma manh_step_le {g : Grid} {p q t : Pos} (h : g.step p q) :
    manh p t ≤ manh q t + 1 := by
  obtain ⟨-, -, hadj⟩ := h
  unfold manh
  rcases hadj with ⟨h1, h2 | h2⟩ | ⟨h1, h2 | h2⟩ <;> omega

lemma manh_le_pathLen {g : Grid} {t : Pos} :
    ∀ {n : Nat} {s : Pos}, g.pathLen s t n → manh s t ≤ n := by
  intro n
  induction n with
  | zero =>
    intro s h
    cases h
    unfold manh
    omega
  | succ n ih =>
    rintro s ⟨q, hsq, hp⟩
    have := ih hp
    have := manh_step_le (t := t) hsq
    omega

lemma get_node_congr {g1 g2 : Grid} (hr : g1.rows = g2.rows)
    (hc : g1.cols = g2.cols) (r c : Int) :
    g1.get_node r c = g2.get_node r c := by
  unfold Grid.get_node
  rw [hr, hc]

lemma neighborList_congr {g1 g2 : Grid} (hr : g1.rows = g2.rows)
    (hc : g1.cols = g2.cols)
    (hw : ∀ p, (g1.cells p).is_wall = (g2.cells p).is_wall) (p : Pos) :
    g1.neighborList p = g2.neighborList p := by
  unfold Grid.neighborList
  apply List.filterMap_congr
  intro d _
  rw [get_node_congr hr hc]
  rcases g2.get_node ((p.1 : Int) + d.1) ((p.2 : Int) + d.2) with _ | q
  · rfl
  · show (if (g1.cells q).is_wall then none else some q) = _
    rw [hw q]

lemma step_congr {g1 g2 : Grid} (hr : g1.rows = g2.rows)
    (hc : g1.cols = g2.cols)
    (hw : ∀ p, (g1.cells p).is_wall = (g2.cells p).is_wall) (p q : Pos) :
    g1.step p q ↔ g2.step p q := by
  unfold Grid.step Grid.inBounds
  rw [hr, hc, hw q]

lemma pathLen_congr {g1 g2 : Grid} (hr : g1.rows = g2.rows)
    (hc : g1.cols = g2.cols)
    (hw : ∀ p, (g1.cells p).is_wall = (g2.cells p).is_wall) (t : Pos) :
    ∀ (n : Nat) (s : Pos), g1.pathLen s t n ↔ g2.pathLen s t n := by
  intro n
  induction n with
  | zero =>
    intro s
    exact Iff.rfl
  | succ n ih =>
    intro s
    constructor
    · rintro ⟨q, hs, hp⟩
      exact ⟨q, (step_congr hr hc hw s q).mp hs, (ih q).mp hp⟩
    · rintro ⟨q, hs, hp⟩
      exact ⟨q, (step_congr hr hc hw s q).mpr hs, (ih q).mpr hp⟩

lemma reach_congr {g1 g2 : Grid} (hr : g1.rows = g2.rows)
    (hc : g1.cols = g2.cols)
    (hw : ∀ p, (g1.cells p).is_wall = (g2.cells p).is_wall) (s t : Pos) :
    g1.reach s t ↔ g2.reach s t := by
  unfold Grid.reach
  constructor
  · rintro ⟨n, h⟩
    exact ⟨n, (pathLen_congr hr hc hw t n s).mp h⟩
  · rintro ⟨n, h⟩
    exact ⟨n, (pathLen_congr hr hc hw t n s).mpr h⟩

/-- C4: if start or end is `None`, `Pathfinder.dijkstra` returns `False`
immediately and performs no mutation: the grid is returned exactly as it
was, so every node's distance, previous, visited, color, is_wall and
neighbors fields are unchanged. -/
theorem dijkstra_missing_endpoint (g : Grid) (nid : Pos → Nat)
    (pauses stops : Nat → Bool) (start goal : Option Pos)
    (h : start = none ∨ goal = none) :
    dijkstra g start goal nid pauses stops = some (false, g, {}) := by
  rcases h with rfl | rfl
  · rfl
  · cases start <;> rfl

/-- Witness for C4 at a concrete grid: a missing start node returns `NoPath`
with the grid untouched. -/
theorem dijkstra_missing_endpoint_witness :
    dijkstra gEx none (some (1, 1)) nidA constFalse constFalse =
      some (false, gEx, {}) :=
  dijkstra_missing_endpoint gEx nidA constFalse constFalse none (some (1, 1))
    (Or.inl rfl)

/-- C5: after `Grid.set_neighbors`, the neighbor list of every in-bounds
node `p` contains exactly the cardinal neighbors of `p` that are in bounds
and not walls (`Grid.step p q` states precisely that about `q`);
consequently, after turning any cell into a wall and recomputing, no node's
neighbor list contains that cell. -/
theorem set_neighbors_spec :
    (∀ (g : Grid) (p q : Pos), g.inBounds p →
      (q ∈ ((g.set_neighbors).cells p).neighbors ↔ g.step p q)) ∧
    (∀ (g : Grid) (w p : Pos), g.inBounds p →
      w ∉ (((g.updateCell w NodeData.make_wall).set_neighbors).cells p).neighbors) := by
  have h1 : ∀ (g : Grid) (p q : Pos), g.inBounds p →
      (q ∈ ((g.set_neighbors).cells p).neighbors ↔ g.step p q) := by
    intro g p q hp
    show q ∈ (if g.inBounds p then
        { g.cells p with neighbors := g.neighborList p } else g.cells p).neighbors ↔ _
    rw [if_pos hp]
    exact mem_neighborList
  refine ⟨h1, ?_⟩
  intro g w p hp hmem
  have hp2 : (g.updateCell w NodeData.make_wall).inBounds p := hp
  have := (h1 _ p w hp2).mp hmem
  have hwall := step_not_wall this
  rw [updateCell_cells_self] at hwall
  exact Bool.noConfusion hwall

/-- Witness for C5 on the concrete 2×2 grid `gEx`: the neighbor-list
characterization at `(0,0)`/`(0,1)`, and walling `(0,1)` removes it from
every neighbor list. -/
theorem set_neighbors_spec_witness :
    (((0, 1) : Pos) ∈ ((gEx.set_neighbors).cells (0, 0)).neighbors ↔
      gEx.step (0, 0) (0, 1)) ∧
    ((0, 1) : Pos) ∉
      (((gEx.updateCell (0, 1) NodeData.make_wall).set_neighbors).cells (0, 0)).neighbors :=
  ⟨set_neighbors_spec.1 gEx (0, 0) (0, 1) (by decide),
   set_neighbors_spec.2 gEx (0, 1) (0, 0) (by decide)⟩

/-- C6: `Grid.clear_path` resets color, distance, previous and visited of
every in-bounds node that is not a wall and not the start or end node
(leaving its wall flag false and its neighbor list intact), and leaves every
wall node, the start node and the end node completely unchanged, along with
every node's is_wall flag and the grid's start/end references. -/
theorem clear_path_spec :
    (∀ g : Grid, (g.clear_path).rows = g.rows ∧ (g.clear_path).cols = g.cols ∧
      (g.clear_path).start_node = g.start_node ∧
      (g.clear_path).end_node = g.end_node ∧
      ∀ p, ((g.clear_path).cells p).is_wall = (g.cells p).is_wall) ∧
    (∀ (g : Grid) (p : Pos),
      ((g.cells p).is_wall = true ∨ some p = g.start_node ∨
          some p = g.end_node →
        (g.clear_path).cells p = g.cells p) ∧
      (g.inBounds p → (g.cells p).is_wall = false → some p ≠ g.start_node →
        some p ≠ g.end_node →
        ((g.clear_path).cells p).color = NODE_DEFAULT ∧
        ((g.clear_path).cells p).distance = ⊤ ∧
        ((g.clear_path).cells p).previous = none ∧
        ((g.clear_path).cells p).visited = false ∧
        ((g.clear_path).cells p).is_wall = false ∧
        ((g.clear_path).cells p).neighbors = (g.cells p).neighbors)) := by
  constructor
  · intro g
    refine ⟨rfl, rfl, rfl, rfl, ?_⟩
    intro p
    show (if g.inBounds p ∧ (g.cells p).is_wall = false ∧
        some p ≠ g.start_node ∧ some p ≠ g.end_node then
        (g.cells p).reset else g.cells p).is_wall = _
    split_ifs with h
    · rw [h.2.1]
      rfl
    · rfl
  · intro g p
    constructor
    · intro h
      show (if g.inBounds p ∧ (g.cells p).is_wall = false ∧
          some p ≠ g.start_node ∧ some p ≠ g.end_node then
          (g.cells p).reset else g.cells p) = g.cells p
      rcases h with h | h | h
      · rw [if_neg]
        rintro ⟨-, h2, -, -⟩
        rw [h] at h2
        cases h2
      · rw [if_neg]
        rintro ⟨-, -, h3, -⟩
        exact h3 h
      · rw [if_neg]
        rintro ⟨-, -, -, h4⟩
        exact h4 h
    · intro hb hw h1 h2
      have hc : (g.clear_path).cells p = (g.cells p).reset := by
        show (if g.inBounds p ∧ (g.cells p).is_wall = false ∧
            some p ≠ g.start_node ∧ some p ≠ g.end_node then
            (g.cells p).reset else g.cells p) = _
        rw [if_pos ⟨hb, hw, h1, h2⟩]
      rw [hc]
      exact ⟨rfl, rfl, rfl, rfl, rfl, rfl⟩

/-- Witness for C6 on `gEx`: the wall cell `(1,0)` is untouched and the
plain cell `(0,1)` is reset. -/
theorem clear_path_spec_witness :
    (gEx.clear_path).start_node = gEx.start_node ∧
    (gEx.clear_path).cells (1, 0) = gEx.cells (1, 0) ∧
    ((gEx.clear_path).cells (0, 1)).color = NODE_DEFAULT :=
  ⟨(clear_path_spec.1 gEx).2.2.1,
   (clear_path_spec.2 gEx (1, 0)).1 (Or.inl (by decide)),
   ((clear_path_spec.2 gEx (0, 1)).2 (by decide) (by decide) (by decide)
     (by decide)).1⟩

lemma wt_ne_top (a : Nat) : ((a : WithTop Nat)) ≠ ⊤ := WithTop.coe_ne_top

lemma wt_add_one (a : Nat) : (a : WithTop Nat) + 1 = ((a + 1 : Nat) : WithTop Nat) := by
  push_cast
  rfl

lemma wt_le_iff {a b : Nat} : (a : WithTop Nat) ≤ (b : WithTop Nat) ↔ a ≤ b :=
  WithTop.coe_le_coe

lemma wt_lt_iff {a b : Nat} : (a : WithTop Nat) < (b : WithTop Nat) ↔ a < b :=
  WithTop.coe_lt_coe

lemma wt_eq_iff {a b : Nat} : (a : WithTop Nat) = (b : WithTop Nat) ↔ a = b :=
  Nat.cast_inj

lemma wt_exists {x : WithTop Nat} (h : x ≠ ⊤) : ∃ a : Nat, x = (a : WithTop Nat) := by
  obtain ⟨a, ha⟩ := WithTop.ne_top_iff_exists.mp h
  exact ⟨a, ha.symm⟩

lemma wt_ne_top_of_le {x : WithTop Nat} {b : Nat} (h : x ≤ (b : WithTop Nat)) :
    x ≠ ⊤ := by
  intro h2
  subst h2
  exact absurd h (by simp)

lemma wt_zero : (0 : WithTop Nat) = ((0 : Nat) : WithTop Nat) := by
  push_cast
  rfl

lemma wt_top_add_one : (⊤ : WithTop Nat) + 1 = ⊤ := rfl

lemma pqLe_fst {a b : PQEntry} (h : pqLe a b) : a.1 ≤ b.1 := by
  rcases h with h | ⟨h, -⟩
  · exact le_of_lt h
  · exact le_of_eq h

lemma pq_head_min {x : PQEntry} {rest : List PQEntry}
    (hs : (x :: rest).Sorted pqLe) : ∀ y ∈ x :: rest, x.1 ≤ y.1 := by
  intro y hy
  rcases List.mem_cons.mp hy with rfl | hy
  · exact le_refl _
  · exact pqLe_fst (List.rel_of_sorted_cons hs y hy)

lemma pqPush_mem {a : PQEntry} {pq : List PQEntry} {y : PQEntry} :
    y ∈ pqPush a pq ↔ y = a ∨ y ∈ pq := by
  unfold pqPush
  exact List.mem_orderedInsert pqLe

lemma pqPush_sorted {a : PQEntry} {pq : List PQEntry} (h : pq.Sorted pqLe) :
    (pqPush a pq).Sorted pqLe :=
  List.Sorted.orderedInsert a pq h

lemma pqPush_perm (a : PQEntry) (pq : List PQEntry) :
    List.Perm (pqPush a pq) (a :: pq) :=
  List.perm_orderedInsert pqLe a pq

lemma pqPush_map_nodup {a : PQEntry} {pq : List PQEntry}
    (h : (pq.map fun x => x.2.2).Nodup) (ha : ∀ x ∈ pq, x.2.2 ≠ a.2.2) :
    ((pqPush a pq).map fun x => x.2.2).Nodup := by
  have hp : List.Perm ((pqPush a pq).map fun x => x.2.2)
      ((a :: pq).map fun x => x.2.2) := (pqPush_perm a pq).map _
  rw [hp.nodup_iff]
  refine List.Nodup.cons ?_ h
  intro hmem
  obtain ⟨x, hx, hx2⟩ := List.mem_map.mp hmem
  exact ha x hx hx2

lemma chain_sound (gr : Grid) (s : Pos) (gf : Grid)
    (hchain : ∀ p, gr.inBounds p → ∀ d : Nat,
      (gf.cells p).distance = (d : WithTop Nat) →
      ((gf.cells p).previous = none → p = s ∧ d = 0) ∧
      (∀ u, (gf.cells p).previous = some u → 1 ≤ d ∧ gr.inBounds u ∧
        (gf.cells u).visited = true ∧
        (gf.cells u).distance = ((d - 1 : Nat) : WithTop Nat) ∧
        p ∈ gr.neighborList u)) :
    ∀ (d : Nat) (p : Pos), gr.inBounds p →
      (gf.cells p).distance = (d : WithTop Nat) → gr.pathLen s p d := by
  intro d
  induction d using Nat.strong_induction_on with
  | _ d ih =>
    intro p hb hd
    rcases hprev : (gf.cells p).previous with _ | u
    · obtain ⟨rfl, rfl⟩ := (hchain p hb d hd).1 hprev
      exact pathLen_refl gr _
    · obtain ⟨h1, hub, -, hud, hmem⟩ := (hchain p hb d hd).2 u hprev
      have hp : gr.pathLen s u (d - 1) := ih (d - 1) (by omega) u hub hud
      have := pathLen_snoc hp (step_of_mem_neighborList hmem)
      have heq : d - 1 + 1 = d := by omega
      rw [heq] at this
      exact this

lemma disc_bound (gr : Grid) (nid : Pos → Nat) (s e : Pos) (st : LoopState)
    (hI : DInv gr nid s e st) (hs : gr.inBounds s) :
    ∀ (n : Nat) (q : Pos), gr.pathLen s q n →
      (st.g.cells q).visited = true ∨
        ∃ x ∈ st.pq, x.1 ≤ ((n : Nat) : WithTop Nat) := by
  intro n
  induction n with
  | zero =>
    intro q h
    cases h
    have hfin : (st.g.cells s).distance ≠ ⊤ := by
      rw [hI.hsd]
      exact wt_ne_top 0
    rcases hI.hdisc s hs hfin with hv | huv
    · exact Or.inl hv
    · obtain ⟨x, hx, hx2⟩ := hI.huv2 s huv
      refine Or.inr ⟨x, hx, ?_⟩
      have := hI.hkey x hx
      rw [hx2, hI.hsd] at this
      rw [← this]
  | succ n ih =>
    intro q h
    obtain ⟨q1, hp, hstep⟩ := pathLen_succ_back h
    have hq1b : gr.inBounds q1 := by
      rcases pathLen_target_props hp with rfl | ⟨hb, -⟩
      · exact hs
      · exact hb
    have hqb : gr.inBounds q := step_inb hstep
    rcases ih q1 hp with hv | ⟨x, hx, hle⟩
    · have hq1d : (st.g.cells q1).distance ≤ ((n : Nat) : WithTop Nat) :=
        hI.hmin q1 hq1b hv n hp
      have hmem : q ∈ gr.neighborList q1 := mem_neighborList.mpr hstep
      have hqd : (st.g.cells q).distance ≤ ((n + 1 : Nat) : WithTop Nat) := by
        calc (st.g.cells q).distance ≤ (st.g.cells q1).distance + 1 :=
              hI.hrelax q1 hq1b hv q hmem
          _ ≤ ((n : Nat) : WithTop Nat) + 1 := by
              exact add_le_add_right hq1d 1
          _ = ((n + 1 : Nat) : WithTop Nat) := wt_add_one n
      have hfin : (st.g.cells q).distance ≠ ⊤ := wt_ne_top_of_le hqd
      rcases hI.hdisc q hqb hfin with hv2 | huv
      · exact Or.inl hv2
      · obtain ⟨x, hx, hx2⟩ := hI.huv2 q huv
        refine Or.inr ⟨x, hx, ?_⟩
        have := hI.hkey x hx
        rw [hx2] at this
        rw [← this]
        exact hqd
    · refine Or.inr ⟨x, hx, hle.trans ?_⟩
      rw [wt_le_iff]
      omega

lemma wt_le_succ (du : Nat) :
    ((du : Nat) : WithTop Nat) ≤ ((du + 1 : Nat) : WithTop Nat) := by
  rw [wt_le_iff]
  omega

lemma pushes_card_le (gr : Grid) (l : List Pos) (hnd : l.Nodup)
    (hin : ∀ p ∈ l, gr.inBounds p) : l.length ≤ gr.rows * gr.cols := by
  have h1 : l.toFinset.card = l.length := List.toFinset_card_of_nodup hnd
  have h2 : l.toFinset ⊆ Finset.range gr.rows ×ˢ Finset.range gr.cols := by
    intro p hp
    rw [List.mem_toFinset] at hp
    have := hin p hp
    rw [Finset.mem_product]
    exact ⟨Finset.mem_range.mpr this.1, Finset.mem_range.mpr this.2⟩
  have h3 := Finset.card_le_card h2
  rw [Finset.card_product, Finset.card_range, Finset.card_range] at h3
  omega

lemma relaxOne_facts (gr : Grid) (nid : Pos → Nat) (s e cur : Pos) (du : Nat)
    (st : LoopState) (q0 : Pos)
    (hM : MInv gr nid s e cur du st) (hq0 : q0 ∈ gr.neighborList cur) :
    MInv gr nid s e cur du (relaxOne nid e cur st q0) ∧
    ((relaxOne nid e cur st q0).g.cells q0).distance ≤
      ((du + 1 : Nat) : WithTop Nat) ∧
    (∀ p, ((relaxOne nid e cur st q0).g.cells p).distance ≤
      (st.g.cells p).distance) ∧
    dMeasure gr (relaxOne nid e cur st q0) ≤ dMeasure gr st ∧
    (relaxOne nid e cur st q0).c = st.c ∧
    (relaxOne nid e cur st q0).stats.pops = st.stats.pops := by
  have hq0step : gr.step cur q0 := step_of_mem_neighborList hq0
  have hq0b : gr.inBounds q0 := hq0step.1
  have hcurd := hM.hcurd
  by_cases hv : (st.g.cells q0).visited = true
  · have hred : relaxOne nid e cur st q0 = st := by
      unfold relaxOne
      rw [if_pos hv]
    rw [hred]
    refine ⟨hM, ?_, fun p => le_refl _, le_refl _, rfl, rfl⟩
    exact (hM.hvdu q0 hq0b hv).trans (wt_le_succ du)
  · by_cases himp : (st.g.cells cur).distance + 1 < (st.g.cells q0).distance
    · -- relaxation improves q0; it is undiscovered, so it gets pushed
      have hkeyfin : ∀ x ∈ st.pq, x.1 ≤ ((du : Nat) : WithTop Nat) + 1 := by
        intro x hx
        rcases hM.hkb x hx with ⟨hk0, -⟩ | ⟨w, hwb, hwv, hwd⟩
        · rw [hk0, wt_zero]
          rw [wt_add_one, wt_le_iff]
          omega
        · rw [← hwd]
          exact add_le_add_right (hM.hvdu w hwb hwv) 1
      have hnuv : q0 ∉ st.uv := by
        intro huvq
        obtain ⟨x, hx, hx2⟩ := hM.huv2 q0 huvq
        have hk := hM.hkey x hx
        rw [hx2] at hk
        rw [hcurd, hk] at himp
        exact absurd (lt_of_lt_of_le himp (hkeyfin x hx)) (lt_irrefl _)
      have htop : (st.g.cells q0).distance = ⊤ := by
        by_contra hne'
        rcases hM.hdisc q0 hq0b hne' with hvq | huvq
        · exact hv hvq
        · exact hnuv huvq
      have hred : relaxOne nid e cur st q0 =
          { g := if q0 = e
              then st.g.updateCell q0 fun n =>
                { n with distance := (st.g.cells cur).distance + 1,
                         previous := some cur }
              else (st.g.updateCell q0 fun n =>
                { n with distance := (st.g.cells cur).distance + 1,
                         previous := some cur }).updateCell q0
                  NodeData.make_unvisited_neighbor,
            pq := pqPush ((st.g.cells cur).distance + 1, nid q0, q0) st.pq,
            uv := insert q0 st.uv,
            c := st.c,
            stats := { st.stats with
              pushes := st.stats.pushes ++ [q0] } } := by
        unfold relaxOne
        rw [if_neg hv, if_pos himp, if_neg hnuv]
      have hredg : (relaxOne nid e cur st q0).g =
          (if q0 = e
            then st.g.updateCell q0 fun n =>
              { n with distance := (st.g.cells cur).distance + 1,
                       previous := some cur }
            else (st.g.updateCell q0 fun n =>
              { n with distance := (st.g.cells cur).distance + 1,
                       previous := some cur }).updateCell q0
                NodeData.make_unvisited_neighbor) := by
        rw [hred]
      have hcells : ∀ p, p ≠ q0 →
          ((relaxOne nid e cur st q0).g.cells p) = st.g.cells p := by
        intro p hp
        rw [hredg]
        split_ifs with he0
        · rw [updateCell_cells, if_neg hp]
        · rw [updateCell_cells, if_neg hp, updateCell_cells, if_neg hp]
      have hq0d : ((relaxOne nid e cur st q0).g.cells q0).distance =
          (st.g.cells cur).distance + 1 := by
        rw [hredg]
        split_ifs with he0
        · rw [updateCell_cells_self]
        · rw [updateCell_cells_self, updateCell_cells_self]
          rfl
      have hq0p : ((relaxOne nid e cur st q0).g.cells q0).previous =
          some cur := by
        rw [hredg]
        split_ifs with he0
        · rw [updateCell_cells_self]
        · rw [updateCell_cells_self, updateCell_cells_self]
          rfl
      have hq0v : ((relaxOne nid e cur st q0).g.cells q0).visited =
          (st.g.cells q0).visited := by
        rw [hredg]
        split_ifs with he0
        · rw [updateCell_cells_self]
        · rw [updateCell_cells_self, updateCell_cells_self]
          rfl
      have hq0w : ((relaxOne nid e cur st q0).g.cells q0).is_wall =
          (st.g.cells q0).is_wall := by
        rw [hredg]
        split_ifs with he0
        · rw [updateCell_cells_self]
        · rw [updateCell_cells_self, updateCell_cells_self]
          rfl
      have hq0n : ((relaxOne nid e cur st q0).g.cells q0).neighbors =
          (st.g.cells q0).neighbors := by
        rw [hredg]
        split_ifs with he0
        · rw [updateCell_cells_self]
        · rw [updateCell_cells_self, updateCell_cells_self]
          rfl
      have hrows' : (relaxOne nid e cur st q0).g.rows = st.g.rows := by
        rw [hredg]
        split_ifs with he0 <;> rfl
      have hcols' : (relaxOne nid e cur st q0).g.cols = st.g.cols := by
        rw [hredg]
        split_ifs with he0 <;> rfl
      have hpq' : (relaxOne nid e cur st q0).pq =
          pqPush ((st.g.cells cur).distance + 1, nid q0, q0) st.pq := by
        rw [hred]
      have huv' : (relaxOne nid e cur st q0).uv = insert q0 st.uv := by
        rw [hred]
      have hc' : (relaxOne nid e cur st q0).c = st.c := by
        rw [hred]
      have hstats' : (relaxOne nid e cur st q0).stats =
          { st.stats with pushes := st.stats.pushes ++ [q0] } := by
        rw [hred]
      have hq0dc : ((relaxOne nid e cur st q0).g.cells q0).distance =
          ((du + 1 : Nat) : WithTop Nat) := by
        rw [hq0d, hcurd, wt_add_one]
      have hvis' : ∀ p, ((relaxOne nid e cur st q0).g.cells p).visited =
          (st.g.cells p).visited := by
        intro p
        by_cases hp : p = q0
        · rw [hp, hq0v]
        · rw [hcells p hp]
      have hdist' : ∀ p, p ≠ q0 →
          ((relaxOne nid e cur st q0).g.cells p).distance =
            (st.g.cells p).distance := by
        intro p hp
        rw [hcells p hp]
      have hq0ncur : q0 ≠ cur := by
        intro h
        rw [h] at hv
        exact hv hM.hcurv
      have hq0ns : q0 ≠ s := by
        intro h
        rw [h, hM.hsd] at htop
        exact wt_ne_top 0 htop
      have hmono : ∀ p, ((relaxOne nid e cur st q0).g.cells p).distance ≤
          (st.g.cells p).distance := by
        intro p
        by_cases hp : p = q0
        · rw [hp, htop]
          exact le_top
        · rw [hdist' p hp]
      have hMnew : MInv gr nid s e cur du (relaxOne nid e cur st q0) := by
        refine
          { hrows := by rw [hrows']; exact hM.hrows
            hcols := by rw [hcols']; exact hM.hcols
            hwall := ?_
            hnbr := ?_
            hsort := by rw [hpq']; exact pqPush_sorted hM.hsort
            hid := ?_
            hkey := ?_
            huv1 := ?_
            huv2 := ?_
            hnodup := ?_
            huvnv := ?_
            huvb := ?_
            hvfin := ?_
            hdisc := ?_
            hrelaxO := ?_
            hmin := ?_
            hchain := ?_
            hsd := by rw [hcells s hq0ns.symm]; exact hM.hsd
            hsp := by rw [hcells s hq0ns.symm]; exact hM.hsp
            hkb := ?_
            hvdu := ?_
            hkdu := ?_
            hcurb := hM.hcurb
            hcurd := by rw [hcells cur (Ne.symm hq0ncur)]; exact hM.hcurd
            hcurv := by rw [hcells cur (Ne.symm hq0ncur)]; exact hM.hcurv
            hne := by rw [hvis' e]; exact hM.hne
            hcv := ?_
            hcs := by rw [hcells s hq0ns.symm]; exact hM.hcs
            hstale := by rw [hstats']; exact hM.hstale
            hrq := by rw [hstats']; exact hM.hrq
            hpnd := ?_
            hpd := ?_
            hdb := ?_ }
        · intro p
          by_cases hp : p = q0
          · rw [hp, hq0w]
            exact hM.hwall q0
          · rw [hcells p hp]
            exact hM.hwall p
        · intro p hpb
          by_cases hp : p = q0
          · rw [hp, hq0n]
            exact hM.hnbr q0 (hp ▸ hpb)
          · rw [hcells p hp]
            exact hM.hnbr p hpb
        · intro x hx
          rw [hpq'] at hx
          rcases pqPush_mem.mp hx with rfl | hx
          · rfl
          · exact hM.hid x hx
        · intro x hx
          rw [hpq'] at hx
          rcases pqPush_mem.mp hx with rfl | hx
          · exact hq0d
          · have hxne : x.2.2 ≠ q0 := by
              intro h
              exact hnuv (h ▸ hM.huv1 x hx)
            rw [hcells _ hxne]
            exact hM.hkey x hx
        · intro x hx
          rw [hpq'] at hx
          rw [huv']
          rcases pqPush_mem.mp hx with rfl | hx
          · exact Finset.mem_insert_self q0 st.uv
          · exact Finset.mem_insert_of_mem (hM.huv1 x hx)
        · intro p hp
          rw [huv'] at hp
          rw [hpq']
          rcases Finset.mem_insert.mp hp with rfl | hp
          · exact ⟨_, pqPush_mem.mpr (Or.inl rfl), rfl⟩
          · obtain ⟨x, hx, hx2⟩ := hM.huv2 p hp
            exact ⟨x, pqPush_mem.mpr (Or.inr hx), hx2⟩
        · rw [hpq']
          refine pqPush_map_nodup hM.hnodup ?_
          intro x hx h
          apply hnuv
          have h2 : x.2.2 = q0 := h
          rw [← h2]
          exact hM.huv1 x hx
        · intro p hp
          rw [huv'] at hp
          rw [hvis' p]
          rcases Finset.mem_insert.mp hp with rfl | hp
          · simpa using hv
          · exact hM.huvnv p hp
        · intro p hp
          rw [huv'] at hp
          rcases Finset.mem_insert.mp hp with rfl | hp
          · exact hq0b
          · exact hM.huvb p hp
        · intro p hpb hpv
          rw [hvis' p] at hpv
          have hpne : p ≠ q0 := by
            intro h
            rw [h] at hpv
            exact hv hpv
          rw [hcells p hpne]
          exact hM.hvfin p hpb hpv
        · intro p hpb hpfin
          rw [huv']
          by_cases hp : p = q0
          · exact Or.inr (hp ▸ Finset.mem_insert_self q0 st.uv)
          · rw [hcells p hp] at hpfin
            rcases hM.hdisc p hpb hpfin with h | h
            · exact Or.inl (by rw [hvis' p]; exact h)
            · exact Or.inr (Finset.mem_insert_of_mem h)
        · intro p hpb hpv hpne q hq
          rw [hvis' p] at hpv
          have hpq0 : p ≠ q0 := by
            intro h
            rw [h] at hpv
            exact hv hpv
          rw [hcells p hpq0]
          exact (hmono q).trans (hM.hrelaxO p hpb hpv hpne q hq)
        · intro p hpb hpv m hm
          rw [hvis' p] at hpv
          have hpq0 : p ≠ q0 := by
            intro h
            rw [h] at hpv
            exact hv hpv
          rw [hcells p hpq0]
          exact hM.hmin p hpb hpv m hm
        · intro p hpb d hd
          by_cases hp : p = q0
          · subst hp
            rw [hq0dc] at hd
            have hdval : d = du + 1 := (wt_eq_iff.mp hd.symm)
            subst hdval
            constructor
            · intro h
              rw [hq0p] at h
              cases h
            · intro u hu
              rw [hq0p] at hu
              cases hu
              refine ⟨by omega, hM.hcurb, ?_, ?_, hq0⟩
              · rw [hcells cur (Ne.symm hq0ncur)]
                exact hM.hcurv
              · rw [hcells cur (Ne.symm hq0ncur)]
                have : du + 1 - 1 = du := by omega
                rw [this]
                exact hM.hcurd
          · rw [hcells p hp] at hd
            have hch := hM.hchain p hpb d hd
            rw [hcells p hp]
            constructor
            · exact hch.1
            · intro u hu
              obtain ⟨h1, h2, h3, h4, h5⟩ := hch.2 u hu
              have hune : u ≠ q0 := by
                intro h
                rw [h] at h3
                exact hv h3
              rw [hcells u hune]
              exact ⟨h1, h2, h3, h4, h5⟩
        · intro x hx
          rw [hpq'] at hx
          rcases pqPush_mem.mp hx with rfl | hx
          · refine Or.inr ⟨cur, hM.hcurb, ?_, ?_⟩
            · rw [hcells cur (Ne.symm hq0ncur)]
              exact hM.hcurv
            · rw [hcells cur (Ne.symm hq0ncur)]
          · rcases hM.hkb x hx with h | ⟨w, hwb, hwv, hwd⟩
            · exact Or.inl h
            · have hwne : w ≠ q0 := by
                intro h
                rw [h] at hwv
                exact hv hwv
              refine Or.inr ⟨w, hwb, ?_, ?_⟩
              · rw [hvis' w]
                exact hwv
              · rw [hcells w hwne]
                exact hwd
        · intro p hpb hpv
          rw [hvis' p] at hpv
          have hpq0 : p ≠ q0 := by
            intro h
            rw [h] at hpv
            exact hv hpv
          rw [hcells p hpq0]
          exact hM.hvdu p hpb hpv
        · intro x hx
          rw [hpq'] at hx
          rcases pqPush_mem.mp hx with rfl | hx
          · show ((du : Nat) : WithTop Nat) ≤ (st.g.cells cur).distance + 1
            rw [hcurd]
            exact (wt_le_succ du).trans (le_of_eq (wt_add_one du).symm)
          · exact hM.hkdu x hx
        · intro p hpb hpv hpns
          rw [hvis' p] at hpv
          have hpq0 : p ≠ q0 := by
            intro h
            rw [h] at hpv
            exact hv hpv
          rw [hcells p hpq0]
          exact hM.hcv p hpb hpv hpns
        · rw [hstats']
          show (st.stats.pushes ++ [q0]).Nodup
          rw [List.nodup_append]
          refine ⟨hM.hpnd, List.nodup_singleton q0, ?_⟩
          intro a ha hb
          rw [List.mem_singleton] at hb
          subst hb
          have := (hM.hpd a).mp ha
          exact this.1 htop
        · intro p
          rw [hstats']
          show p ∈ st.stats.pushes ++ [q0] ↔ _
          rw [List.mem_append, List.mem_singleton]
          constructor
          · rintro (hp | rfl)
            · have := (hM.hpd p).mp hp
              have hpq0 : p ≠ q0 := by
                intro h
                rw [h] at this
                exact this.1 htop
              rw [hcells p hpq0]
              exact this
            · rw [hq0dc]
              exact ⟨wt_ne_top _, hq0b⟩
          · rintro ⟨hfin, hpb⟩
            by_cases hp : p = q0
            · exact Or.inr hp
            · rw [hcells p hp] at hfin
              exact Or.inl ((hM.hpd p).mpr ⟨hfin, hpb⟩)
        · intro p hpb dp hdp
          rw [hstats']
          show dp + 1 ≤ (st.stats.pushes ++ [q0]).length
          rw [List.length_append, List.length_singleton]
          by_cases hp : p = q0
          · rw [hp, hq0dc] at hdp
            have hdp2 : du + 1 = dp := wt_eq_iff.mp hdp
            have := hM.hdb cur hM.hcurb du hM.hcurd
            omega
          · rw [hcells p hp] at hdp
            have := hM.hdb p hpb dp hdp
            omega
      refine ⟨hMnew, le_of_eq hq0dc, hmono, ?_, hc', by rw [hstats']⟩
      -- the measure does not increase: one more heap entry, one fewer
      -- undiscovered cell
      unfold dMeasure
      rw [hpq']
      have hlen : (pqPush ((st.g.cells cur).distance + 1, nid q0, q0)
          st.pq).length = st.pq.length + 1 :=
        List.orderedInsert_length pqLe st.pq _
      set F := Finset.range gr.rows ×ˢ Finset.range gr.cols with hF
      have hsub : F.filter
          (fun p => ((relaxOne nid e cur st q0).g.cells p).distance = ⊤) ⊆
          (F.filter fun p => (st.g.cells p).distance = ⊤).erase q0 := by
        intro p hp
        rw [Finset.mem_filter] at hp
        have hpne : p ≠ q0 := by
          intro h
          rw [h, hq0dc] at hp
          exact wt_ne_top _ hp.2
        rw [Finset.mem_erase]
        refine ⟨hpne, Finset.mem_filter.mpr ⟨hp.1, ?_⟩⟩
        rw [← hcells p hpne]
        exact hp.2
      have hq0F : q0 ∈ F.filter fun p => (st.g.cells p).distance = ⊤ := by
        rw [Finset.mem_filter]
        refine ⟨?_, htop⟩
        rw [hF, Finset.mem_product]
        exact ⟨Finset.mem_range.mpr hq0b.1, Finset.mem_range.mpr hq0b.2⟩
      have h1 := Finset.card_le_card hsub
      rw [Finset.card_erase_of_mem hq0F] at h1
      have h2 : 1 ≤ (F.filter fun p => (st.g.cells p).distance = ⊤).card :=
        Finset.card_pos.mpr ⟨q0, hq0F⟩
      rw [hlen]
      omega
    · have hred : relaxOne nid e cur st q0 = st := by
        unfold relaxOne
        rw [if_neg hv, if_neg himp]
      rw [hred]
      refine ⟨hM, ?_, fun p => le_refl _, le_refl _, rfl, rfl⟩
      have := not_lt.mp himp
      rw [hcurd, wt_add_one] at this
      exact this

lemma relaxFold (gr : Grid) (nid : Pos → Nat) (s e cur : Pos) (du : Nat) :
    ∀ (l : List Pos) (st : LoopState),
      MInv gr nid s e cur du st → (∀ q ∈ l, q ∈ gr.neighborList cur) →
      MInv gr nid s e cur du (l.foldl (relaxOne nid e cur) st) ∧
      (∀ q ∈ l, ((l.foldl (relaxOne nid e cur) st).g.cells q).distance ≤
        ((du + 1 : Nat) : WithTop Nat)) ∧
      (∀ p, ((l.foldl (relaxOne nid e cur) st).g.cells p).distance ≤
        (st.g.cells p).distance) ∧
      dMeasure gr (l.foldl (relaxOne nid e cur) st) ≤ dMeasure gr st ∧
      (l.foldl (relaxOne nid e cur) st).c = st.c ∧
      (l.foldl (relaxOne nid e cur) st).stats.pops = st.stats.pops := by
  intro l
  induction l with
  | nil =>
    intro st hM _
    exact ⟨hM, by simp, fun p => le_refl _, le_refl _, rfl, rfl⟩
  | cons a l ih =>
    intro st hM hl
    obtain ⟨hM1, hda, hmono1, hmeas1, hc1, hpops1⟩ :=
      relaxOne_facts gr nid s e cur du st a hM (hl a (List.mem_cons_self a l))
    obtain ⟨hM2, hdl, hmono2, hmeas2, hc2, hpops2⟩ :=
      ih (relaxOne nid e cur st a) hM1 fun q hq => hl q (List.mem_cons_of_mem a hq)
    rw [List.foldl_cons]
    refine ⟨hM2, ?_, fun p => (hmono2 p).trans (hmono1 p),
      hmeas2.trans hmeas1, by rw [hc2, hc1], by rw [hpops2, hpops1]⟩
    intro q hq
    rcases List.mem_cons.mp hq with rfl | hq
    · exact (hmono2 q).trans hda
    · exact hdl q hq

lemma dij_step (gr : Grid) (nid : Pos → Nat) (s e : Pos) (hs : gr.inBounds s)
    (st : LoopState) (hI : DInv gr nid s e st)
    (d0 : WithTop Nat) (i0 : Nat) (cur : Pos) (rest : List PQEntry)
    (hpq : st.pq = (d0, i0, cur) :: rest) :
    cur ∈ st.uv ∧
    ∀ (c1 : Nat) (st2 : LoopState),
      st2 = { g := st.g.updateCell cur fun n => { n with visited := true },
              pq := rest, uv := st.uv.erase cur, c := c1 + 1,
              stats := { st.stats with
                pops := st.stats.pops ++ [cur] } } →
      (cur = e → FinalOk gr s e st2.g ∧ st2.stats.stale = 0 ∧
        st2.stats.requeued = 0 ∧ st2.stats.pushes.Nodup ∧
        st2.g.rows = gr.rows ∧ st2.g.cols = gr.cols ∧
        (∀ p, (st2.g.cells p).is_wall = (gr.cells p).is_wall)) ∧
      (cur ≠ e → ∀ st3 : LoopState,
        st3 = (if cur = s then st2 else
          { st2 with g := st2.g.updateCell cur NodeData.make_visited }) →
        DInv gr nid s e
          ((st3.g.cells cur).neighbors.foldl (relaxOne nid e cur) st3) ∧
        dMeasure gr
          ((st3.g.cells cur).neighbors.foldl (relaxOne nid e cur) st3) + 1 ≤
          dMeasure gr st) := by
  have hhead : (d0, i0, cur) ∈ st.pq := by
    rw [hpq]
    exact List.mem_cons_self _ _
  have hcuv : cur ∈ st.uv := hI.huv1 _ hhead
  have hcurb : gr.inBounds cur := hI.huvb cur hcuv
  have hcurnv : (st.g.cells cur).visited = false := hI.huvnv cur hcuv
  have hkey0 : (st.g.cells cur).distance = d0 := hI.hkey _ hhead
  have hd0fin : d0 ≠ ⊤ := by
    rcases hI.hkb _ hhead with ⟨h0, -⟩ | ⟨w, hwb, hwv, hwd⟩
    · have h1 : d0 = 0 := h0
      rw [h1, wt_zero]
      exact wt_ne_top 0
    · have h1 : (st.g.cells w).distance + 1 = d0 := hwd
      rw [← h1]
      obtain ⟨a, ha⟩ := wt_exists (hI.hvfin w hwb hwv)
      rw [ha, wt_add_one]
      exact wt_ne_top _
  obtain ⟨du, hdu⟩ := wt_exists hd0fin
  have hsorted : ((d0, i0, cur) :: rest).Sorted pqLe := by
    rw [← hpq]
    exact hI.hsort
  have hmind : ∀ y ∈ st.pq, d0 ≤ y.1 := by
    rw [hpq]
    exact pq_head_min hsorted
  have hminc : ∀ m : Nat, gr.pathLen s cur m →
      ((du : Nat) : WithTop Nat) ≤ ((m : Nat) : WithTop Nat) := by
    intro m hm
    rcases disc_bound gr nid s e st hI hs m cur hm with hvis | ⟨x, hx, hxle⟩
    · rw [hvis] at hcurnv
      cases hcurnv
    · calc ((du : Nat) : WithTop Nat) = d0 := hdu.symm
        _ ≤ x.1 := hmind x hx
        _ ≤ _ := hxle
  have hrestne : ∀ x ∈ rest, x.2.2 ≠ cur := by
    intro x hx h
    have := hI.hnodup
    rw [hpq] at this
    rw [List.map_cons] at this
    have h2 := (List.nodup_cons.mp this).1
    exact h2 (h ▸ List.mem_map_of_mem (fun y => y.2.2) hx)
  have hrestmem : ∀ x ∈ rest, x ∈ st.pq := by
    intro x hx
    rw [hpq]
    exact List.mem_cons_of_mem _ hx
  refine ⟨hcuv, ?_⟩
  intro c1 st2 hst2
  have h2cells : ∀ p, p ≠ cur → st2.g.cells p = st.g.cells p := by
    intro p hp
    rw [hst2]
    show (st.g.updateCell cur fun n => { n with visited := true }).cells p = _
    rw [updateCell_cells, if_neg hp]
  have h2cur : st2.g.cells cur = { st.g.cells cur with visited := true } := by
    rw [hst2]
    show (st.g.updateCell cur fun n => { n with visited := true }).cells cur = _
    exact updateCell_cells_self st.g cur _
  have h2d : ∀ p, (st2.g.cells p).distance = (st.g.cells p).distance := by
    intro p
    by_cases hp : p = cur
    · rw [hp, h2cur]
    · rw [h2cells p hp]
  have h2p : ∀ p, (st2.g.cells p).previous = (st.g.cells p).previous := by
    intro p
    by_cases hp : p = cur
    · rw [hp, h2cur]
    · rw [h2cells p hp]
  have h2w : ∀ p, (st2.g.cells p).is_wall = (st.g.cells p).is_wall := by
    intro p
    by_cases hp : p = cur
    · rw [hp, h2cur]
    · rw [h2cells p hp]
  have h2n : ∀ p, (st2.g.cells p).neighbors = (st.g.cells p).neighbors := by
    intro p
    by_cases hp : p = cur
    · rw [hp, h2cur]
    · rw [h2cells p hp]
  have h2col : ∀ p, (st2.g.cells p).color = (st.g.cells p).color := by
    intro p
    by_cases hp : p = cur
    · rw [hp, h2cur]
    · rw [h2cells p hp]
  have h2v : ∀ p, (st2.g.cells p).visited =
      if p = cur then true else (st.g.cells p).visited := by
    intro p
    by_cases hp : p = cur
    · rw [hp, h2cur, if_pos rfl]
    · rw [h2cells p hp, if_neg hp]
  have h2vmono : ∀ p, (st.g.cells p).visited = true →
      (st2.g.cells p).visited = true := by
    intro p hp
    rw [h2v p]
    split_ifs <;> [rfl; exact hp]
  have h2rows : st2.g.rows = gr.rows := by
    rw [hst2]
    exact hI.hrows
  have h2cols : st2.g.cols = gr.cols := by
    rw [hst2]
    exact hI.hcols
  have h2chain : ∀ p, gr.inBounds p → ∀ d : Nat,
      (st2.g.cells p).distance = (d : WithTop Nat) →
      ((st2.g.cells p).previous = none → p = s ∧ d = 0) ∧
      (∀ u, (st2.g.cells p).previous = some u → 1 ≤ d ∧ gr.inBounds u ∧
        (st2.g.cells u).visited = true ∧
        (st2.g.cells u).distance = ((d - 1 : Nat) : WithTop Nat) ∧
        p ∈ gr.neighborList u) := by
    intro p hpb d hd
    rw [h2d p] at hd
    have hch := hI.hchain p hpb d hd
    rw [h2p p]
    refine ⟨hch.1, ?_⟩
    intro u hu
    obtain ⟨x1, x2, x3, x4, x5⟩ := hch.2 u hu
    exact ⟨x1, x2, h2vmono u x3, (h2d u).symm ▸ x4, x5⟩
  constructor
  · -- the popped node is the goal: the run returns PathFound
    intro he
    have hdcur : (st2.g.cells cur).distance = ((du : Nat) : WithTop Nat) := by
      rw [h2d cur, hkey0, hdu]
    have hfin : FinalOk gr s e st2.g := by
      refine
        { hrows := h2rows
          hcols := h2cols
          hwall := fun p => (h2w p).trans (hI.hwall p)
          hsd := (h2d s).symm ▸ hI.hsd
          hsp := (h2p s).symm ▸ hI.hsp
          hchain := h2chain
          hcv := ?_
          hcs := (h2col s).symm ▸ hI.hcs
          hve := by rw [← he, h2v cur, if_pos rfl]
          hde := ?_ }
      · intro p hpb hpv hpns hpne
        rw [h2v p] at hpv
        rw [if_neg fun h => hpne (h.trans he)] at hpv
        rw [h2col p]
        exact hI.hcv p hpb hpv hpns
      · refine ⟨du, by rw [← he]; exact hdcur, ?_, ?_, ?_⟩
        · have := chain_sound gr s st2.g h2chain du cur hcurb hdcur
          rw [← he]
          exact this
        · intro m hm
          rw [← he] at hm
          exact wt_le_iff.mp (hminc m hm)
        · have hdub := hI.hdb cur hcurb du (hkey0.trans hdu)
          have hlenb := pushes_card_le gr st.stats.pushes hI.hpnd
            (fun p hp => ((hI.hpd p).mp hp).2)
          omega
    refine ⟨hfin, ?_, ?_, ?_, h2rows, h2cols,
      fun p => (h2w p).trans (hI.hwall p)⟩
    · rw [hst2]
      exact hI.hstale
    · rw [hst2]
      exact hI.hrq
    · rw [hst2]
      exact hI.hpnd
  · -- the popped node is not the goal: relax its neighbors and continue
    intro hnecur st3 hst3
    have h3g : ∀ p, (st3.g.cells p) =
        if p = cur ∧ cur ≠ s then (st2.g.cells p).make_visited
        else st2.g.cells p := by
      intro p
      rw [hst3]
      by_cases hcs0 : cur = s
      · rw [if_pos hcs0]
        rw [if_neg]
        rintro ⟨-, h⟩
        exact h hcs0
      · rw [if_neg hcs0]
        show (st2.g.updateCell cur NodeData.make_visited).cells p = _
        rw [updateCell_cells]
        by_cases hp : p = cur
        · rw [if_pos hp, if_pos ⟨hp, hcs0⟩, hp]
        · rw [if_neg hp, if_neg]
          rintro ⟨h, -⟩
          exact hp h
    have h3d : ∀ p, (st3.g.cells p).distance = (st.g.cells p).distance := by
      intro p
      rw [h3g p]
      split_ifs
      · show (st2.g.cells p).distance = _
        exact h2d p
      · exact h2d p
    have h3p : ∀ p, (st3.g.cells p).previous = (st.g.cells p).previous := by
      intro p
      rw [h3g p]
      split_ifs
      · show (st2.g.cells p).previous = _
        exact h2p p
      · exact h2p p
    have h3w : ∀ p, (st3.g.cells p).is_wall = (st.g.cells p).is_wall := by
      intro p
      rw [h3g p]
      split_ifs
      · show (st2.g.cells p).is_wall = _
        exact h2w p
      · exact h2w p
    have h3n : ∀ p, (st3.g.cells p).neighbors = (st.g.cells p).neighbors := by
      intro p
      rw [h3g p]
      split_ifs
      · show (st2.g.cells p).neighbors = _
        exact h2n p
      · exact h2n p
    have h3v : ∀ p, (st3.g.cells p).visited =
        if p = cur then true else (st.g.cells p).visited := by
      intro p
      by_cases hpc : p = cur
      · rw [if_pos hpc, h3g p]
        by_cases hcs0 : cur ≠ s
        · rw [if_pos ⟨hpc, hcs0⟩]
          show (st2.g.cells p).visited = true
          rw [h2v p, if_pos hpc]
        · rw [if_neg fun hh => hcs0 hh.2]
          rw [h2v p, if_pos hpc]
      · rw [if_neg hpc, h3g p]
        rw [if_neg fun hh => hpc hh.1]
        rw [h2v p, if_neg hpc]
    have h3col : ∀ p, p ≠ cur → (st3.g.cells p).color = (st.g.cells p).color := by
      intro p hp
      rw [h3g p]
      rw [if_neg]
      · exact h2col p
      · rintro ⟨h, -⟩
        exact hp h
    have h3colcur : cur ≠ s → (st3.g.cells cur).color = NODE_VISITED := by
      intro hcs0
      rw [h3g cur, if_pos ⟨rfl, hcs0⟩]
      rfl
    have h3colcur2 : cur = s → (st3.g.cells cur).color = (st.g.cells cur).color := by
      intro hcs0
      rw [h3g cur]
      rw [if_neg]
      · exact h2col cur
      · rintro ⟨-, h⟩
        exact h hcs0
    have h3rows : st3.g.rows = gr.rows := by
      rw [hst3]
      split_ifs <;> [exact h2rows; exact h2rows]
    have h3cols : st3.g.cols = gr.cols := by
      rw [hst3]
      split_ifs <;> [exact h2cols; exact h2cols]
    have h3pq : st3.pq = rest := by
      rw [hst3]
      split_ifs <;> rw [hst2]
    have h3uv : st3.uv = st.uv.erase cur := by
      rw [hst3]
      split_ifs <;> rw [hst2]
    have h3c : st3.c = c1 + 1 := by
      rw [hst3]
      split_ifs <;> rw [hst2]
    have h3stats : st3.stats = { st.stats with
        pops := st.stats.pops ++ [cur] } := by
      rw [hst3]
      split_ifs <;> rw [hst2]
    have hM3 : MInv gr nid s e cur du st3 := by
      refine
        { hrows := h3rows
          hcols := h3cols
          hwall := fun p => (h3w p).trans (hI.hwall p)
          hnbr := fun p hpb => (h3n p).trans (hI.hnbr p hpb)
          hsort := by
            rw [h3pq]
            exact (List.sorted_cons.mp hsorted).2
          hid := by
            rw [h3pq]
            exact fun x hx => hI.hid x (hrestmem x hx)
          hkey := by
            rw [h3pq]
            exact fun x hx => (h3d x.2.2).symm ▸ hI.hkey x (hrestmem x hx)
          huv1 := by
            rw [h3pq, h3uv]
            exact fun x hx => Finset.mem_erase.mpr
              ⟨hrestne x hx, hI.huv1 x (hrestmem x hx)⟩
          huv2 := ?_
          hnodup := by
            rw [h3pq]
            have := hI.hnodup
            rw [hpq, List.map_cons] at this
            exact (List.nodup_cons.mp this).2
          huvnv := ?_
          huvb := by
            rw [h3uv]
            exact fun p hp => hI.huvb p (Finset.mem_of_mem_erase hp)
          hvfin := ?_
          hdisc := ?_
          hrelaxO := ?_
          hmin := ?_
          hchain := ?_
          hsd := (h3d s).symm ▸ hI.hsd
          hsp := (h3p s).symm ▸ hI.hsp
          hkb := ?_
          hvdu := ?_
          hkdu := by
            rw [h3pq]
            intro x hx
            rw [← hdu]
            exact hmind x (hrestmem x hx)
          hcurb := hcurb
          hcurd := by
            rw [h3d cur, hkey0, hdu]
          hcurv := by
            rw [h3v cur, if_pos rfl]
          hne := by
            rw [h3v e, if_neg (fun h => hnecur h.symm)]
            exact hI.hne
          hcv := ?_
          hcs := ?_
          hstale := by
            rw [h3stats]
            exact hI.hstale
          hrq := by
            rw [h3stats]
            exact hI.hrq
          hpnd := by
            rw [h3stats]
            exact hI.hpnd
          hpd := fun p => by
            rw [h3stats]
            show p ∈ st.stats.pushes ↔ _
            rw [h3d p]
            exact hI.hpd p
          hdb := fun p hpb dp hdp => by
            rw [h3stats]
            show dp + 1 ≤ st.stats.pushes.length
            exact hI.hdb p hpb dp ((h3d p) ▸ hdp) }
      · -- huv2
        rw [h3pq, h3uv]
        intro p hp
        obtain ⟨hpne, hpuv⟩ := Finset.mem_erase.mp hp
        obtain ⟨x, hx, hx2⟩ := hI.huv2 p hpuv
        rw [hpq] at hx
        rcases List.mem_cons.mp hx with rfl | hx
        · have hx3 : cur = p := hx2
          exact absurd hx3.symm hpne
        · exact ⟨x, hx, hx2⟩
      · -- huvnv
        rw [h3uv]
        intro p hp
        obtain ⟨hpne, hpuv⟩ := Finset.mem_erase.mp hp
        rw [h3v p, if_neg hpne]
        exact hI.huvnv p hpuv
      · -- hvfin
        intro p hpb hpv
        rw [h3v p] at hpv
        rw [h3d p]
        by_cases hp : p = cur
        · rw [hp, hkey0]
          exact hd0fin
        · rw [if_neg hp] at hpv
          exact hI.hvfin p hpb hpv
      · -- hdisc
        intro p hpb hpfin
        rw [h3d p] at hpfin
        by_cases hp : p = cur
        · left
          rw [h3v p, if_pos hp]
        · rcases hI.hdisc p hpb hpfin with h | h
          · left
            rw [h3v p, if_neg hp]
            exact h
          · right
            rw [h3uv]
            exact Finset.mem_erase.mpr ⟨hp, h⟩
      · -- hrelaxO
        intro p hpb hpv hpne q hq
        rw [h3v p, if_neg hpne] at hpv
        rw [h3d p, h3d q]
        exact hI.hrelax p hpb hpv q hq
      · -- hmin
        intro p hpb hpv m hm
        rw [h3v p] at hpv
        rw [h3d p]
        by_cases hp : p = cur
        · subst hp
          rw [hkey0, hdu]
          exact hminc m hm
        · rw [if_neg hp] at hpv
          exact hI.hmin p hpb hpv m hm
      · -- hchain
        intro p hpb d hd
        rw [h3d p] at hd
        have hch := hI.hchain p hpb d hd
        rw [h3p p]
        refine ⟨hch.1, ?_⟩
        intro u hu
        obtain ⟨x1, x2, x3, x4, x5⟩ := hch.2 u hu
        refine ⟨x1, x2, ?_, (h3d u).symm ▸ x4, x5⟩
        rw [h3v u]
        split_ifs <;> [rfl; exact x3]
      · -- hkb
        rw [h3pq]
        intro x hx
        rcases hI.hkb x (hrestmem x hx) with h | ⟨w, hwb, hwv, hwd⟩
        · exact Or.inl h
        · refine Or.inr ⟨w, hwb, ?_, (h3d w).symm ▸ hwd⟩
          rw [h3v w]
          split_ifs <;> [rfl; exact hwv]
      · -- hvdu
        intro p hpb hpv
        rw [h3v p] at hpv
        rw [h3d p]
        by_cases hp : p = cur
        · rw [hp, hkey0, hdu]
        · rw [if_neg hp] at hpv
          have := hI.hvk p hpb hpv _ hhead
          rw [← hdu]
          exact this
      · -- hcv
        intro p hpb hpv hpns
        rw [h3v p] at hpv
        by_cases hp : p = cur
        · subst hp
          exact h3colcur fun h => hpns h
        · rw [if_neg hp] at hpv
          rw [h3col p hp]
          exact hI.hcv p hpb hpv hpns
      · -- hcs
        by_cases hcs0 : cur = s
        · rw [← hcs0, h3colcur2 hcs0, hcs0]
          exact hI.hcs
        · rw [h3col s fun h => hcs0 h.symm]
          exact hI.hcs
    have hnlist : (st3.g.cells cur).neighbors = gr.neighborList cur :=
      (h3n cur).trans (hI.hnbr cur hcurb)
    obtain ⟨hM4, hrel4, hmono4, hmeas4, -, -⟩ :=
      relaxFold gr nid s e cur du ((st3.g.cells cur).neighbors) st3 hM3
        (by rw [hnlist]; exact fun q hq => hq)
    set st4 := (st3.g.cells cur).neighbors.foldl (relaxOne nid e cur) st3
      with hst4
    constructor
    · -- reassemble the full invariant after the relaxation fold
      refine
        { hrows := hM4.hrows
          hcols := hM4.hcols
          hwall := hM4.hwall
          hnbr := hM4.hnbr
          hsort := hM4.hsort
          hid := hM4.hid
          hkey := hM4.hkey
          huv1 := hM4.huv1
          huv2 := hM4.huv2
          hnodup := hM4.hnodup
          huvnv := hM4.huvnv
          huvb := hM4.huvb
          hvfin := hM4.hvfin
          hdisc := hM4.hdisc
          hrelax := ?_
          hmin := hM4.hmin
          hchain := hM4.hchain
          hsd := hM4.hsd
          hsp := hM4.hsp
          hkb := hM4.hkb
          hvk := ?_
          hne := hM4.hne
          hcv := hM4.hcv
          hcs := hM4.hcs
          hstale := hM4.hstale
          hrq := hM4.hrq
          hpnd := hM4.hpnd
          hpd := hM4.hpd
          hdb := hM4.hdb }
      · -- hrelax, including the obligations of the just-processed node
        intro p hpb hpv q hq
        by_cases hp : p = cur
        · subst hp
          have h1 : ((st4.g.cells q).distance) ≤
              ((du + 1 : Nat) : WithTop Nat) := by
            apply hrel4
            rw [hnlist]
            exact hq
          rw [hM4.hcurd, wt_add_one]
          exact h1
        · exact hM4.hrelaxO p hpb hpv hp q hq
      · -- hvk
        intro p hpb hpv x hx
        exact (hM4.hvdu p hpb hpv).trans (hM4.hkdu x hx)
    · -- the measure strictly decreases across the iteration
      have hm3 : dMeasure gr st3 + 1 = dMeasure gr st := by
        unfold dMeasure
        rw [h3pq, hpq]
        have hfe : (Finset.range gr.rows ×ˢ Finset.range gr.cols).filter
            (fun p => (st3.g.cells p).distance = ⊤) =
            (Finset.range gr.rows ×ˢ Finset.range gr.cols).filter
            (fun p => (st.g.cells p).distance = ⊤) := by
          apply Finset.filter_congr
          intro p _
          rw [h3d p]
        rw [hfe]
        simp [List.length_cons]
        omega
      omega

lemma loopGo_nil (nid : Pos → Nat) (pauses stops : Nat → Bool) (s e : Pos)
    (fuel : Nat) (st : LoopState) (hpq : st.pq = []) :
    loopGo nid pauses stops s e (fuel + 1) st = some (false, st.g, st.stats) := by
  simp only [loopGo]
  rw [hpq]

lemma loopGo_cons (nid : Pos → Nat) (pauses stops : Nat → Bool) (s e : Pos)
    (fuel : Nat) (st : LoopState) (d0 : WithTop Nat) (i0 : Nat) (cur : Pos)
    (rest : List PQEntry) (hpq : st.pq = (d0, i0, cur) :: rest) :
    loopGo nid pauses stops s e (fuel + 1) st =
      if stops st.c = true then some (false, st.g, st.stats)
      else
        match pauseWait pauses stops (fuel + 1) (st.c + 1) with
        | none => none
        | some c1 =>
          if stops c1 = true then some (false, st.g, st.stats)
          else
            if cur ∈ st.uv then
              if cur = e then
                some (true, st.g.updateCell cur fun n => { n with visited := true },
                  { st.stats with pops := st.stats.pops ++ [cur] })
              else
                loopGo nid pauses stops s e fuel
                  ((((if cur = s then
                      ({ g := st.g.updateCell cur fun n => { n with visited := true },
                         pq := rest, uv := st.uv.erase cur, c := c1 + 1,
                         stats := { st.stats with
                           pops := st.stats.pops ++ [cur] } } : LoopState)
                    else
                      { g := (st.g.updateCell cur fun n =>
                          { n with visited := true }).updateCell cur
                            NodeData.make_visited,
                        pq := rest, uv := st.uv.erase cur, c := c1 + 1,
                        stats := { st.stats with
                          pops := st.stats.pops ++ [cur] } }).g.cells cur).neighbors).foldl
                    (relaxOne nid e cur)
                    (if cur = s then
                      { g := st.g.updateCell cur fun n => { n with visited := true },
                        pq := rest, uv := st.uv.erase cur, c := c1 + 1,
                        stats := { st.stats with
                          pops := st.stats.pops ++ [cur] } }
                    else
                      { g := (st.g.updateCell cur fun n =>
                          { n with visited := true }).updateCell cur
                            NodeData.make_visited,
                        pq := rest, uv := st.uv.erase cur, c := c1 + 1,
                        stats := { st.stats with
                          pops := st.stats.pops ++ [cur] } }))
            else
              loopGo nid pauses stops s e fuel
                { g := st.g, pq := rest, uv := st.uv, c := c1 + 1,
                  stats := { st.stats with
                    pops := st.stats.pops ++ [cur],
                    stale := st.stats.stale + 1 } } := by
  simp only [loopGo]
  rw [hpq]

lemma loopGo_inv (gr : Grid) (nid : Pos → Nat) (s e : Pos)
    (hs : gr.inBounds s) (pauses stops : Nat → Bool) :
    ∀ (fuel : Nat) (st : LoopState), DInv gr nid s e st →
      ∀ (b : Bool) (gf : Grid) (stats : RunStats),
        loopGo nid pauses stops s e fuel st = some (b, gf, stats) →
        stats.stale = 0 ∧ stats.requeued = 0 ∧ stats.pushes.Nodup ∧
        gf.rows = gr.rows ∧ gf.cols = gr.cols ∧
        (∀ p, (gf.cells p).is_wall = (gr.cells p).is_wall) ∧
        (b = true → FinalOk gr s e gf) := by
  intro fuel
  induction fuel with
  | zero =>
    intro st hI b gf stats h
    simp only [loopGo] at h
    exact Option.noConfusion h
  | succ fuel ih =>
    intro st hI b gf stats h
    rcases hpq : st.pq with _ | ⟨⟨d0, i0, cur⟩, rest⟩
    · rw [loopGo_nil nid pauses stops s e fuel st hpq] at h
      simp only [Option.some.injEq, Prod.mk.injEq] at h
      obtain ⟨rfl, rfl, rfl⟩ := h
      exact ⟨hI.hstale, hI.hrq, hI.hpnd, hI.hrows, hI.hcols,
        fun p => hI.hwall p, fun habs => Bool.noConfusion habs⟩
    · rw [loopGo_cons nid pauses stops s e fuel st d0 i0 cur rest hpq] at h
      obtain ⟨hcuv, hrest⟩ := dij_step gr nid s e hs st hI d0 i0 cur rest hpq
      by_cases hstop : stops st.c = true
      · rw [if_pos hstop] at h
        simp only [Option.some.injEq, Prod.mk.injEq] at h
        obtain ⟨rfl, rfl, rfl⟩ := h
        exact ⟨hI.hstale, hI.hrq, hI.hpnd, hI.hrows, hI.hcols,
          fun p => hI.hwall p, fun habs => Bool.noConfusion habs⟩
      · rw [if_neg hstop] at h
        rcases hpw : pauseWait pauses stops (fuel + 1) (st.c + 1) with _ | c1
        · rw [hpw] at h
          exact Option.noConfusion h
        · rw [hpw] at h
          simp only [] at h
          by_cases hstop2 : stops c1 = true
          · rw [if_pos hstop2] at h
            simp only [Option.some.injEq, Prod.mk.injEq] at h
            obtain ⟨rfl, rfl, rfl⟩ := h
            exact ⟨hI.hstale, hI.hrq, hI.hpnd, hI.hrows, hI.hcols,
              fun p => hI.hwall p, fun habs => Bool.noConfusion habs⟩
          · rw [if_neg hstop2, if_pos hcuv] at h
            have hfacts := hrest c1
              { g := st.g.updateCell cur fun n => { n with visited := true },
                pq := rest, uv := st.uv.erase cur, c := c1 + 1,
                stats := { st.stats with
                  pops := st.stats.pops ++ [cur] } } rfl
            by_cases hce : cur = e
            · rw [if_pos hce] at h
              simp only [Option.some.injEq, Prod.mk.injEq] at h
              obtain ⟨rfl, rfl, rfl⟩ := h
              obtain ⟨hfin, h1, h2, h3, h4, h5, h6⟩ := hfacts.1 hce
              exact ⟨h1, h2, h3, h4, h5, h6, fun _ => hfin⟩
            · rw [if_neg hce] at h
              obtain ⟨hD4, -⟩ := hfacts.2 hce _ rfl
              exact ih _ hD4 b gf stats h

lemma pauseWait_constFalse (fuel c : Nat) :
    pauseWait constFalse constFalse (fuel + 1) c = some (c + 1) := by
  simp [pauseWait, constFalse]

lemma loopGo_total (gr : Grid) (nid : Pos → Nat) (s e : Pos)
    (hs : gr.inBounds s) :
    ∀ (fuel : Nat) (st : LoopState), DInv gr nid s e st →
      dMeasure gr st < fuel →
      ∃ (b : Bool) (gf : Grid) (stats : RunStats),
        loopGo nid constFalse constFalse s e fuel st = some (b, gf, stats) ∧
        (b = false → ¬ gr.reach s e) := by
  intro fuel
  induction fuel with
  | zero =>
    intro st _ hm
    exact absurd hm (Nat.not_lt_zero _)
  | succ fuel ih =>
    intro st hI hm
    rcases hpq : st.pq with _ | ⟨⟨d0, i0, cur⟩, rest⟩
    · refine ⟨false, st.g, st.stats,
        loopGo_nil nid constFalse constFalse s e fuel st hpq, ?_⟩
      rintro - ⟨n, hn⟩
      have huve : ∀ p, p ∉ st.uv := by
        intro p hp
        obtain ⟨x, hx, -⟩ := hI.huv2 p hp
        rw [hpq] at hx
        cases hx
      have hclose : ∀ (n : Nat) (q : Pos), gr.pathLen s q n →
          (st.g.cells q).visited = true := by
        intro n
        induction n with
        | zero =>
          intro q h
          cases h
          have hfin : (st.g.cells s).distance ≠ ⊤ := by
            rw [hI.hsd]
            exact wt_ne_top 0
          rcases hI.hdisc s hs hfin with hv | huv
          · exact hv
          · exact absurd huv (huve s)
        | succ n ihn =>
          intro q h
          obtain ⟨q1, hp, hstep⟩ := pathLen_succ_back h
          have hv1 := ihn q1 hp
          have hq1b : gr.inBounds q1 := by
            rcases pathLen_target_props hp with rfl | ⟨hb, -⟩
            · exact hs
            · exact hb
          have hmem : q ∈ gr.neighborList q1 := mem_neighborList.mpr hstep
          have hrel := hI.hrelax q1 hq1b hv1 q hmem
          obtain ⟨a, ha⟩ := wt_exists (hI.hvfin q1 hq1b hv1)
          have hfinq : (st.g.cells q).distance ≠ ⊤ := by
            apply wt_ne_top_of_le (b := a + 1)
            calc (st.g.cells q).distance ≤ (st.g.cells q1).distance + 1 := hrel
              _ = ((a + 1 : Nat) : WithTop Nat) := by rw [ha, wt_add_one]
          rcases hI.hdisc q (step_inb hstep) hfinq with hv | huv
          · exact hv
          · exact absurd huv (huve q)
      have := hclose n e hn
      rw [hI.hne] at this
      exact Bool.noConfusion this
    · obtain ⟨hcuv, hrest⟩ := dij_step gr nid s e hs st hI d0 i0 cur rest hpq
      have hfacts := hrest (st.c + 1 + 1) _ rfl
      by_cases hce : cur = e
      · refine ⟨true, st.g.updateCell cur fun n => { n with visited := true },
          { st.stats with pops := st.stats.pops ++ [cur] }, ?_,
          fun habs => Bool.noConfusion habs⟩
        rw [loopGo_cons nid constFalse constFalse s e fuel st d0 i0 cur rest hpq]
        rw [if_neg (by simp [constFalse]), pauseWait_constFalse]
        simp only []
        rw [if_neg (by simp [constFalse]), if_pos hcuv, if_pos hce]
      · obtain ⟨hD4, hmeas⟩ := hfacts.2 hce _ rfl
        have h1 : st.pq.length = rest.length + 1 := by
          rw [hpq]
          rfl
        obtain ⟨b, gf, stats, hrun, hfalse⟩ := ih _ hD4 (by omega)
        refine ⟨b, gf, stats, ?_, hfalse⟩
        rw [loopGo_cons nid constFalse constFalse s e fuel st d0 i0 cur rest hpq]
        rw [if_neg (by simp [constFalse]), pauseWait_constFalse]
        simp only []
        rw [if_neg (by simp [constFalse]), if_pos hcuv, if_neg hce]
        exact hrun

lemma dijkstraReset_props (g : Grid) (s e p : Pos) :
    ((dijkstraReset g s e).cells p).is_wall = (g.cells p).is_wall ∧
    ((dijkstraReset g s e).cells p).neighbors = (g.cells p).neighbors ∧
    (g.inBounds p → ((dijkstraReset g s e).cells p).distance = ⊤ ∧
      ((dijkstraReset g s e).cells p).previous = none ∧
      ((dijkstraReset g s e).cells p).visited = false) ∧
    (p = s ∨ p = e → ((dijkstraReset g s e).cells p).color = (g.cells p).color) ∧
    (¬ g.inBounds p → (dijkstraReset g s e).cells p = g.cells p) := by
  simp only [dijkstraReset]
  by_cases hb : g.inBounds p
  · rw [if_pos hb]
    by_cases hcond : (g.cells p).is_wall = false ∧ p ≠ s ∧ p ≠ e
    · rw [if_pos hcond]
      refine ⟨?_, rfl, fun _ => ⟨rfl, rfl, rfl⟩, ?_, fun h => absurd hb h⟩
      · show false = (g.cells p).is_wall
        exact hcond.1.symm
      · rintro (rfl | rfl)
        · exact absurd rfl hcond.2.1
        · exact absurd rfl hcond.2.2
    · rw [if_neg hcond]
      exact ⟨rfl, rfl, fun _ => ⟨rfl, rfl, rfl⟩, fun _ => rfl,
        fun h => absurd hb h⟩
  · rw [if_neg hb]
    exact ⟨rfl, rfl, fun h => absurd h hb, fun _ => rfl, fun _ => rfl⟩

lemma set_neighbors_props (g : Grid) (p : Pos) :
    ((g.set_neighbors).cells p).is_wall = (g.cells p).is_wall ∧
    ((g.set_neighbors).cells p).distance = (g.cells p).distance ∧
    ((g.set_neighbors).cells p).previous = (g.cells p).previous ∧
    ((g.set_neighbors).cells p).visited = (g.cells p).visited ∧
    ((g.set_neighbors).cells p).color = (g.cells p).color ∧
    (g.inBounds p → ((g.set_neighbors).cells p).neighbors = g.neighborList p) ∧
    (¬ g.inBounds p → (g.set_neighbors).cells p = g.cells p) := by
  simp only [Grid.set_neighbors]
  by_cases hb : g.inBounds p
  · rw [if_pos hb]
    exact ⟨rfl, rfl, rfl, rfl, rfl, fun _ => rfl, fun h => absurd hb h⟩
  · rw [if_neg hb]
    exact ⟨rfl, rfl, rfl, rfl, rfl, fun h => absurd h hb, fun _ => rfl⟩

lemma dij_init (g : Grid) (nid : Pos → Nat) (s e : Pos)
    (hs : g.inBounds s) (he : g.inBounds e) :
    DInv g nid s e
      { g := ((dijkstraReset g s e).set_neighbors).updateCell s
          fun n => { n with distance := (0 : WithTop Nat) },
        pq := [((0 : WithTop Nat), nid s, s)], uv := {s}, c := 0,
        stats := { pushes := [s] } } := by
  set g1 := dijkstraReset g s e with hg1
  set g2 := g1.set_neighbors with hg2
  set g3 := g2.updateCell s fun n => { n with distance := (0 : WithTop Nat) }
    with hg3
  have hb12 : ∀ p : Pos, g1.inBounds p ↔ g.inBounds p := fun p => Iff.rfl
  have h12w : ∀ p, (g1.cells p).is_wall = (g.cells p).is_wall :=
    fun p => (dijkstraReset_props g s e p).1
  have h23 : ∀ p, p ≠ s → g3.cells p = g2.cells p := by
    intro p hp
    rw [hg3]
    exact updateCell_cells_of_ne _ _ _ hp
  have h3s : g3.cells s = { g2.cells s with distance := (0 : WithTop Nat) } := by
    rw [hg3]
    exact updateCell_cells_self _ _ _
  have hnl : ∀ p : Pos, g1.neighborList p = g.neighborList p :=
    neighborList_congr rfl rfl h12w
  have h3w : ∀ p, (g3.cells p).is_wall = (g.cells p).is_wall := by
    intro p
    by_cases hp : p = s
    · rw [hp, h3s]
      show (g2.cells s).is_wall = _
      rw [(set_neighbors_props g1 s).1, h12w]
    · rw [h23 p hp, (set_neighbors_props g1 p).1, h12w]
  have h3n : ∀ p, g.inBounds p → (g3.cells p).neighbors = g.neighborList p := by
    intro p hpb
    by_cases hp : p = s
    · rw [hp, h3s]
      show (g2.cells s).neighbors = _
      rw [(set_neighbors_props g1 s).2.2.2.2.2.1 ((hb12 s).mpr hs), hnl]
    · rw [h23 p hp, (set_neighbors_props g1 p).2.2.2.2.2.1 ((hb12 p).mpr hpb),
        hnl]
  have h3d : ∀ p, g.inBounds p → p ≠ s → (g3.cells p).distance = ⊤ := by
    intro p hpb hp
    rw [h23 p hp, (set_neighbors_props g1 p).2.1]
    exact ((dijkstraReset_props g s e p).2.2.1 hpb).1
  have h3ds : (g3.cells s).distance = (0 : WithTop Nat) := by
    rw [h3s]
  have h3v : ∀ p, g.inBounds p → (g3.cells p).visited = false := by
    intro p hpb
    by_cases hp : p = s
    · rw [hp, h3s]
      show (g2.cells s).visited = _
      rw [(set_neighbors_props g1 s).2.2.2.1]
      exact ((dijkstraReset_props g s e s).2.2.1 hs).2.2
    · rw [h23 p hp, (set_neighbors_props g1 p).2.2.2.1]
      exact ((dijkstraReset_props g s e p).2.2.1 hpb).2.2
  have h3p : ∀ p, g.inBounds p → (g3.cells p).previous = none := by
    intro p hpb
    by_cases hp : p = s
    · rw [hp, h3s]
      show (g2.cells s).previous = _
      rw [(set_neighbors_props g1 s).2.2.1]
      exact ((dijkstraReset_props g s e s).2.2.1 hs).2.1
    · rw [h23 p hp, (set_neighbors_props g1 p).2.2.1]
      exact ((dijkstraReset_props g s e p).2.2.1 hpb).2.1
  have h3cs : (g3.cells s).color = (g.cells s).color := by
    rw [h3s]
    show (g2.cells s).color = _
    rw [(set_neighbors_props g1 s).2.2.2.2.1]
    exact (dijkstraReset_props g s e s).2.2.2.1 (Or.inl rfl)
  refine
    { hrows := rfl
      hcols := rfl
      hwall := h3w
      hnbr := h3n
      hsort := List.sorted_singleton _
      hid := ?_
      hkey := ?_
      huv1 := ?_
      huv2 := ?_
      hnodup := by simp
      huvnv := ?_
      huvb := ?_
      hvfin := ?_
      hdisc := ?_
      hrelax := ?_
      hmin := ?_
      hchain := ?_
      hsd := by rw [h3ds, wt_zero]
      hsp := h3p s hs
      hkb := ?_
      hvk := ?_
      hne := h3v e he
      hcv := ?_
      hcs := h3cs
      hstale := rfl
      hrq := rfl
      hpnd := List.nodup_singleton s
      hpd := ?_
      hdb := ?_ }
  · intro x hx
    rw [List.mem_singleton] at hx
    subst hx
    rfl
  · intro x hx
    rw [List.mem_singleton] at hx
    subst hx
    exact h3ds
  · intro x hx
    rw [List.mem_singleton] at hx
    subst hx
    exact Finset.mem_singleton_self s
  · intro p hp
    rw [Finset.mem_singleton] at hp
    subst hp
    exact ⟨_, List.mem_singleton_self _, rfl⟩
  · intro p hp
    rw [Finset.mem_singleton] at hp
    rw [hp]
    exact h3v s hs
  · intro p hp
    rw [Finset.mem_singleton] at hp
    rw [hp]
    exact hs
  · intro p hpb hpv
    rw [h3v p hpb] at hpv
    cases hpv
  · intro p hpb hpfin
    right
    rw [Finset.mem_singleton]
    by_contra hp
    exact hpfin (h3d p hpb hp)
  · intro p hpb hpv
    rw [h3v p hpb] at hpv
    cases hpv
  · intro p hpb hpv
    rw [h3v p hpb] at hpv
    cases hpv
  · intro p hpb d hd
    by_cases hp : p = s
    · rw [hp, h3ds, wt_zero] at hd
      have hd0 : d = 0 := wt_eq_iff.mp hd.symm
      subst hd0
      refine ⟨fun _ => ⟨hp, rfl⟩, ?_⟩
      intro u hu
      rw [hp, h3p s hs] at hu
      cases hu
    · rw [h3d p hpb hp] at hd
      exact absurd hd.symm (wt_ne_top d)
  · intro x hx
    rw [List.mem_singleton] at hx
    subst hx
    exact Or.inl ⟨rfl, rfl⟩
  · intro p hpb hpv
    rw [h3v p hpb] at hpv
    cases hpv
  · intro p hpb hpv
    rw [h3v p hpb] at hpv
    cases hpv
  · intro p
    show p ∈ [s] ↔ _
    rw [List.mem_singleton]
    constructor
    · rintro rfl
      rw [h3ds, wt_zero]
      exact ⟨wt_ne_top 0, hs⟩
    · rintro ⟨hfin, hpb⟩
      by_contra hp
      exact hfin (h3d p hpb hp)
  · intro p hpb dp hdp
    show dp + 1 ≤ [s].length
    rw [List.length_singleton]
    by_cases hp : p = s
    · rw [hp, h3ds, wt_zero] at hdp
      have hd0 : dp = 0 := wt_eq_iff.mp hdp.symm
      omega
    · rw [h3d p hpb hp] at hdp
      exact absurd hdp.symm (wt_ne_top dp)

lemma dijkstra_run (g : Grid) (nid : Pos → Nat) (s e : Pos)
    (hs : g.inBounds s) (he : g.inBounds e) :
    ∃ (b : Bool) (gf : Grid) (stats : RunStats),
      dijkstra g (some s) (some e) nid constFalse constFalse =
        some (b, gf, stats) ∧
      (b = true ↔ g.reach s e) ∧
      stats.stale = 0 ∧ stats.requeued = 0 ∧ stats.pushes.Nodup ∧
      (b = true → FinalOk g s e gf) := by
  have hI := dij_init g nid s e hs he
  have hm : dMeasure g
      { g := ((dijkstraReset g s e).set_neighbors).updateCell s
          fun n => { n with distance := (0 : WithTop Nat) },
        pq := [((0 : WithTop Nat), nid s, s)], uv := {s}, c := 0,
        stats := { pushes := [s] } } < g.rows * g.cols + 1 := by
    unfold dMeasure
    have hsub : (Finset.range g.rows ×ˢ Finset.range g.cols).filter
        (fun p => ((((dijkstraReset g s e).set_neighbors).updateCell s
          fun n => { n with distance := (0 : WithTop Nat) }).cells p).distance
            = ⊤) ⊂ Finset.range g.rows ×ˢ Finset.range g.cols := by
      refine Finset.ssubset_iff_of_subset (Finset.filter_subset _ _) |>.mpr ?_
      refine ⟨s, ?_, ?_⟩
      · rw [Finset.mem_product]
        exact ⟨Finset.mem_range.mpr hs.1, Finset.mem_range.mpr hs.2⟩
      · intro hmem
        rw [Finset.mem_filter] at hmem
        have := hI.hsd
        rw [this] at hmem
        exact wt_ne_top 0 hmem.2
    have h1 := Finset.card_lt_card hsub
    have h2 : (Finset.range g.rows ×ˢ Finset.range g.cols).card =
        g.rows * g.cols := by
      rw [Finset.card_product, Finset.card_range, Finset.card_range]
    simp only [List.length_singleton]
    omega
  obtain ⟨b, gf, stats, hrun, hfalse⟩ :=
    loopGo_total g nid s e hs (g.rows * g.cols + 1) _ hI hm
  have hfacts := loopGo_inv g nid s e hs constFalse constFalse _ _ hI
    b gf stats hrun
  refine ⟨b, gf, stats, hrun, ?_, hfacts.1, hfacts.2.1, hfacts.2.2.1,
    hfacts.2.2.2.2.2.2⟩
  constructor
  · intro hb
    obtain ⟨d, -, hpath, -⟩ := (hfacts.2.2.2.2.2.2 hb).hde
    exact ⟨d, hpath⟩
  · intro hr
    cases b with
    | false => exact absurd hr (hfalse rfl)
    | true => rfl

lemma walkChain_count (gr gf : Grid) (s e : Pos) (hF : FinalOk gr s e gf)
    (hscol : (gf.cells s).color = NODE_START) (de : Nat)
    (hdeq : (gf.cells e).distance = (de : WithTop Nat)) :
    ∀ dc : Nat, ∀ cur, gr.inBounds cur → dc ≤ de →
      (gf.cells cur).distance = (dc : WithTop Nat) →
      ∀ fuel, dc + 1 ≤ fuel → ∀ acc : List Pos, ∀ n : Nat,
      ∃ l : List Pos,
        walkChain gf fuel cur (acc, n) = some (acc ++ l, n + (dc - 1)) ∧
        l.length = dc - 1 := by
  intro dc
  induction dc with
  | zero =>
    intro cur hcb _ hcd fuel hfuel acc n
    obtain ⟨f1, rfl⟩ : ∃ f1, fuel = f1 + 1 := ⟨fuel - 1, by omega⟩
    refine ⟨[], ?_, rfl⟩
    have hch := hF.hchain cur hcb 0 hcd
    rcases hpv : (gf.cells cur).previous with _ | pv
    · simp only [walkChain]
      rw [hpv]
      show some (acc, n) = some (acc ++ [], n + (0 - 1))
      rw [List.append_nil]
      rfl
    · have := (hch.2 pv hpv).1
      omega
  | succ k ih =>
    intro cur hcb hle hcd fuel hfuel acc n
    obtain ⟨f1, rfl⟩ : ∃ f1, fuel = f1 + 1 := ⟨fuel - 1, by omega⟩
    have hch := hF.hchain cur hcb (k + 1) hcd
    rcases hpv : (gf.cells cur).previous with _ | pv
    · have := (hch.1 hpv).2
      omega
    · obtain ⟨-, hpvb, hpvv, hpvd, -⟩ := hch.2 pv hpv
      have hpvd' : (gf.cells pv).distance = (k : WithTop Nat) := hpvd
      rcases Nat.eq_zero_or_pos k with hk0 | hkpos
      · subst hk0
        have hpvs : pv = s := by
          rcases hpw : (gf.cells pv).previous with _ | w
          · exact ((hF.hchain pv hpvb 0 hpvd').1 hpw).1
          · have := ((hF.hchain pv hpvb 0 hpvd').2 w hpw).1
            omega
        refine ⟨[], ?_, rfl⟩
        simp only [walkChain]
        rw [hpv]
        simp only []
        rw [if_neg (by rw [hpvs, hscol]; exact fun h => h rfl)]
        obtain ⟨f2, rfl⟩ : ∃ f2, f1 = f2 + 1 := ⟨f1 - 1, by omega⟩
        simp only [walkChain]
        rw [hpvs, hF.hsp]
        show some (acc, n) = some (acc ++ [], n + (0 + 1 - 1))
        rw [List.append_nil]
        rfl
      · have hpvns : pv ≠ s := by
          intro h
          rw [h, hF.hsd] at hpvd'
          have := wt_eq_iff.mp hpvd'
          omega
        have hpvne : pv ≠ e := by
          intro h
          rw [h, hdeq] at hpvd'
          have := wt_eq_iff.mp hpvd'
          omega
        have hcol : (gf.cells pv).color = NODE_VISITED :=
          hF.hcv pv hpvb hpvv hpvns hpvne
        obtain ⟨l1, hl1, hlen1⟩ := ih pv hpvb (by omega) hpvd' f1 (by omega)
          (acc ++ [pv]) (n + 1)
        refine ⟨pv :: l1, ?_, by rw [List.length_cons]; omega⟩
        simp only [walkChain]
        rw [hpv]
        simp only []
        rw [if_pos (by rw [hcol]; decide)]
        show walkChain gf f1 pv (acc ++ [pv], n + 1) = _
        rw [hl1, List.append_assoc]
        show some (acc ++ (pv :: l1), n + 1 + (k - 1)) = _
        have : n + 1 + (k - 1) = n + (k + 1 - 1) := by omega
        rw [this]

lemma pathAnim_constFalse (len : Nat) :
    ∀ (nodes : List Pos) (fuel : Nat) (g : Grid) (c : Nat),
      nodes.length + 1 ≤ fuel →
      ∃ g2, pathAnim constFalse constFalse len fuel g c nodes =
        some (len, g2) := by
  intro nodes
  induction nodes with
  | nil =>
    intro fuel g c hf
    obtain ⟨f1, rfl⟩ : ∃ f1, fuel = f1 + 1 := ⟨fuel - 1, by omega⟩
    exact ⟨g, rfl⟩
  | cons nd rest ih =>
    intro fuel g c hf
    obtain ⟨f1, rfl⟩ : ∃ f1, fuel = f1 + 1 :=
      ⟨fuel - 1, by rw [List.length_cons] at hf; omega⟩
    rw [List.length_cons] at hf
    obtain ⟨g2, hg2⟩ := ih f1 (g.updateCell nd NodeData.make_path)
      (c + 1 + 1 + 1) (by omega)
    refine ⟨g2, ?_⟩
    simp only [pathAnim]
    rw [if_neg (by simp [constFalse]), pauseWait_constFalse]
    simp only []
    rw [if_neg (by simp [constFalse])]
    exact hg2

lemma reconstruct_run (gr gf : Grid) (s e : Pos) (hF : FinalOk gr s e gf)
    (hscol : (gf.cells s).color = NODE_START) (heb : gr.inBounds e) :
    ∃ (d : Nat) (g2 : Grid),
      (gf.cells e).distance = (d : WithTop Nat) ∧
      gr.pathLen s e d ∧ (∀ m : Nat, gr.pathLen s e m → d ≤ m) ∧
      reconstruct_path gf e constFalse constFalse = some (d - 1, g2) := by
  obtain ⟨d, hdeq, hpath, hmin, hdlt⟩ := hF.hde
  have hdim : gf.rows * gf.cols = gr.rows * gr.cols := by
    rw [hF.hrows, hF.hcols]
  obtain ⟨l, heq, hlen⟩ := walkChain_count gr gf s e hF hscol d hdeq d e heb
    le_rfl hdeq (gf.rows * gf.cols + 1) (by omega) [] 0
  simp only [List.nil_append, Nat.zero_add] at heq
  obtain ⟨g2, hanim⟩ := pathAnim_constFalse (d - 1) l.reverse
    (gf.rows * gf.cols + 1) gf 0
    (by rw [List.length_reverse]; omega)
  refine ⟨d, g2, hdeq, hpath, hmin, ?_⟩
  unfold reconstruct_path
  rw [heq]
  exact hanim

lemma chainEdges_count (gr gf : Grid) (s e : Pos) (hF : FinalOk gr s e gf) :
    ∀ dc : Nat, ∀ cur, gr.inBounds cur →
      (gf.cells cur).distance = (dc : WithTop Nat) →
      ∀ fuel, dc + 1 ≤ fuel → chainEdges gf fuel cur = some dc := by
  intro dc
  induction dc with
  | zero =>
    intro cur hcb hcd fuel hfuel
    obtain ⟨f1, rfl⟩ : ∃ f1, fuel = f1 + 1 := ⟨fuel - 1, by omega⟩
    rcases hpv : (gf.cells cur).previous with _ | pv
    · simp only [chainEdges]
      rw [hpv]
    · have := ((hF.hchain cur hcb 0 hcd).2 pv hpv).1
      omega
  | succ k ih =>
    intro cur hcb hcd fuel hfuel
    obtain ⟨f1, rfl⟩ : ∃ f1, fuel = f1 + 1 := ⟨fuel - 1, by omega⟩
    rcases hpv : (gf.cells cur).previous with _ | pv
    · have := ((hF.hchain cur hcb (k + 1) hcd).1 hpv).2
      omega
    · obtain ⟨-, hpvb, -, hpvd, -⟩ := (hF.hchain cur hcb (k + 1) hcd).2 pv hpv
      have hrec := ih pv hpvb hpvd f1 (by omega)
      simp only [chainEdges]
      rw [hpv]
      simp only []
      rw [hrec]
      rfl

lemma g10_path18 : g10.pathLen (0, 0) (9, 9) 18 :=
  ⟨(0, 1), by decide, (0, 2), by decide, (0, 3), by decide, (0, 4), by decide,
   (0, 5), by decide, (0, 6), by decide, (0, 7), by decide, (0, 8), by decide,
   (0, 9), by decide, (1, 9), by decide, (2, 9), by decide, (3, 9), by decide,
   (4, 9), by decide, (5, 9), by decide, (6, 9), by decide, (7, 9), by decide,
   (8, 9), by decide, (9, 9), by decide, rfl⟩

lemma g10_min18 : ∀ m : Nat, g10.pathLen (0, 0) (9, 9) m → 18 ≤ m := by
  intro m hm
  have h1 := manh_le_pathLen hm
  have h2 : manh ((0, 0) : Pos) ((9, 9) : Pos) = 18 := by decide
  omega

lemma g12_path1 : g12.pathLen (0, 0) (0, 1) 1 :=
  ⟨(0, 1), by decide, rfl⟩

/-- C1: for every grid with in-bounds, non-wall start and end cells, a run of
`Pathfinder.dijkstra` with never-pausing, never-stopping callbacks terminates
and returns `True` exactly when the end cell is reachable from the start cell
by cardinal moves through non-wall cells (so an exhausted queue yields
`False`). -/
theorem dijkstra_true_iff_reachable (g : Grid) (nid : Pos → Nat) (s e : Pos)
    (hs : g.inBounds s) (he : g.inBounds e)
    (hsw : (g.cells s).is_wall = false) (hew : (g.cells e).is_wall = false) :
    ∃ (b : Bool) (gf : Grid) (stats : RunStats),
      dijkstra g (some s) (some e) nid constFalse constFalse =
        some (b, gf, stats) ∧
      (b = true ↔ g.reach s e) := by
  obtain ⟨b, gf, stats, hrun, hiff, -, -, -, -⟩ := dijkstra_run g nid s e hs he
  exact ⟨b, gf, stats, hrun, hiff⟩

theorem dijkstra_true_iff_reachable_witness :
    gEx.inBounds (0, 0) ∧ gEx.inBounds (1, 1) ∧
    (gEx.cells (0, 0)).is_wall = false ∧ (gEx.cells (1, 1)).is_wall = false ∧
    ∃ (b : Bool) (gf : Grid) (stats : RunStats),
      dijkstra gEx (some (0, 0)) (some (1, 1)) nidA constFalse constFalse =
        some (b, gf, stats) ∧
      (b = true ↔ gEx.reach (0, 0) (1, 1)) :=
  ⟨by decide, by decide, by decide, by decide,
   dijkstra_true_iff_reachable gEx nidA (0, 0) (1, 1)
     (by decide) (by decide) (by decide) (by decide)⟩

/-- C2, counterexample: on the 1×2 all-passage grid with start `(0,0)` and end
`(0,1)`, `dijkstra` succeeds, the graph distance from start to end is 1 (and
not 0), yet `reconstruct_path` returns path length 0 — the returned length is
the graph distance minus one, not the graph distance. -/
theorem reconstruct_path_count_counterexample :
    ∃ (gf : Grid) (stats : RunStats) (g2 : Grid),
      dijkstra g12 (some (0, 0)) (some (0, 1)) nidA constFalse constFalse =
        some (true, gf, stats) ∧
      reconstruct_path gf (0, 1) constFalse constFalse = some (0, g2) ∧
      g12.pathLen (0, 0) (0, 1) 1 ∧
      ¬ g12.pathLen (0, 0) (0, 1) 0 := by
  obtain ⟨b, gf, stats, hrun, hiff, -, -, -, hFok⟩ :=
    dijkstra_run g12 nidA (0, 0) (0, 1) (by decide) (by decide)
  have hb : b = true := hiff.mpr ⟨1, g12_path1⟩
  subst hb
  have hF := hFok rfl
  have hscol : (gf.cells (0, 0)).color = NODE_START := by
    rw [hF.hcs]
    decide
  obtain ⟨d, g2, hdeq, hpath, hmin, hrec⟩ :=
    reconstruct_run g12 gf (0, 0) (0, 1) hF hscol (by decide)
  have hd1 : 1 ≤ d := by
    rcases Nat.eq_zero_or_pos d with h0 | h1
    · subst h0
      have : ((0, 0) : Pos) = (0, 1) := hpath
      exact absurd this (by decide)
    · exact h1
  have hd : d = 1 := le_antisymm (hmin 1 g12_path1) hd1
  subst hd
  exact ⟨gf, stats, g2, hrun, hrec, g12_path1,
    fun h => absurd (show ((0, 0) : Pos) = (0, 1) from h) (by decide)⟩

/-- C2, amended: after a successful `dijkstra` run (no pause or stop, start
cell carrying the `NODE_START` color), `reconstruct_path` returns the minimal
graph distance `d` from start to end MINUS ONE (the node next to the start is
the first one counted, the start itself is skipped by the color test); on the
10×10 empty grid from `(0,0)` to `(9,9)` the returned length is 17, not 18. -/
theorem reconstruct_path_graph_distance (g : Grid) (nid : Pos → Nat)
    (s e : Pos) (hs : g.inBounds s) (he : g.inBounds e)
    (hcol : (g.cells s).color = NODE_START)
    (gf : Grid) (stats : RunStats)
    (hrun : dijkstra g (some s) (some e) nid constFalse constFalse =
      some (true, gf, stats)) :
    ∃ (d : Nat) (g2 : Grid),
      g.pathLen s e d ∧ (∀ m : Nat, g.pathLen s e m → d ≤ m) ∧
      reconstruct_path gf e constFalse constFalse = some (d - 1, g2) := by
  obtain ⟨b, gf', stats', hrun', hiff, -, -, -, hFok⟩ :=
    dijkstra_run g nid s e hs he
  rw [hrun] at hrun'
  have h := Option.some.inj hrun'
  have hb : b = true := (congrArg (fun x => x.1) h).symm
  have hgf : gf' = gf := (congrArg (fun x => x.2.1) h).symm
  have hF : FinalOk g s e gf := hgf ▸ hFok hb
  have hscol : (gf.cells s).color = NODE_START := by
    rw [hF.hcs]
    exact hcol
  obtain ⟨d, g2, -, hpath, hmin, hrec⟩ :=
    reconstruct_run g gf s e hF hscol he
  exact ⟨d, g2, hpath, hmin, hrec⟩

theorem reconstruct_path_graph_distance_witness :
    ∃ (gf : Grid) (stats : RunStats) (g2 : Grid),
      dijkstra g10 (some (0, 0)) (some (9, 9)) nidA constFalse constFalse =
        some (true, gf, stats) ∧
      g10.pathLen (0, 0) (9, 9) 18 ∧
      (∀ m : Nat, g10.pathLen (0, 0) (9, 9) m → 18 ≤ m) ∧
      reconstruct_path gf (9, 9) constFalse constFalse = some (17, g2) := by
  obtain ⟨b, gf, stats, hrun, hiff, -, -, -, -⟩ :=
    dijkstra_run g10 nidA (0, 0) (9, 9) (by decide) (by decide)
  have hb : b = true := hiff.mpr ⟨18, g10_path18⟩
  subst hb
  obtain ⟨d, g2, hpath, hmin, hrec⟩ :=
    reconstruct_path_graph_distance g10 nidA (0, 0) (9, 9)
      (by decide) (by decide) (by decide) gf stats hrun
  have hd : d = 18 := le_antisymm (hmin 18 g10_path18) (g10_min18 d hpath)
  subst hd
  exact ⟨gf, stats, g2, hrun, g10_path18, g10_min18, hrec⟩

/-- C3: after a successful `dijkstra` run (end reached, no pause or stop,
start cell carrying the `NODE_START` color), `reconstruct_path` returns the
number of predecessor-chain nodes with the start and the end both excluded
from the count: the chain from the end back to the start has some `k` edges,
and the returned length is `k - 1`. -/
theorem reconstruct_path_edge_count (g : Grid) (nid : Pos → Nat)
    (s e : Pos) (hs : g.inBounds s) (he : g.inBounds e)
    (hcol : (g.cells s).color = NODE_START)
    (gf : Grid) (stats : RunStats)
    (hrun : dijkstra g (some s) (some e) nid constFalse constFalse =
      some (true, gf, stats)) :
    ∃ (k : Nat) (g2 : Grid),
      chainEdges gf (gf.rows * gf.cols + 1) e = some k ∧
      reconstruct_path gf e constFalse constFalse = some (k - 1, g2) := by
  obtain ⟨b, gf', stats', hrun', hiff, -, -, -, hFok⟩ :=
    dijkstra_run g nid s e hs he
  rw [hrun] at hrun'
  have h := Option.some.inj hrun'
  have hb : b = true := (congrArg (fun x => x.1) h).symm
  have hgf : gf' = gf := (congrArg (fun x => x.2.1) h).symm
  have hF : FinalOk g s e gf := hgf ▸ hFok hb
  have hscol : (gf.cells s).color = NODE_START := by
    rw [hF.hcs]
    exact hcol
  obtain ⟨d, g2, hdeq, hpath, hmin, hrec⟩ :=
    reconstruct_run g gf s e hF hscol he
  obtain ⟨d', hdeq', -, -, hdlt⟩ := hF.hde
  have hdd : d = d' := by
    rw [hdeq] at hdeq'
    exact wt_eq_iff.mp hdeq'
  subst hdd
  have hdim : gf.rows * gf.cols = g.rows * g.cols := by
    rw [hF.hrows, hF.hcols]
  have hchain := chainEdges_count g gf s e hF d e he hdeq
    (gf.rows * gf.cols + 1) (by omega)
  exact ⟨d, g2, hchain, hrec⟩

theorem reconstruct_path_edge_count_witness :
    ∃ (gf : Grid) (stats : RunStats) (k : Nat) (g2 : Grid),
      dijkstra g12 (some (0, 0)) (some (0, 1)) nidA constFalse constFalse =
        some (true, gf, stats) ∧
      chainEdges gf (gf.rows * gf.cols + 1) (0, 1) = some k ∧
      reconstruct_path gf (0, 1) constFalse constFalse = some (k - 1, g2) := by
  obtain ⟨b, gf, stats, hrun, hiff, -, -, -, -⟩ :=
    dijkstra_run g12 nidA (0, 0) (0, 1) (by decide) (by decide)
  have hb : b = true := hiff.mpr ⟨1, g12_path1⟩
  subst hb
  obtain ⟨k, g2, hchain, hrec⟩ :=
    reconstruct_path_edge_count g12 nidA (0, 0) (0, 1)
      (by decide) (by decide) (by decide) gf stats hrun
  exact ⟨gf, stats, k, g2, hrun, hchain, hrec⟩

/-- C10: in every terminating run of `dijkstra` — whatever the pause and stop
callbacks do — the sequence of nodes pushed onto the priority queue has no
duplicate (each node enters `unvisited_set` and the heap at most once), the
stale-duplicate branch that discards a popped node absent from
`unvisited_set` is never executed (`stale = 0`), and no queued node ever has
its recorded distance improved (`requeued = 0`). -/
theorem dijkstra_push_at_most_once (g : Grid) (nid : Pos → Nat) (s e : Pos)
    (hs : g.inBounds s) (he : g.inBounds e) (pauses stops : Nat → Bool)
    (b : Bool) (gf : Grid) (stats : RunStats)
    (hrun : dijkstra g (some s) (some e) nid pauses stops =
      some (b, gf, stats)) :
    stats.pushes.Nodup ∧ stats.stale = 0 ∧ stats.requeued = 0 := by
  have hI := dij_init g nid s e hs he
  have hrun' : loopGo nid pauses stops s e (g.rows * g.cols + 1)
      { g := ((dijkstraReset g s e).set_neighbors).updateCell s
          fun n => { n with distance := (0 : WithTop Nat) },
        pq := [((0 : WithTop Nat), nid s, s)], uv := {s}, c := 0,
        stats := { pushes := [s] } } = some (b, gf, stats) := hrun
  have hfacts := loopGo_inv g nid s e hs pauses stops
    (g.rows * g.cols + 1) _ hI b gf stats hrun'
  exact ⟨hfacts.2.2.1, hfacts.1, hfacts.2.1⟩

theorem dijkstra_push_at_most_once_witness :
    ∃ (b : Bool) (gf : Grid) (stats : RunStats),
      dijkstra g12 (some (0, 0)) (some (0, 1)) nidA constFalse constFalse =
        some (b, gf, stats) ∧
      stats.pushes.Nodup ∧ stats.stale = 0 ∧ stats.requeued = 0 := by
  obtain ⟨b, gf, stats, hrun, -, -, -, -, -⟩ :=
    dijkstra_run g12 nidA (0, 0) (0, 1) (by decide) (by decide)
  obtain ⟨h1, h2, h3⟩ := dijkstra_push_at_most_once g12 nidA (0, 0) (0, 1)
    (by decide) (by decide) constFalse constFalse b gf stats hrun
  exact ⟨b, gf, stats, hrun, h1, h2, h3⟩

/-- C9: in the main `dijkstra` loop and in the `reconstruct_path` animation
loop, the stop callback is polled at the top of every iteration and re-polled
after any pause wait; the moment a poll observes `True` the function returns
immediately — `dijkstra` with `False` and `reconstruct_path` with the already
computed length — leaving the grid exactly as it was at that poll (no further
mutation). -/
theorem stop_checked_every_iteration (pauses stops : Nat → Bool)
    (nid : Pos → Nat) (s e : Pos) :
    (∀ (fuel : Nat) (st : LoopState) (x : PQEntry) (rest : List PQEntry),
      st.pq = x :: rest → stops st.c = true →
      loopGo nid pauses stops s e (fuel + 1) st =
        some (false, st.g, st.stats)) ∧
    (∀ (fuel : Nat) (st : LoopState) (x : PQEntry) (rest : List PQEntry)
      (c1 : Nat),
      st.pq = x :: rest → stops st.c = false →
      pauseWait pauses stops (fuel + 1) (st.c + 1) = some c1 →
      stops c1 = true →
      loopGo nid pauses stops s e (fuel + 1) st =
        some (false, st.g, st.stats)) ∧
    (∀ (len fuel : Nat) (g : Grid) (c : Nat) (nd : Pos) (rest : List Pos),
      stops c = true →
      pathAnim pauses stops len (fuel + 1) g c (nd :: rest) =
        some (len, g)) ∧
    (∀ (len fuel : Nat) (g : Grid) (c : Nat) (nd : Pos) (rest : List Pos)
      (c1 : Nat),
      stops c = false →
      pauseWait pauses stops (fuel + 1) (c + 1) = some c1 →
      stops c1 = true →
      pathAnim pauses stops len (fuel + 1) g c (nd :: rest) =
        some (len, g)) := by
  refine ⟨?_, ?_, ?_, ?_⟩
  · rintro fuel st ⟨d0, i0, cur⟩ rest hpq hstop
    rw [loopGo_cons nid pauses stops s e fuel st d0 i0 cur rest hpq,
      if_pos hstop]
  · rintro fuel st ⟨d0, i0, cur⟩ rest c1 hpq hstop hpw hstop2
    rw [loopGo_cons nid pauses stops s e fuel st d0 i0 cur rest hpq,
      if_neg (show ¬stops st.c = true by rw [hstop]; decide), hpw]
    simp only []
    rw [if_pos hstop2]
  · intro len fuel g c nd rest hstop
    simp only [pathAnim]
    rw [if_pos hstop]
  · intro len fuel g c nd rest c1 hstop hpw hstop2
    simp only [pathAnim]
    rw [if_neg (show ¬stops c = true by rw [hstop]; decide), hpw]
    simp only []
    rw [if_pos hstop2]

theorem stop_checked_every_iteration_witness :
    ((fun _ => true : Nat → Bool) 0 = true ∧
      loopGo nidA constFalse (fun _ => true) (0, 0) (0, 1) 1
        { g := g12, pq := [((0 : WithTop Nat), 0, ((0, 0) : Pos))], uv := ∅,
          c := 0, stats := {} } =
        some (false, g12, ({} : RunStats))) ∧
    pathAnim constFalse (fun _ => true) 5 1 g12 0 [(0, 0)] = some (5, g12) :=
  ⟨⟨rfl,
    (stop_checked_every_iteration constFalse (fun _ => true) nidA
        (0, 0) (0, 1)).1 0
      { g := g12, pq := [((0 : WithTop Nat), 0, ((0, 0) : Pos))], uv := ∅,
        c := 0, stats := {} }
      ((0 : WithTop Nat), 0, ((0, 0) : Pos)) [] rfl rfl⟩,
    (stop_checked_every_iteration constFalse (fun _ => true) nidA
        (0, 0) (0, 1)).2.2.1 5 0 g12 0 (0, 0) [] rfl⟩

lemma pqLe_rekey (nid1 nid2 : Pos → Nat)
    (horder : ∀ p q, nid1 p ≤ nid1 q ↔ nid2 p ≤ nid2 q)
    (d : WithTop Nat) (p : Pos) (y : PQEntry) (hy : y.2.1 = nid1 y.2.2) :
    pqLe (d, nid2 p, p) (y.1, nid2 y.2.2, y.2.2) ↔ pqLe (d, nid1 p, p) y := by
  show (d < y.1 ∨ (d = y.1 ∧ nid2 p ≤ nid2 y.2.2)) ↔
    (d < y.1 ∨ (d = y.1 ∧ nid1 p ≤ y.2.1))
  rw [hy, horder p y.2.2]

lemma pqPush_rekey (nid1 nid2 : Pos → Nat)
    (horder : ∀ p q, nid1 p ≤ nid1 q ↔ nid2 p ≤ nid2 q)
    (d : WithTop Nat) (p : Pos) :
    ∀ pq : List PQEntry, (∀ x ∈ pq, x.2.1 = nid1 x.2.2) →
      pqPush (d, nid2 p, p)
          (pq.map (fun x => (x.1, nid2 x.2.2, x.2.2))) =
        (pqPush (d, nid1 p, p) pq).map
          (fun x => (x.1, nid2 x.2.2, x.2.2)) := by
  intro pq
  induction pq with
  | nil => intro _; rfl
  | cons b l ih =>
    intro hmem
    unfold pqPush at *
    rw [List.map_cons]
    simp only [List.orderedInsert]
    by_cases h : pqLe (d, nid1 p, p) b
    · rw [if_pos h,
        if_pos ((pqLe_rekey nid1 nid2 horder d p b
          (hmem b (List.mem_cons_self b l))).mpr h)]
      rfl
    · rw [if_neg h,
        if_neg (fun h2 => h ((pqLe_rekey nid1 nid2 horder d p b
          (hmem b (List.mem_cons_self b l))).mp h2))]
      rw [List.map_cons,
        ih (fun x hx => hmem x (List.mem_cons_of_mem b hx))]

lemma relaxOne_rekey (nid1 nid2 : Pos → Nat)
    (horder : ∀ p q, nid1 p ≤ nid1 q ↔ nid2 p ≤ nid2 q)
    (e cur : Pos) (st1 st2 : LoopState) (nb : Pos)
    (hg : st2.g = st1.g) (huv : st2.uv = st1.uv) (hc : st2.c = st1.c)
    (hst : st2.stats = st1.stats)
    (hpq : st2.pq = st1.pq.map (fun x => (x.1, nid2 x.2.2, x.2.2)))
    (hmem : ∀ x ∈ st1.pq, x.2.1 = nid1 x.2.2) :
    (relaxOne nid2 e cur st2 nb).g = (relaxOne nid1 e cur st1 nb).g ∧
    (relaxOne nid2 e cur st2 nb).uv = (relaxOne nid1 e cur st1 nb).uv ∧
    (relaxOne nid2 e cur st2 nb).c = (relaxOne nid1 e cur st1 nb).c ∧
    (relaxOne nid2 e cur st2 nb).stats = (relaxOne nid1 e cur st1 nb).stats ∧
    (relaxOne nid2 e cur st2 nb).pq =
      (relaxOne nid1 e cur st1 nb).pq.map
        (fun x => (x.1, nid2 x.2.2, x.2.2)) ∧
    (∀ x ∈ (relaxOne nid1 e cur st1 nb).pq, x.2.1 = nid1 x.2.2) := by
  by_cases hv : (st1.g.cells nb).visited = true
  · have hred1 : relaxOne nid1 e cur st1 nb = st1 := by
      unfold relaxOne
      rw [if_pos hv]
    have hred2 : relaxOne nid2 e cur st2 nb = st2 := by
      unfold relaxOne
      rw [hg, if_pos hv]
    rw [hred1, hred2]
    exact ⟨hg, huv, hc, hst, hpq, hmem⟩
  · by_cases himp : (st1.g.cells cur).distance + 1 < (st1.g.cells nb).distance
    · by_cases hin : nb ∈ st1.uv
      · have hred1 : relaxOne nid1 e cur st1 nb =
            { st1 with
                g := st1.g.updateCell nb fun n =>
                  { n with distance := (st1.g.cells cur).distance + 1,
                           previous := some cur }
                stats := { st1.stats with
                  requeued := st1.stats.requeued + 1 } } := by
          unfold relaxOne
          rw [if_neg hv, if_pos himp, if_pos hin]
        have hred2 : relaxOne nid2 e cur st2 nb =
            { g := st1.g.updateCell nb fun n =>
                { n with distance := (st1.g.cells cur).distance + 1,
                         previous := some cur },
              pq := st1.pq.map (fun x => (x.1, nid2 x.2.2, x.2.2)),
              uv := st1.uv,
              c := st1.c,
              stats := { st1.stats with
                requeued := st1.stats.requeued + 1 } } := by
          unfold relaxOne
          rw [hg, huv, hc, hst, hpq, if_neg hv, if_pos himp, if_pos hin]
        rw [hred1, hred2]
        exact ⟨rfl, rfl, rfl, rfl, rfl, hmem⟩
      · have hred1 : relaxOne nid1 e cur st1 nb =
            { st1 with
                g := if nb = e
                  then st1.g.updateCell nb fun n =>
                    { n with distance := (st1.g.cells cur).distance + 1,
                             previous := some cur }
                  else (st1.g.updateCell nb fun n =>
                    { n with distance := (st1.g.cells cur).distance + 1,
                             previous := some cur }).updateCell nb
                      NodeData.make_unvisited_neighbor,
                uv := insert nb st1.uv,
                pq := pqPush ((st1.g.cells cur).distance + 1, nid1 nb, nb)
                  st1.pq,
                stats := { st1.stats with
                  pushes := st1.stats.pushes ++ [nb] } } := by
          unfold relaxOne
          rw [if_neg hv, if_pos himp, if_neg hin]
        have hred2 : relaxOne nid2 e cur st2 nb =
            { g := if nb = e
                then st1.g.updateCell nb fun n =>
                  { n with distance := (st1.g.cells cur).distance + 1,
                           previous := some cur }
                else (st1.g.updateCell nb fun n =>
                  { n with distance := (st1.g.cells cur).distance + 1,
                           previous := some cur }).updateCell nb
                    NodeData.make_unvisited_neighbor,
              pq := pqPush ((st1.g.cells cur).distance + 1, nid2 nb, nb)
                (st1.pq.map (fun x => (x.1, nid2 x.2.2, x.2.2))),
              uv := insert nb st1.uv,
              c := st1.c,
              stats := { st1.stats with
                pushes := st1.stats.pushes ++ [nb] } } := by
          unfold relaxOne
          rw [hg, huv, hc, hst, hpq, if_neg hv, if_pos himp, if_neg hin]
        rw [hred1, hred2]
        refine ⟨rfl, rfl, rfl, rfl, ?_, ?_⟩
        · exact pqPush_rekey nid1 nid2 horder
            ((st1.g.cells cur).distance + 1) nb st1.pq hmem
        · intro x hx
          rcases pqPush_mem.mp hx with rfl | hx2
          · rfl
          · exact hmem x hx2
    · have hred1 : relaxOne nid1 e cur st1 nb = st1 := by
        unfold relaxOne
        rw [if_neg hv, if_neg himp]
      have hred2 : relaxOne nid2 e cur st2 nb = st2 := by
        unfold relaxOne
        rw [hg, if_neg hv, if_neg himp]
      rw [hred1, hred2]
      exact ⟨hg, huv, hc, hst, hpq, hmem⟩

lemma relaxFold_rekey (nid1 nid2 : Pos → Nat)
    (horder : ∀ p q, nid1 p ≤ nid1 q ↔ nid2 p ≤ nid2 q) (e cur : Pos) :
    ∀ (nbs : List Pos) (st1 st2 : LoopState),
      st2.g = st1.g → st2.uv = st1.uv → st2.c = st1.c →
      st2.stats = st1.stats →
      st2.pq = st1.pq.map (fun x => (x.1, nid2 x.2.2, x.2.2)) →
      (∀ x ∈ st1.pq, x.2.1 = nid1 x.2.2) →
      (nbs.foldl (relaxOne nid2 e cur) st2).g =
        (nbs.foldl (relaxOne nid1 e cur) st1).g ∧
      (nbs.foldl (relaxOne nid2 e cur) st2).uv =
        (nbs.foldl (relaxOne nid1 e cur) st1).uv ∧
      (nbs.foldl (relaxOne nid2 e cur) st2).c =
        (nbs.foldl (relaxOne nid1 e cur) st1).c ∧
      (nbs.foldl (relaxOne nid2 e cur) st2).stats =
        (nbs.foldl (relaxOne nid1 e cur) st1).stats ∧
      (nbs.foldl (relaxOne nid2 e cur) st2).pq =
        (nbs.foldl (relaxOne nid1 e cur) st1).pq.map
          (fun x => (x.1, nid2 x.2.2, x.2.2)) ∧
      (∀ x ∈ (nbs.foldl (relaxOne nid1 e cur) st1).pq,
        x.2.1 = nid1 x.2.2) := by
  intro nbs
  induction nbs with
  | nil =>
    intro st1 st2 hg huv hc hst hpq hmem
    exact ⟨hg, huv, hc, hst, hpq, hmem⟩
  | cons nb nbs ih =>
    intro st1 st2 hg huv hc hst hpq hmem
    obtain ⟨h1, h2, h3, h4, h5, h6⟩ :=
      relaxOne_rekey nid1 nid2 horder e cur st1 st2 nb hg huv hc hst hpq hmem
    exact ih (relaxOne nid1 e cur st1 nb) (relaxOne nid2 e cur st2 nb)
      h1 h2 h3 h4 h5 h6

lemma loopGo_rekey (nid1 nid2 : Pos → Nat)
    (horder : ∀ p q, nid1 p ≤ nid1 q ↔ nid2 p ≤ nid2 q)
    (pauses stops : Nat → Bool) (s e : Pos) :
    ∀ (fuel : Nat) (st1 st2 : LoopState),
      st2.g = st1.g → st2.uv = st1.uv → st2.c = st1.c →
      st2.stats = st1.stats →
      st2.pq = st1.pq.map (fun x => (x.1, nid2 x.2.2, x.2.2)) →
      (∀ x ∈ st1.pq, x.2.1 = nid1 x.2.2) →
      loopGo nid2 pauses stops s e fuel st2 =
        loopGo nid1 pauses stops s e fuel st1 := by
  intro fuel
  induction fuel with
  | zero =>
    intro st1 st2 _ _ _ _ _ _
    rfl
  | succ fuel ih =>
    intro st1 st2 hg huv hc hst hpq hmem
    rcases hpq1 : st1.pq with _ | ⟨⟨d0, i0, cur⟩, rest⟩
    · have hpq2 : st2.pq = [] := by
        rw [hpq, hpq1]
        rfl
      rw [loopGo_nil nid1 pauses stops s e fuel st1 hpq1,
        loopGo_nil nid2 pauses stops s e fuel st2 hpq2, hg, hst]
    · have hpq2 : st2.pq =
          (d0, nid2 cur, cur) :: rest.map (fun x => (x.1, nid2 x.2.2, x.2.2)) := by
        rw [hpq, hpq1]
        rfl
      have hmemr : ∀ x ∈ rest, x.2.1 = nid1 x.2.2 := by
        intro x hx
        exact hmem x (by rw [hpq1]; exact List.mem_cons_of_mem _ hx)
      rw [loopGo_cons nid1 pauses stops s e fuel st1 d0 i0 cur rest hpq1,
        loopGo_cons nid2 pauses stops s e fuel st2 d0 (nid2 cur) cur
          (rest.map (fun x => (x.1, nid2 x.2.2, x.2.2))) hpq2,
        hg, huv, hc, hst]
      by_cases hstop : stops st1.c = true
      · rw [if_pos hstop, if_pos hstop]
      · rw [if_neg hstop, if_neg hstop]
        rcases hpw : pauseWait pauses stops (fuel + 1) (st1.c + 1)
          with _ | c1
        · rfl
        · simp only []
          by_cases hstop2 : stops c1 = true
          · rw [if_pos hstop2, if_pos hstop2]
          · rw [if_neg hstop2, if_neg hstop2]
            by_cases hcuv : cur ∈ st1.uv
            · rw [if_pos hcuv, if_pos hcuv]
              by_cases hce : cur = e
              · rw [if_pos hce, if_pos hce]
              · rw [if_neg hce, if_neg hce]
                by_cases hcs : cur = s
                · rw [if_pos hcs, if_pos hcs]
                  have hF := relaxFold_rekey nid1 nid2 horder e cur
                    (((st1.g.updateCell cur fun n =>
                      { n with visited := true }).cells cur).neighbors)
                    { g := st1.g.updateCell cur fun n =>
                        { n with visited := true },
                      pq := rest, uv := st1.uv.erase cur, c := c1 + 1,
                      stats := { st1.stats with
                        pops := st1.stats.pops ++ [cur] } }
                    { g := st1.g.updateCell cur fun n =>
                        { n with visited := true },
                      pq := rest.map (fun x => (x.1, nid2 x.2.2, x.2.2)),
                      uv := st1.uv.erase cur, c := c1 + 1,
                      stats := { st1.stats with
                        pops := st1.stats.pops ++ [cur] } }
                    rfl rfl rfl rfl rfl hmemr
                  exact ih _ _ hF.1 hF.2.1 hF.2.2.1 hF.2.2.2.1
                    hF.2.2.2.2.1 hF.2.2.2.2.2
                · rw [if_neg hcs, if_neg hcs]
                  have hF := relaxFold_rekey nid1 nid2 horder e cur
                    ((((st1.g.updateCell cur fun n =>
                      { n with visited := true }).updateCell cur
                        NodeData.make_visited).cells cur).neighbors)
                    { g := (st1.g.updateCell cur fun n =>
                        { n with visited := true }).updateCell cur
                          NodeData.make_visited,
                      pq := rest, uv := st1.uv.erase cur, c := c1 + 1,
                      stats := { st1.stats with
                        pops := st1.stats.pops ++ [cur] } }
                    { g := (st1.g.updateCell cur fun n =>
                        { n with visited := true }).updateCell cur
                          NodeData.make_visited,
                      pq := rest.map (fun x => (x.1, nid2 x.2.2, x.2.2)),
                      uv := st1.uv.erase cur, c := c1 + 1,
                      stats := { st1.stats with
                        pops := st1.stats.pops ++ [cur] } }
                    rfl rfl rfl rfl rfl hmemr
                  exact ih _ _ hF.1 hF.2.1 hF.2.2.1 hF.2.2.2.1
                    hF.2.2.2.2.1 hF.2.2.2.2.2
            · rw [if_neg hcuv, if_neg hcuv]
              exact ih _ _ rfl rfl rfl rfl rfl hmemr

/-- C8: `dijkstra` is deterministic for a fixed grid, start, end, and
tie-break ordering.  The tie-break `unique_id` enters only through the
`(distance, unique_id, node)` heap keys: any two id assignments that order
the nodes the same way yield literally identical runs — the same sequence of
popped cells (`stats.pops`), the same final grid (hence identical `distance`
and `previous` fields on every node), and the same returned result. -/
theorem dijkstra_deterministic (g : Grid) (s e : Pos) (nid1 nid2 : Pos → Nat)
    (horder : ∀ p q, nid1 p ≤ nid1 q ↔ nid2 p ≤ nid2 q)
    (pauses stops : Nat → Bool) :
    dijkstra g (some s) (some e) nid2 pauses stops =
      dijkstra g (some s) (some e) nid1 pauses stops := by
  exact loopGo_rekey nid1 nid2 horder pauses stops s e (g.rows * g.cols + 1)
    { g := ((dijkstraReset g s e).set_neighbors).updateCell s
        fun n => { n with distance := (0 : WithTop Nat) },
      pq := [((0 : WithTop Nat), nid1 s, s)], uv := {s}, c := 0,
      stats := { pushes := [s] } }
    { g := ((dijkstraReset g s e).set_neighbors).updateCell s
        fun n => { n with distance := (0 : WithTop Nat) },
      pq := [((0 : WithTop Nat), nid2 s, s)], uv := {s}, c := 0,
      stats := { pushes := [s] } }
    rfl rfl rfl rfl rfl
    (fun x hx => by
      have hx2 : x ∈ [(((0 : Nat) : WithTop Nat), nid1 s, s)] := hx
      rw [List.mem_singleton] at hx2
      subst hx2
      rfl)

theorem dijkstra_deterministic_witness :
    (∀ p q : Pos, nidA p ≤ nidA q ↔ nidB p ≤ nidB q) ∧
    dijkstra g12 (some (0, 0)) (some (0, 1)) nidB constFalse constFalse =
      dijkstra g12 (some (0, 0)) (some (0, 1)) nidA constFalse constFalse :=
  ⟨fun p q => by simp only [nidA, nidB]; omega,
   dijkstra_deterministic g12 (0, 0) (0, 1) nidA nidB
     (fun p q => by simp only [nidA, nidB]; omega) constFalse constFalse⟩

lemma pathLen_mono (gw gw' : Grid) (hr : gw'.rows = gw.rows)
    (hc : gw'.cols = gw.cols)
    (hw : ∀ q : Pos, (gw.cells q).is_wall = false →
      (gw'.cells q).is_wall = false) :
    ∀ (n : Nat) (p q : Pos), gw.pathLen p q n → gw'.pathLen p q n := by
  intro n
  induction n with
  | zero =>
    intro p q h
    exact h
  | succ n ih =>
    rintro p q ⟨u, hs, hp⟩
    refine ⟨u, ⟨?_, hw u hs.2.1, hs.2.2⟩, ih u q hp⟩
    show u.1 < gw'.rows ∧ u.2 < gw'.cols
    rw [hr, hc]
    exact hs.1

lemma rbHeadPen_le (vis : Finset (Int × Int)) (stk : List (Int × Int)) :
    rbHeadPen vis stk ≤ 2 := by
  cases stk with
  | nil => exact Nat.zero_le 2
  | cons x l =>
    show (if x ∈ vis then 2 else 0) ≤ 2
    split_ifs <;> omega

lemma rbNeighbors_small (g : Grid) (vis : Finset (Int × Int)) (cr cc : Int)
    (h : (g.rows : Int) ≤ 2 ∨ (g.cols : Int) ≤ 2) :
    rbNeighbors g vis cr cc = [] := by
  unfold rbNeighbors
  rw [List.filterMap_eq_nil_iff]
  intro d _
  rw [if_neg]
  rintro ⟨h1, h2, h3, h4, -⟩
  omega

lemma rbNeighbors_congr (g g' : Grid) (vis : Finset (Int × Int)) (cr cc : Int)
    (hr : g'.rows = g.rows) (hc : g'.cols = g.cols) :
    rbNeighbors g' vis cr cc = rbNeighbors g vis cr cc := by
  unfold rbNeighbors
  rw [hr, hc]

lemma mem_rbNeighbors {g : Grid} {vis : Finset (Int × Int)} {cr cc : Int}
    {x : Int × Int × Int × Int} (h : x ∈ rbNeighbors g vis cr cc) :
    x.2.2 ∈ directions2 ∧ x.1 = cr + x.2.2.1 ∧ x.2.1 = cc + x.2.2.2 ∧
    1 ≤ x.1 ∧ x.1 < (g.rows : Int) - 1 ∧ 1 ≤ x.2.1 ∧
    x.2.1 < (g.cols : Int) - 1 ∧ (x.1, x.2.1) ∉ vis := by
  unfold rbNeighbors at h
  rw [List.mem_filterMap] at h
  obtain ⟨d, hd, hx⟩ := h
  split_ifs at hx with hcond
  cases hx
  exact ⟨hd, rfl, rfl, hcond.1, hcond.2.1, hcond.2.2.1, hcond.2.2.2.1,
    hcond.2.2.2.2⟩

lemma hcon_extend (gw gw' : Grid) (w : Pos)
    (hr : gw'.rows = gw.rows) (hc : gw'.cols = gw.cols)
    (hcells : ∀ q : Pos, q ≠ w → gw'.cells q = gw.cells q)
    (hwall : (gw'.cells w).is_wall = false)
    (hwb : gw'.inBounds w)
    (hcon : ∀ p q : Pos, gw.inBounds p → gw.inBounds q →
      (gw.cells p).is_wall = false → (gw.cells q).is_wall = false →
      gw.reach p q)
    (hex : (∃ u : Pos, u ≠ w ∧ gw.inBounds u ∧
        (gw.cells u).is_wall = false ∧
        ((u.1 = w.1 ∧ (u.2 = w.2 + 1 ∨ w.2 = u.2 + 1)) ∨
         (u.2 = w.2 ∧ (u.1 = w.1 + 1 ∨ w.1 = u.1 + 1)))) ∨
      (∀ p : Pos, gw.inBounds p → (gw.cells p).is_wall = true)) :
    ∀ p q : Pos, gw'.inBounds p → gw'.inBounds q →
      (gw'.cells p).is_wall = false → (gw'.cells q).is_wall = false →
      gw'.reach p q := by
  have hwmono : ∀ q : Pos, (gw.cells q).is_wall = false →
      (gw'.cells q).is_wall = false := by
    intro q hq
    by_cases h : q = w
    · rw [h]
      exact hwall
    · rw [hcells q h]
      exact hq
  have hbt : ∀ p : Pos, gw'.inBounds p → gw.inBounds p := by
    intro p hp
    have h1 : p.1 < gw'.rows ∧ p.2 < gw'.cols := hp
    rw [hr, hc] at h1
    exact h1
  have hbt' : ∀ p : Pos, gw.inBounds p → gw'.inBounds p := by
    intro p hp
    have h1 : p.1 < gw.rows ∧ p.2 < gw.cols := hp
    show p.1 < gw'.rows ∧ p.2 < gw'.cols
    rw [hr, hc]
    exact h1
  intro p q hpb hqb hpw hqw
  by_cases hp : p = w
  · by_cases hq : q = w
    · rw [hp, hq]
      exact ⟨0, rfl⟩
    · rw [hcells q hq] at hqw
      rcases hex with ⟨u, hune, hub, huw, hadj⟩ | hall
      · obtain ⟨n, hn⟩ := hcon u q hub (hbt q hqb) huw hqw
        refine ⟨n + 1, u, ⟨hbt' u hub, ?_, ?_⟩,
          pathLen_mono gw gw' hr hc hwmono n u q hn⟩
        · rw [hcells u hune]
          exact huw
        · rw [hp]
          rcases hadj with ⟨h1, h2⟩ | ⟨h1, h2⟩
          · exact Or.inl ⟨h1, by omega⟩
          · exact Or.inr ⟨h1, by omega⟩
      · exact absurd (hall q (hbt q hqb)) (by rw [hqw]; exact Bool.noConfusion)
  · by_cases hq : q = w
    · rw [hcells p hp] at hpw
      rcases hex with ⟨u, hune, hub, huw, hadj⟩ | hall
      · obtain ⟨n, hn⟩ := hcon p u (hbt p hpb) hub hpw huw
        refine ⟨n + 1,
          pathLen_snoc (pathLen_mono gw gw' hr hc hwmono n p u hn) ?_⟩
        refine ⟨hq ▸ hwb, hq ▸ hwall, ?_⟩
        rw [hq]
        rcases hadj with ⟨h1, h2⟩ | ⟨h1, h2⟩
        · exact Or.inl ⟨h1.symm, by omega⟩
        · exact Or.inr ⟨h1.symm, by omega⟩
      · exact absurd (hall p (hbt p hpb)) (by rw [hpw]; exact Bool.noConfusion)
    · rw [hcells p hp] at hpw
      rw [hcells q hq] at hqw
      obtain ⟨n, hn⟩ := hcon p q (hbt p hpb) (hbt q hqb) hpw hqw
      exact ⟨n, pathLen_mono gw gw' hr hc hwmono n p q hn⟩

lemma rbLoop_body (oracle : Nat → Nat) (fuel : Nat) (gw : Grid)
    (vis : Finset (Int × Int)) (cur : Int × Int) (rest : List (Int × Int))
    (t : Nat) (vis2 : Finset (Int × Int)) (gw2 : Grid)
    (hvg : ((if cur ∉ vis then
        (insert cur vis,
          match gw.get_node cur.1 cur.2 with
          | some p => gw.updateCell p NodeData.reset
          | none => gw)
      else (vis, gw)) : Finset (Int × Int) × Grid) = (vis2, gw2)) :
    rbLoop oracle (fuel + 1) gw vis (cur :: rest) t =
      (let nbrs := rbNeighbors gw2 vis2 cur.1 cur.2
       if h : nbrs = [] then rbLoop oracle fuel gw2 vis2 rest t
       else
         let pick := nbrs.get ⟨oracle t % nbrs.length,
           Nat.mod_lt _ (List.length_pos.mpr h)⟩
         rbLoop oracle fuel
           (match gw2.get_node (cur.1 + pick.2.2.1 / 2)
               (cur.2 + pick.2.2.2 / 2) with
            | some p => gw2.updateCell p NodeData.reset
            | none => gw2)
           vis2 ((pick.1, pick.2.1) :: cur :: rest) (t + 1)) := by
  have h1 : vis2 = ((if cur ∉ vis then
      (insert cur vis,
        match gw.get_node cur.1 cur.2 with
        | some p => gw.updateCell p NodeData.reset
        | none => gw)
    else (vis, gw)) : Finset (Int × Int) × Grid).1 := by
    rw [hvg]
  have h2 : gw2 = ((if cur ∉ vis then
      (insert cur vis,
        match gw.get_node cur.1 cur.2 with
        | some p => gw.updateCell p NodeData.reset
        | none => gw)
    else (vis, gw)) : Finset (Int × Int) × Grid).2 := by
    rw [hvg]
  subst h1
  subst h2
  rfl

lemma rb_inBounds_iff (g gw : Grid) (hr : gw.rows = g.rows)
    (hc : gw.cols = g.cols) (p : Pos) :
    gw.inBounds p ↔ g.inBounds p := by
  unfold Grid.inBounds
  rw [hr, hc]

lemma rb_curCand (g : Grid) (X0 : Int × Int) (cur : Int × Int)
    (hcs : cur = X0 ∨ inBorderZ g cur) : cur ∈ visCand g X0 := by
  rcases hcs with rfl | hint
  · exact Finset.mem_insert_self _ _
  · refine Finset.mem_insert_of_mem ?_
    rw [Finset.mem_product]
    obtain ⟨h1, h2, h3, h4⟩ := hint
    exact ⟨Finset.mem_Icc.mpr ⟨h1, by omega⟩, Finset.mem_Icc.mpr ⟨h3, by omega⟩⟩

lemma rb_stage1 (g : Grid) (X0 : Int × Int) (gw : Grid)
    (vis : Finset (Int × Int)) (cur : Int × Int) (rest : List (Int × Int))
    (hI : RBInv g X0 gw vis (cur :: rest)) (hv : cur ∉ vis) (gw2 : Grid)
    (hg2 : gw2 = (match gw.get_node cur.1 cur.2 with
      | some p => gw.updateCell p NodeData.reset
      | none => gw)) :
    RBInv g X0 gw2 (insert cur vis) (cur :: rest) := by
  have hcurhead : cur ∈ cur :: rest := List.mem_cons_self _ _
  have hvsub2 : insert cur vis ⊆ visCand g X0 := by
    intro x hx
    rcases Finset.mem_insert.mp hx with rfl | hx2
    · exact rb_curCand g X0 x (hI.hstk x hcurhead)
    · exact hI.hvsub hx2
  have hstkv2 : ∀ x ∈ (cur :: rest).drop 1, x ∈ insert cur vis := by
    intro x hx
    exact Finset.mem_insert_of_mem (hI.hstkv x hx)
  rcases hgn : gw.get_node cur.1 cur.2 with _ | p
  · rw [hgn] at hg2
    simp only [] at hg2
    refine
      { hrows := by rw [hg2]; exact hI.hrows
        hcols := by rw [hg2]; exact hI.hcols
        hstk := hI.hstk
        hvsub := hvsub2
        hstkv := hstkv2
        hvisw := ?_
        hhead := ?_
        hX0f := ?_
        hcon := by rw [hg2]; exact hI.hcon }
    · intro v hvm p hpc hpb
      rw [hg2] at hpb
      rw [hg2]
      rcases Finset.mem_insert.mp hvm with rfl | hv2
      · exfalso
        have e1 : (p.1 : Int) = v.1 := congrArg Prod.fst hpc
        have e2 : (p.2 : Int) = v.2 := congrArg Prod.snd hpc
        have : gw.get_node v.1 v.2 = some p := by
          rw [get_node_eq_some]
          obtain ⟨hb1, hb2⟩ := hpb
          refine ⟨by omega, by omega, by omega, by omega, ?_⟩
          refine Prod.ext ?_ ?_
          · show p.1 = v.1.toNat
            omega
          · show p.2 = v.2.toNat
            omega
        rw [hgn] at this
        exact Option.noConfusion this
      · exact hI.hvisw v hv2 p hpc hpb
    · intro x hx hnx
      have hnx2 : x ∉ vis := fun h2 =>
        hnx (Finset.mem_insert_of_mem h2)
      rw [hg2]
      exact hI.hhead x hx hnx2
    · rcases hI.hX0f with h1 | h2
      · exact Or.inl (Finset.mem_insert_of_mem h1)
      · refine Or.inr ?_
        rw [hg2]
        exact h2
  · rw [hgn] at hg2
    simp only [] at hg2
    obtain ⟨hb1, hb2, hb3, hb4, hpdef⟩ := get_node_eq_some.mp hgn
    have hpc1 : (p.1 : Int) = cur.1 := by
      rw [hpdef]
      exact Int.toNat_of_nonneg hb1
    have hpc2 : (p.2 : Int) = cur.2 := by
      rw [hpdef]
      exact Int.toNat_of_nonneg hb3
    have hpb : gw.inBounds p := by
      constructor
      · omega
      · omega
    have hwmono : ∀ q : Pos, (gw.cells q).is_wall = false →
        (gw2.cells q).is_wall = false := by
      intro q hq
      by_cases hqp : q = p
      · rw [hg2, hqp, updateCell_cells_self]
        rfl
      · rw [hg2, updateCell_cells_of_ne gw p NodeData.reset hqp]
        exact hq
    have hrows2 : gw2.rows = g.rows := by
      rw [hg2, updateCell_rows]
      exact hI.hrows
    have hcols2 : gw2.cols = g.cols := by
      rw [hg2, updateCell_cols]
      exact hI.hcols
    have hb2iff : ∀ q : Pos, gw2.inBounds q ↔ gw.inBounds q := by
      intro q
      rw [rb_inBounds_iff g gw2 hrows2 hcols2 q,
        rb_inBounds_iff g gw hI.hrows hI.hcols q]
    refine
      { hrows := hrows2
        hcols := hcols2
        hstk := hI.hstk
        hvsub := hvsub2
        hstkv := hstkv2
        hvisw := ?_
        hhead := ?_
        hX0f := ?_
        hcon := ?_ }
    · intro v hvm q hqc hqb
      rcases Finset.mem_insert.mp hvm with rfl | hv2
      · have e1 : (q.1 : Int) = v.1 := congrArg Prod.fst hqc
        have e2 : (q.2 : Int) = v.2 := congrArg Prod.snd hqc
        have hqp : q = p := by
          rw [hpdef]
          refine Prod.ext ?_ ?_
          · omega
          · omega
        rw [hg2, hqp, updateCell_cells_self]
        rfl
      · exact hwmono q (hI.hvisw v hv2 q hqc ((hb2iff q).mp hqb))
    · intro x hx hnx
      have hnx2 : x ∉ vis := fun h2 => hnx (Finset.mem_insert_of_mem h2)
      rcases hI.hhead x hx hnx2 with h1 | ⟨mp, hmpb, hmpw, hadj⟩
      · exact Or.inl h1
      · exact Or.inr ⟨mp, (hb2iff mp).mpr hmpb, hwmono mp hmpw, hadj⟩
    · rcases hI.hX0f with h1 | h2
      · exact Or.inl (Finset.mem_insert_of_mem h1)
      · rcases hI.hhead cur hcurhead hv with rfl | ⟨mp, hmpb, hmpw, hadj⟩
        · exact Or.inl (Finset.mem_insert_self _ _)
        · exact absurd (h2 mp hmpb) (by rw [hmpw]; exact Bool.noConfusion)
    · rw [hg2]
      refine hcon_extend gw (gw.updateCell p NodeData.reset) p
        (updateCell_rows gw p NodeData.reset)
        (updateCell_cols gw p NodeData.reset)
        (fun q hq => updateCell_cells_of_ne gw p NodeData.reset hq)
        (by rw [updateCell_cells_self]; rfl)
        ((rb_inBounds_iff g _ (hI.hrows) (hI.hcols) p).mpr
          ((rb_inBounds_iff g gw hI.hrows hI.hcols p).mp hpb))
        hI.hcon ?_
      rcases hI.hhead cur hcurhead hv with rfl | ⟨mp, hmpb, hmpw, hadj⟩
      · rcases hI.hX0f with h1 | h2
        · exact absurd h1 hv
        · exact Or.inr h2
      · refine Or.inl ⟨mp, ?_, hmpb, hmpw, ?_⟩
        · intro hmp
          rw [hmp] at hadj
          omega
        · omega

lemma rbLoop_master (g : Grid) (X0 : Int × Int) (oracle : Nat → Nat)
    (hX0 : (0 ≤ X0.1 ∧ X0.1 < (g.rows : Int) ∧ 0 ≤ X0.2 ∧
        X0.2 < (g.cols : Int)) ∨
      ((g.rows : Int) ≤ 2 ∨ (g.cols : Int) ≤ 2)) :
    ∀ (fuel : Nat) (gw : Grid) (vis : Finset (Int × Int))
      (stk : List (Int × Int)) (t : Nat),
      RBInv g X0 gw vis stk → rbMeasure g X0 vis stk < fuel →
      ∃ gm vism, rbLoop oracle fuel gw vis stk t = some (gm, vism) ∧
        RBInv g X0 gm vism [] := by
  intro fuel
  induction fuel with
  | zero =>
    intro gw vis stk t hI hm
    omega
  | succ fuel ih =>
    intro gw vis stk t hI hm
    cases stk with
    | nil => exact ⟨gw, vis, rfl, hI⟩
    | cons cur rest =>
      have hcurhead : cur ∈ cur :: rest := List.mem_cons_self _ _
      have hstage1 : ∃ (vis2 : Finset (Int × Int)) (gw2 : Grid),
          ((if cur ∉ vis then
              (insert cur vis,
                match gw.get_node cur.1 cur.2 with
                | some p => gw.updateCell p NodeData.reset
                | none => gw)
            else (vis, gw)) : Finset (Int × Int) × Grid) = (vis2, gw2) ∧
          RBInv g X0 gw2 vis2 (cur :: rest) ∧ cur ∈ vis2 ∧
          3 * ((visCand g X0) \ vis2).card + 2 ≤
            3 * ((visCand g X0) \ vis).card +
              rbHeadPen vis (cur :: rest) := by
        by_cases hv : cur ∈ vis
        · refine ⟨vis, gw, by rw [if_neg (not_not_intro hv)], hI, hv, ?_⟩
          have hpen : rbHeadPen vis (cur :: rest) = 2 := by
            show (if cur ∈ vis then 2 else 0) = 2
            rw [if_pos hv]
          omega
        · refine ⟨insert cur vis, _, by rw [if_pos hv],
            rb_stage1 g X0 gw vis cur rest hI hv _ rfl,
            Finset.mem_insert_self _ _, ?_⟩
          have hc1 : cur ∈ visCand g X0 \ vis :=
            Finset.mem_sdiff.mpr
              ⟨rb_curCand g X0 cur (hI.hstk cur hcurhead), hv⟩
          have hc2 : visCand g X0 \ insert cur vis =
              (visCand g X0 \ vis).erase cur := by
            rw [Finset.sdiff_insert]
          rw [hc2, Finset.card_erase_of_mem hc1]
          have hc3 : 1 ≤ (visCand g X0 \ vis).card :=
            Finset.card_pos.mpr ⟨cur, hc1⟩
          omega
      obtain ⟨vis2, gw2, hvg, hI2, hcurv2, hA⟩ := hstage1
      rw [rbLoop_body oracle fuel gw vis cur rest t vis2 gw2 hvg]
      simp only []
      by_cases hnb : rbNeighbors gw2 vis2 cur.1 cur.2 = []
      · rw [dif_pos hnb]
        refine ih gw2 vis2 rest t ?_ ?_
        · exact
            { hrows := hI2.hrows
              hcols := hI2.hcols
              hstk := fun x hx => hI2.hstk x (List.mem_cons_of_mem _ hx)
              hvsub := hI2.hvsub
              hstkv := fun x hx => hI2.hstkv x (List.mem_of_mem_drop hx)
              hvisw := hI2.hvisw
              hhead := fun x hx hnx => absurd (hI2.hstkv x hx) hnx
              hX0f := hI2.hX0f
              hcon := hI2.hcon }
        · unfold rbMeasure at hm ⊢
          simp only [List.length_cons] at hm
          have hp2 := rbHeadPen_le vis2 rest
          omega
      · rw [dif_neg hnb]
        have hr2 : (gw2.rows : Int) = (g.rows : Int) := by
          rw [hI2.hrows]
        have hc2 : (gw2.cols : Int) = (g.cols : Int) := by
          rw [hI2.hcols]
        have hpickmem := List.get_mem (rbNeighbors gw2 vis2 cur.1 cur.2)
          (oracle t % (rbNeighbors gw2 vis2 cur.1 cur.2).length)
          (Nat.mod_lt _ (List.length_pos.mpr hnb))
        set pick := (rbNeighbors gw2 vis2 cur.1 cur.2).get
          ⟨oracle t % (rbNeighbors gw2 vis2 cur.1 cur.2).length,
            Nat.mod_lt _ (List.length_pos.mpr hnb)⟩ with hpickdef
        obtain ⟨hd, hf1, hf2, hf3, hf4, hf5, hf6, hf7⟩ :=
          mem_rbNeighbors hpickmem
        rw [hr2] at hf4
        rw [hc2] at hf6
        have hcurb : 0 ≤ cur.1 ∧ cur.1 < (g.rows : Int) ∧ 0 ≤ cur.2 ∧
            cur.2 < (g.cols : Int) := by
          rcases hI2.hstk cur hcurhead with rfl | hint
          · rcases hX0 with hb | hsmall
            · exact hb
            · exact absurd
                (rbNeighbors_small gw2 vis2 cur.1 cur.2
                  (by rw [hr2, hc2]; exact hsmall)) hnb
          · obtain ⟨a1, a2, a3, a4⟩ := hint
            refine ⟨by omega, by omega, by omega, by omega⟩
        simp only [directions2, List.mem_cons, List.not_mem_nil,
          or_false] at hd
        have hsum : pick.2.2.1 / 2 * 2 = pick.2.2.1 ∧
            pick.2.2.2 / 2 * 2 = pick.2.2.2 ∧
            (pick.2.2.1 / 2).natAbs + (pick.2.2.2 / 2).natAbs = 1 := by
          rcases hd with h | h | h | h <;>
            rw [show pick.2.2.1 = _ from congrArg Prod.fst h,
              show pick.2.2.2 = _ from congrArg Prod.snd h] <;>
            exact ⟨by decide, by decide, by decide⟩
        obtain ⟨hs1, hs2, hs3⟩ := hsum
        rcases hgn2 : gw2.get_node (cur.1 + pick.2.2.1 / 2)
            (cur.2 + pick.2.2.2 / 2) with _ | m
        · exfalso
          have hbnd : 0 ≤ cur.1 + pick.2.2.1 / 2 ∧
              cur.1 + pick.2.2.1 / 2 < (gw2.rows : Int) ∧
              0 ≤ cur.2 + pick.2.2.2 / 2 ∧
              cur.2 + pick.2.2.2 / 2 < (gw2.cols : Int) := by
            rw [hr2, hc2]
            refine ⟨by omega, by omega, by omega, by omega⟩
          rw [Grid.get_node, if_pos hbnd] at hgn2
          exact Option.noConfusion hgn2
        · obtain ⟨hmb1, hmb2, hmb3, hmb4, hmdef⟩ := get_node_eq_some.mp hgn2
          have hmc1 : (m.1 : Int) = cur.1 + pick.2.2.1 / 2 := by
            rw [hmdef]
            exact Int.toNat_of_nonneg hmb1
          have hmc2 : (m.2 : Int) = cur.2 + pick.2.2.2 / 2 := by
            rw [hmdef]
            exact Int.toNat_of_nonneg hmb3
          have hcurP1 : ((cur.1.toNat : Nat) : Int) = cur.1 :=
            Int.toNat_of_nonneg hcurb.1
          have hcurP2 : ((cur.2.toNat : Nat) : Int) = cur.2 :=
            Int.toNat_of_nonneg hcurb.2.2.1
          have hcurPb : gw2.inBounds (cur.1.toNat, cur.2.toNat) := by
            constructor
            · show cur.1.toNat < gw2.rows
              omega
            · show cur.2.toNat < gw2.cols
              omega
          have hcurPw : (gw2.cells (cur.1.toNat, cur.2.toNat)).is_wall =
              false := by
            refine hI2.hvisw cur hcurv2 (cur.1.toNat, cur.2.toNat) ?_ hcurPb
            refine Prod.ext ?_ ?_
            · exact hcurP1
            · exact hcurP2
          have hmw3 : ((gw2.updateCell m NodeData.reset).cells m).is_wall =
              false := by
            rw [updateCell_cells_self]
            rfl
          have hwmono : ∀ q : Pos, (gw2.cells q).is_wall = false →
              ((gw2.updateCell m NodeData.reset).cells q).is_wall = false := by
            intro q hq
            by_cases hqm : q = m
            · rw [hqm]
              exact hmw3
            · rw [updateCell_cells_of_ne gw2 m NodeData.reset hqm]
              exact hq
          have hrows3 : (gw2.updateCell m NodeData.reset).rows = g.rows := by
            rw [updateCell_rows]
            exact hI2.hrows
          have hcols3 : (gw2.updateCell m NodeData.reset).cols = g.cols := by
            rw [updateCell_cols]
            exact hI2.hcols
          have hb3iff : ∀ q : Pos,
              (gw2.updateCell m NodeData.reset).inBounds q ↔
                gw2.inBounds q := by
            intro q
            rw [rb_inBounds_iff g _ hrows3 hcols3 q,
              rb_inBounds_iff g gw2 hI2.hrows hI2.hcols q]
          have hcurne : (cur.1.toNat, cur.2.toNat) ≠ m := by
            have hne : cur.1.toNat ≠ m.1 ∨ cur.2.toNat ≠ m.2 := by omega
            intro h
            rcases hne with h1 | h1
            · exact h1 (congrArg Prod.fst h)
            · exact h1 (congrArg Prod.snd h)
          have hI3 : RBInv g X0 (gw2.updateCell m NodeData.reset) vis2
              ((pick.1, pick.2.1) :: cur :: rest) := by
            refine
              { hrows := hrows3
                hcols := hcols3
                hstk := ?_
                hvsub := hI2.hvsub
                hstkv := ?_
                hvisw := ?_
                hhead := ?_
                hX0f := ?_
                hcon := ?_ }
            · intro x hx
              rcases List.mem_cons.mp hx with rfl | hx2
              · exact Or.inr ⟨hf3, by omega, hf5, by omega⟩
              · exact hI2.hstk x hx2
            · intro x hx
              rcases List.mem_cons.mp hx with rfl | hx2
              · exact hcurv2
              · exact hI2.hstkv x hx2
            · intro v hvm q hqc hqb
              exact hwmono q (hI2.hvisw v hvm q hqc ((hb3iff q).mp hqb))
            · intro x hx hnx
              rcases List.mem_cons.mp hx with rfl | hx2
              · refine Or.inr ⟨m, (hb3iff m).mpr ⟨by omega, by omega⟩,
                  hmw3, ?_⟩
                omega
              · rcases List.mem_cons.mp hx2 with rfl | hx3
                · exact absurd hcurv2 hnx
                · exact absurd (hI2.hstkv x hx3) hnx
            · rcases hI2.hX0f with h1 | h2
              · exact Or.inl h1
              · exact absurd (h2 _ hcurPb)
                  (by rw [hcurPw]; exact Bool.noConfusion)
            · refine hcon_extend gw2 (gw2.updateCell m NodeData.reset) m
                (updateCell_rows gw2 m NodeData.reset)
                (updateCell_cols gw2 m NodeData.reset)
                (fun q hq => updateCell_cells_of_ne gw2 m NodeData.reset hq)
                hmw3 ((hb3iff m).mpr ⟨by omega, by omega⟩) hI2.hcon ?_
              refine Or.inl ⟨(cur.1.toNat, cur.2.toNat), hcurne, hcurPb,
                hcurPw, ?_⟩
              show (cur.1.toNat = m.1 ∧
                  (cur.2.toNat = m.2 + 1 ∨ m.2 = cur.2.toNat + 1)) ∨
                (cur.2.toNat = m.2 ∧
                  (cur.1.toNat = m.1 + 1 ∨ m.1 = cur.1.toNat + 1))
              omega
          refine ih (gw2.updateCell m NodeData.reset) vis2
            ((pick.1, pick.2.1) :: cur :: rest) (t + 1) hI3 ?_
          unfold rbMeasure at hm ⊢
          simp only [List.length_cons] at hm ⊢
          have hpen3 : rbHeadPen vis2 ((pick.1, pick.2.1) :: cur :: rest) =
              0 := by
            show (if (pick.1, pick.2.1) ∈ vis2 then 2 else 0) = 0
            rw [if_neg hf7]
          rw [hpen3]
          omega

/-- C7: for every grid and every random choice sequence (the `oracle`
supplying `random.choice`), the phase-1 state of `generate_wall(grid,
'maze')` — every cell turned into a wall, then `_recursive_backtracker` run
to completion, before `_add_openings` — is defined (the carving loop
terminates) and every passage (non-wall) cell of the carved grid is
reachable from every other passage cell via cardinal moves through
passages. -/
theorem maze_phase1_connected (g : Grid) (oracle : Nat → Nat) :
    ∃ (gm : Grid) (vism : Finset (Int × Int)),
      generateWallMazePhase1 g oracle = some (gm, vism) ∧
      gm.rows = g.rows ∧ gm.cols = g.cols ∧
      ∀ p q : Pos, gm.inBounds p → gm.inBounds q →
        (gm.cells p).is_wall = false → (gm.cells q).is_wall = false →
        gm.reach p q := by
  have hfr : (fillWalls g).rows = g.rows := rfl
  have hfc : (fillWalls g).cols = g.cols := rfl
  have hwallall : ∀ p : Pos, (fillWalls g).inBounds p →
      ((fillWalls g).cells p).is_wall = true := by
    intro p hpb
    have hpb' : g.inBounds p := hpb
    show (if g.inBounds p then ((g.cells p).reset).make_wall
      else g.cells p).is_wall = true
    rw [if_pos hpb']
    rfl
  set X0 : Int × Int :=
    (if ((g.rows : Int) / 2) % 2 = 0 then (g.rows : Int) / 2 - 1
      else (g.rows : Int) / 2,
     if ((g.cols : Int) / 2) % 2 = 0 then (g.cols : Int) / 2 - 1
      else (g.cols : Int) / 2) with hX0def
  have hX0 : (0 ≤ X0.1 ∧ X0.1 < ((fillWalls g).rows : Int) ∧ 0 ≤ X0.2 ∧
      X0.2 < ((fillWalls g).cols : Int)) ∨
      (((fillWalls g).rows : Int) ≤ 2 ∨ ((fillWalls g).cols : Int) ≤ 2) := by
    rw [hfr, hfc]
    by_cases hsz : (g.rows : Int) ≤ 2 ∨ (g.cols : Int) ≤ 2
    · exact Or.inr hsz
    · refine Or.inl ?_
      rw [hX0def]
      constructor
      · split_ifs <;> omega
      constructor
      · split_ifs <;> omega
      constructor
      · split_ifs <;> omega
      · split_ifs <;> omega
  have hInit : RBInv (fillWalls g) X0 (fillWalls g) ∅ [X0] :=
    { hrows := rfl
      hcols := rfl
      hstk := fun x hx => Or.inl (List.mem_singleton.mp hx)
      hvsub := Finset.empty_subset _
      hstkv := fun x hx => absurd hx (List.not_mem_nil x)
      hvisw := fun v hv => absurd hv (Finset.not_mem_empty v)
      hhead := fun x hx _ => Or.inl (List.mem_singleton.mp hx)
      hX0f := Or.inr hwallall
      hcon := fun p q hpb _ hpw _ =>
        absurd (hwallall p hpb)
          (fun h => by rw [h] at hpw; exact Bool.noConfusion hpw) }
  have hmeas : rbMeasure (fillWalls g) X0 ∅ [X0] <
      3 * g.rows * g.cols + 6 := by
    have hcard : (visCand (fillWalls g) X0).card ≤
        1 + (((g.rows : Int) - 2 + 1 - 1).toNat *
          ((g.cols : Int) - 2 + 1 - 1).toNat) := by
      unfold visCand
      refine le_trans (Finset.card_insert_le _ _) ?_
      rw [Finset.card_product, Int.card_Icc, Int.card_Icc, hfr, hfc]
      omega
    have ha : ((g.rows : Int) - 2 + 1 - 1).toNat ≤ g.rows := by omega
    have hb : ((g.cols : Int) - 2 + 1 - 1).toNat ≤ g.cols := by omega
    have hab : ((g.rows : Int) - 2 + 1 - 1).toNat *
        ((g.cols : Int) - 2 + 1 - 1).toNat ≤ g.rows * g.cols :=
      Nat.mul_le_mul ha hb
    have h3 : 3 * (visCand (fillWalls g) X0).card ≤
        3 * (1 + (((g.rows : Int) - 2 + 1 - 1).toNat *
          ((g.cols : Int) - 2 + 1 - 1).toNat)) :=
      Nat.mul_le_mul_left 3 hcard
    have h4 : 3 * (1 + (((g.rows : Int) - 2 + 1 - 1).toNat *
        ((g.cols : Int) - 2 + 1 - 1).toNat)) ≤
        3 + 3 * (g.rows * g.cols) := by
      have h5 : 3 * (((g.rows : Int) - 2 + 1 - 1).toNat *
          ((g.cols : Int) - 2 + 1 - 1).toNat) ≤ 3 * (g.rows * g.cols) :=
        Nat.mul_le_mul_left 3 hab
      omega
    have h6 : 3 * g.rows * g.cols = 3 * (g.rows * g.cols) :=
      Nat.mul_assoc 3 g.rows g.cols
    unfold rbMeasure
    rw [Finset.sdiff_empty]
    have hpen : rbHeadPen ∅ [X0] = 0 := by
      show (if X0 ∈ (∅ : Finset (Int × Int)) then 2 else 0) = 0
      rw [if_neg (Finset.not_mem_empty X0)]
    rw [hpen, List.length_singleton, h6]
    omega
  obtain ⟨gm, vism, hrun, hF⟩ := rbLoop_master (fillWalls g) X0 oracle hX0
    (3 * g.rows * g.cols + 6) (fillWalls g) ∅ [X0] 0 hInit hmeas
  exact ⟨gm, vism, hrun, hF.hrows, hF.hcols, hF.hcon⟩
